import Mathlib

/-!
# Loop fusion legality checks and transformation (ASS_4/LoopFusion.cpp)

A shallow embedding of the loop-fusion pass.  The IR is a pointer graph in the
source; here every block and every instruction carries a stable identifier, and
an operand that points to an instruction or a block holds that identifier.

What the pass asks of LLVM's own analyses (loop queries, dominator trees, scalar
evolution) is not code of the pass: those answers are parameters of the
definitions below, and every theorem holds for all of them.

The strength reduction and the multi-instruction pass of ASS_1/LocalOpts.cpp are
embedded on the same IR, in the namespace `LocalOpts`, and the loop-invariant code
motion of ASS_3/LoopWalk.cpp in the namespace `LoopWalk`.
-/

namespace LoopFusion

/-! ## Data model -/

abbrev BlockId := Nat

abbrev InstId := Nat

/-- Instruction opcodes (the subset of `llvm::Instruction` opcodes the passes look at,
plus the other common ones). -/
inductive Opcode where
  | Ret | Br | Switch | Unreachable
  | Add | Sub | Mul | UDiv | SDiv | Shl | LShr | AShr | And | Or | Xor
  | Alloca | Load | Store | GetElementPtr
  | Trunc | ZExt | SExt
  | ICmp | PHI | Call | Select
  deriving DecidableEq, Repr

/-- The opcodes of `Instruction::isTerminator`. -/
def Opcode.isTerminator : Opcode → Bool
  | .Ret => true
  | .Br => true
  | .Switch => true
  | .Unreachable => true
  | _ => false

/-- An `llvm::Value*` as it appears in an operand list.  Only `inst` passes
`dyn_cast<Instruction>`. -/
inductive Value where
  | inst (i : InstId)
  | arg (n : Nat)
  | const (c : Int)
  | global (g : Nat)
  | block (b : BlockId)
  deriving DecidableEq, Repr

/-- An instruction: its identity, opcode and ordered operand list, together with its
result type and the subclass data (compare predicate, wrap flags) that
`isIdenticalTo` compares. A conditional `br` stores `[cond, ifFalse, ifTrue]`, an
unconditional one `[dest]`, a `switch` stores `[cond, default, v1, d1, ...]`. -/
structure Instruction where
  id : InstId
  opcode : Opcode
  operands : List Value
  ty : Nat
  subclassData : Nat
  deriving DecidableEq, Repr

/-- A basic block: identity and instruction list. -/
structure BasicBlock where
  id : BlockId
  insts : List Instruction
  deriving DecidableEq, Repr

/-- A function body: its basic blocks, in layout order. -/
structure Function where
  blocks : List BasicBlock
  deriving DecidableEq, Repr

/-- What a `llvm::Loop` object stores: its block list, whose first entry is the
header.  Everything else a loop is asked is derived by LLVM from the CFG at the
moment of the call (see `LoopQueries`).  Two loops of a function differ in their
header, so this data identifies the `Loop*`. -/
structure Loop where
  header : BlockId
  rest : List BlockId
  deriving DecidableEq, Repr

/-- `Loop::getBlocks`. -/
def Loop.getBlocks (L : Loop) : List BlockId := L.header :: L.rest

/-- `Loop::getHeader`, the front of the block list. -/
def Loop.getHeader (L : Loop) : BlockId := L.header

/-- `Loop::contains(const BasicBlock *)`. -/
def Loop.contains (L : Loop) (b : BlockId) : Bool := L.getBlocks.contains b

/-- `dyn_cast<Instruction>` on an operand: the identity of the instruction, if it is one. -/
def Value.asInst : Value → Option InstId
  | .inst i => some i
  | _ => none

/-- The block an operand names, if it is a label. -/
def Value.asBlock : Value → Option BlockId
  | .block b => some b
  | _ => none

/-- `User::getOperand(i)`; `none` when `i` is out of range (an assertion failure in
LLVM, undefined behaviour in a release build). -/
def Instruction.getOperand (I : Instruction) (i : Nat) : Option Value := I.operands.get? i

/-- Successor list of a terminator, in `getSuccessor` order: a conditional `br`
has successor 0 = the last operand (taken when the condition is true). -/
def Instruction.successors (I : Instruction) : List BlockId :=
  match I.opcode, I.operands with
  | .Br, [.block d] => [d]
  | .Br, [_, .block f, .block t] => [t, f]
  | .Switch, _ :: targets => targets.filterMap Value.asBlock
  | _, _ => []

/-- `BasicBlock::getTerminator`: the last instruction when it is a terminator. -/
def BasicBlock.getTerminator (B : BasicBlock) : Option Instruction :=
  match B.insts.getLast? with
  | some I => if I.opcode.isTerminator then some I else none
  | none => none

/-- Successors of a block: those of its terminator. -/
def BasicBlock.successors (B : BasicBlock) : List BlockId :=
  match B.getTerminator with
  | some T => T.successors
  | none => []

/-- `BasicBlock::getSingleSuccessor`: the successor when there is exactly one
successor edge. -/
def BasicBlock.getSingleSuccessor (B : BasicBlock) : Option BlockId :=
  match B.successors with
  | [s] => some s
  | _ => none

/-- Dereferencing a `BasicBlock*`. -/
def Function.getBlock (F : Function) (b : BlockId) : Option BasicBlock :=
  F.blocks.find? (fun B => B.id == b)

/-- Every instruction of the function paired with the block that holds it. -/
def Function.instructions (F : Function) : List (BlockId × Instruction) :=
  F.blocks.flatMap (fun B => B.insts.map (fun I => (B.id, I)))

/-- Dereferencing an `Instruction*`. -/
def Function.getInst (F : Function) (i : InstId) : Option Instruction :=
  (F.instructions.find? (fun p => p.2.id == i)).map (fun p => p.2)

/-- `Instruction::getParent`. -/
def Function.getParent (F : Function) (i : InstId) : Option BlockId :=
  (F.instructions.find? (fun p => p.2.id == i)).map (fun p => p.1)

/-- Answers of LLVM's loop analysis.  Each is computed by LLVM from the CFG as it
is when the question is asked, hence the `Function` argument. -/
structure LoopQueries where
  getLoopGuardBranch : Function → Loop → Option InstId
  getExitBlock : Function → Loop → Option BlockId
  getUniqueExitBlock : Function → Loop → Option BlockId
  getLoopPreheader : Function → Loop → Option BlockId
  getLoopLatch : Function → Loop → Option BlockId
  getCanonicalInductionVariable : Function → Loop → Option InstId

/-- `Loop::isGuarded`, that is `getLoopGuardBranch() != nullptr`. -/
def LoopQueries.isGuarded (LQ : LoopQueries) (F : Function) (L : Loop) : Bool :=
  (LQ.getLoopGuardBranch F L).isSome

/-- `L->getLoopGuardBranch()` dereferenced; `none` when the loop has no guard. -/
def guardBranch (LQ : LoopQueries) (F : Function) (L : Loop) : Option Instruction :=
  (LQ.getLoopGuardBranch F L).bind F.getInst

/-- `L->getLoopGuardBranch()->getParent()`; `none` when the loop has no guard. -/
def guardParent (LQ : LoopQueries) (F : Function) (L : Loop) : Option BlockId :=
  (LQ.getLoopGuardBranch F L).bind F.getParent

/-! ## adjLoops -/

/-- `pair`: insertion into the `std::set` of loop pairs.  The set is kept as a list
without repetition; the order in which a `std::set` is walked is applied where the
set is walked (`setOrder`, in `run`). -/
def pair (L1 L2 : Loop) (set : List (Loop × Loop)) : List (Loop × Loop) :=
  if (L1, L2) ∈ set then set else set ++ [(L1, L2)]

/-- The scan of the exit block in the guarded case of `adjLoops`: is there an
instruction that is not the block's terminator? -/
def extraInstr (B : BasicBlock) : Bool :=
  B.insts.any (fun I => B.getTerminator.map (fun T => T.id) != some I.id)

/-- Body of the inner loop of `adjLoops` for one ordered pair. -/
def adjLoopsPair (LQ : LoopQueries) (F : Function) (adjacentLoops : List (Loop × Loop))
    (L1 L2 : Loop) : List (Loop × Loop) :=
  if LQ.isGuarded F L1 && LQ.isGuarded F L2 then
    let exitBlock := LQ.getExitBlock F L1
    let guard2 := guardParent LQ F L2
    match exitBlock, guard2 with
    | some e, some g =>
      match F.getBlock e with
      | some E =>
        if E.getSingleSuccessor = some g then
          if extraInstr E then adjacentLoops else pair L1 L2 adjacentLoops
        else adjacentLoops
      | none => adjacentLoops
    | _, _ => adjacentLoops
  else if !LQ.isGuarded F L1 && !LQ.isGuarded F L2 then
    let exitBlock := LQ.getExitBlock F L1
    let preheader2 := LQ.getLoopPreheader F L2
    match exitBlock, preheader2 with
    | some e, some p => if e = p then pair L1 L2 adjacentLoops else adjacentLoops
    | _, _ => adjacentLoops
  else adjacentLoops

/-- `adjLoops`: the double scan over the top-level loops `LI`, adding every
adjacent ordered pair to `adjacentLoops`. -/
def adjLoops (LQ : LoopQueries) (F : Function) (adjacentLoops : List (Loop × Loop))
    (LI : List Loop) : List (Loop × Loop) :=
  LI.foldl (fun acc L1 => LI.foldl (fun acc2 L2 => adjLoopsPair LQ F acc2 L1 L2) acc)
    adjacentLoops

/-! ## checkEquivalence -/

/-- A dominator tree or post-dominator tree, through its `dominates(A, B)` query.
The trees are built before the pass runs and are not updated by it. -/
structure DominatorTree where
  dominates : BlockId → BlockId → Bool

/-- `Instruction::isIdenticalTo`: same opcode, type, operands and subclass data. -/
def Instruction.isIdenticalTo (I J : Instruction) : Bool :=
  I.opcode == J.opcode && I.ty == J.ty && I.operands == J.operands &&
    I.subclassData == J.subclassData

/-- `BranchInst::getCondition`, defined on conditional branches only. -/
def Instruction.getCondition (I : Instruction) : Option Value :=
  match I.opcode, I.operands with
  | .Br, [c, _, _] => some c
  | _, _ => none

/-- First statement of `checkEquivalence` (lines 92-96): `some true` when the early
`return 0` is taken, `some false` when control falls through, `none` when a null
guard branch is dereferenced. -/
def guardConditionsDiffer (LQ : LoopQueries) (F : Function) (loop : Loop × Loop) :
    Option Bool :=
  if LQ.isGuarded F loop.1 then do
    let g1 ← guardBranch LQ F loop.1
    let c1 ← g1.getCondition
    match c1.asInst with
    | none => pure false
    | some i1 => do
      let FC0CmpInst ← F.getInst i1
      let g2 ← guardBranch LQ F loop.2
      let c2 ← g2.getCondition
      match c2.asInst with
      | none => pure false
      | some i2 => do
        let FC1CmpInst ← F.getInst i2
        pure (!FC0CmpInst.isIdenticalTo FC1CmpInst)
  else pure false

/-- `checkEquivalence`; `none` when a null guard branch is dereferenced. -/
def checkEquivalence (LQ : LoopQueries) (F : Function) (DT PDT : DominatorTree)
    (loop : Loop × Loop) : Option Bool := do
  let differ ← guardConditionsDiffer LQ F loop
  if differ then pure false
  else if LQ.isGuarded F loop.1 then do
    let p1 ← guardParent LQ F loop.1
    let p2 ← guardParent LQ F loop.2
    pure (DT.dominates p1 p2 && PDT.dominates p2 p1)
  else
    pure (DT.dominates loop.1.getHeader loop.2.getHeader &&
      PDT.dominates loop.2.getHeader loop.1.getHeader)

/-- The block that controls entry to a loop in the words of the specification: the
block holding the guard branch for a guarded loop, the header for an unguarded one. -/
def entryBlock (LQ : LoopQueries) (F : Function) (L : Loop) : Option BlockId :=
  if LQ.isGuarded F L then guardParent LQ F L else some L.getHeader

/-! ## TripCount -/

/-- The kinds of `llvm::SCEV` expression. -/
inductive SCEVTypes where
  | scConstant | scUnknown | scAddExpr | scMulExpr | scUDivExpr | scAddRecExpr
  | scCouldNotCompute
  deriving DecidableEq, Repr

/-- Symbolic expressions of scalar evolution.  LLVM keeps one object per distinct
expression, so pointer equality of `const SCEV *` is equality of the expressions. -/
inductive SCEV where
  | constant (c : Int)
  | unknown (v : Value)
  | addExpr (a b : SCEV)
  | mulExpr (a b : SCEV)
  | udivExpr (a b : SCEV)
  | addRecExpr (start step : SCEV) (header : BlockId)
  | couldNotCompute
  deriving DecidableEq, Repr

/-- `SCEV::getSCEVType`. -/
def SCEV.getSCEVType : SCEV → SCEVTypes
  | .constant _ => .scConstant
  | .unknown _ => .scUnknown
  | .addExpr _ _ => .scAddExpr
  | .mulExpr _ _ => .scMulExpr
  | .udivExpr _ _ => .scUDivExpr
  | .addRecExpr _ _ _ => .scAddRecExpr
  | .couldNotCompute => .scCouldNotCompute

/-- The scalar-evolution analysis.  It computes a backedge-taken count from the IR
on first request and keeps it in a cache, so a query reads the current function
and changes the state `σ` of the analysis. -/
structure ScalarEvolution (σ : Type) where
  getBackedgeTakenCount : σ → Function → Loop → SCEV × σ

/-- `TripCount`, returning its result and the state of the analysis after the two
queries. -/
def TripCount {σ : Type} (SE : ScalarEvolution σ) (s : σ) (F : Function)
    (loop : Loop × Loop) : Bool × σ :=
  let r1 := SE.getBackedgeTakenCount s F loop.1
  let r2 := SE.getBackedgeTakenCount r1.2 F loop.2
  let l1Backedges := r1.1
  let l2Backedges := r2.1
  if l1Backedges.getSCEVType = SCEV.couldNotCompute.getSCEVType ||
      l2Backedges.getSCEVType = SCEV.couldNotCompute.getSCEVType then
    (false, r2.2)
  else if l1Backedges = l2Backedges then (true, r2.2)
  else (false, r2.2)

/-! ## negDependencies -/

/-- Accumulation of the results of a loop body over the elements of a range; the run
is undefined as soon as the body is undefined on one element. -/
def collectM {α β : Type} (f : α → Option (List β)) : List α → Option (List β)
  | [] => some []
  | x :: xs =>
    match f x, collectM f xs with
    | some n, some r => some (n ++ r)
    | _, _ => none

/-- The instructions of the blocks in `bs`, in order; `none` if a block is not in
the function. -/
def Function.instsOfBlocks (F : Function) (bs : List BlockId) : Option (List Instruction) :=
  collectM (fun b => (F.getBlock b).map (fun B => B.insts)) bs

/-- The users of `a` that are instructions contained in `L2`
(`a->uses()`, filtered by `dyn_cast<Instruction>` and `loop.second->contains`). -/
def usersIn (F : Function) (L2 : Loop) (a : Value) : List Instruction :=
  (F.instructions.filter (fun p => L2.contains p.1 && p.2.operands.contains a)).map
    (fun p => p.2)

/-- Lines 178-200 of `negDependencies` for one user `inst` of the base: the
instructions it adds to `depInst`. -/
def depOfUser (F : Function) (inst : Instruction) : Option (List InstId) :=
  match inst.getOperand 1 with
  | none => none
  | some op1 =>
    match op1.asInst with
    | none => some []
    | some i2 =>
      match F.getInst i2 with
      | none => none
      | some inst2 =>
        match inst2.getOperand 0 with
        | none => none
        | some op0 =>
          match op0.asInst with
          | none => some []
          | some p =>
            match F.getInst p with
            | none => none
            | some PHIinst =>
              match PHIinst.opcode with
              | .PHI => some []
              | .Sub => some []
              | _ => some [PHIinst.id]

/-- Lines 166-205 of `negDependencies` for one instruction `I` of the first loop. -/
def depOfInst (F : Function) (L2 : Loop) (I : Instruction) : Option (List InstId) :=
  if I.opcode = Opcode.GetElementPtr then
    match I.getOperand 0 with
    | none => none
    | some a => collectM (depOfUser F) (usersIn F L2 a)
  else some []

/-- The set `depInst` at the end of the scan of `negDependencies`; `none` when an
operand index is out of range. -/
def depInst (F : Function) (loop : Loop × Loop) : Option (List InstId) :=
  match F.instsOfBlocks loop.1.getBlocks with
  | none => none
  | some is => collectM (depOfInst F loop.2) is

/-- `negDependencies`: true when `depInst` is empty. -/
def negDependencies (F : Function) (loop : Loop × Loop) : Option Bool :=
  (depInst F loop).map (fun d => d.isEmpty)

/-! ## loopFusion -/

/-- One operand slot under `replaceAllUsesWith`. -/
def Value.replaceUse (old new v : Value) : Value := if v = old then new else v

/-- An instruction under `replaceAllUsesWith`: each of its operands is rewritten. -/
def Instruction.replaceUses (old new : Value) (I : Instruction) : Instruction :=
  ⟨I.id, I.opcode, I.operands.map (Value.replaceUse old new), I.ty, I.subclassData⟩

/-- A block under `replaceAllUsesWith`. -/
def BasicBlock.replaceUses (old new : Value) (B : BasicBlock) : BasicBlock :=
  ⟨B.id, B.insts.map (Instruction.replaceUses old new)⟩

/-- `Value::replaceAllUsesWith`: every operand equal to `old` becomes `new`. -/
def Function.replaceAllUsesWith (F : Function) (old new : Value) : Function :=
  ⟨F.blocks.map (BasicBlock.replaceUses old new)⟩

/-- An identifier no instruction of the function carries, for a newly created
instruction. -/
def Function.freshId (F : Function) : InstId :=
  (F.instructions.map (fun p => p.2.id)).foldl max 0 + 1

/-- The function with the instruction list of block `b` replaced. -/
def Function.updateBlock (F : Function) (b : BlockId) (insts : List Instruction) : Function :=
  ⟨F.blocks.map (fun B => if B.id = b then ⟨B.id, insts⟩ else B)⟩

/-- `Instruction::setSuccessor(idx, b)` on a terminator: for `br` successor `idx` is
the operand `idx` places before the last one; for `switch` it is operand
`2 * idx + 1`; other terminators have no successor to set.  A successor slot always
holds a block. -/
def Instruction.setSuccessor (I : Instruction) (idx : Nat) (b : BlockId) :
    Option Instruction :=
  match I.opcode with
  | .Br =>
    match I.operands with
    | [.block _] =>
      if idx = 0 then some ⟨I.id, I.opcode, [.block b], I.ty, I.subclassData⟩ else none
    | [c, .block f, .block t] =>
      if idx = 0 then some ⟨I.id, I.opcode, [c, .block f, .block b], I.ty, I.subclassData⟩
      else if idx = 1 then
        some ⟨I.id, I.opcode, [c, .block b, .block t], I.ty, I.subclassData⟩
      else none
    | _ => none
  | .Switch =>
    match I.operands.get? (2 * idx + 1) with
    | some (.block _) =>
      some ⟨I.id, I.opcode, I.operands.set (2 * idx + 1) (.block b), I.ty, I.subclassData⟩
    | _ => none
  | _ => none

/-- `blk->getTerminator()->setSuccessor(idx, dest)`; `none` when the block has no
terminator or the terminator has no successor `idx`. -/
def Function.setTerminatorSuccessor (F : Function) (blk : BlockId) (idx : Nat)
    (dest : BlockId) : Option Function :=
  match F.getBlock blk with
  | none => none
  | some B =>
    match B.getTerminator with
    | none => none
    | some T =>
      match T.setSuccessor idx dest with
      | none => none
      | some T2 => some (F.updateBlock blk (B.insts.dropLast ++ [T2]))

/-- `BranchInst::Create(..., blk->getTerminator())`: a new `br` with the given
operand list, placed before the terminator of `blk`.  When the block has no
terminator the new instruction is not inserted anywhere. -/
def Function.createBranchBeforeTerminator (F : Function) (blk : BlockId)
    (operands : List Value) : Option Function :=
  match F.getBlock blk with
  | none => none
  | some B =>
    match B.getTerminator with
    | none => some F
    | some T =>
      some (F.updateBlock blk (B.insts.dropLast ++ [⟨F.freshId, .Br, operands, 0, 0⟩, T]))

/-- Does an operand of some instruction still refer to instruction `i`? -/
def Function.hasUses (F : Function) (i : InstId) : Bool :=
  F.instructions.any (fun p => p.2.operands.contains (.inst i))

/-- `blk->getTerminator()->eraseFromParent()`: the last instruction leaves the block;
`none` when the block has no terminator or an operand still refers to it. -/
def Function.eraseTerminator (F : Function) (blk : BlockId) : Option Function :=
  match F.getBlock blk with
  | none => none
  | some B =>
    match B.getTerminator with
    | none => none
    | some T => if F.hasUses T.id then none else some (F.updateBlock blk B.insts.dropLast)

/-- `blk->back().getOperand(0)`. -/
def Function.backOperand0 (F : Function) (blk : BlockId) : Option Value :=
  match F.getBlock blk with
  | none => none
  | some B =>
    match B.insts.getLast? with
    | none => none
    | some I => I.getOperand 0

/-- `blk->front().eraseFromParent()`: the first instruction leaves the block; `none`
when the block is empty or an operand still refers to that instruction. -/
def Function.eraseFront (F : Function) (blk : BlockId) : Option Function :=
  match F.getBlock blk with
  | none => none
  | some B =>
    match B.insts.head? with
    | none => none
    | some I => if F.hasUses I.id then none else some (F.updateBlock blk B.insts.tail)

/-- The unguarded branch of `loopFusion` (lines 250-265), after the induction
variable has been replaced and the header, latch and exit blocks looked up. -/
def loopFusionUnguarded (F1 : Function) (L1 L2 : Loop) (latch1 : BlockId)
    (latch2 : Option BlockId) (exit : BlockId) : Option Function := do
  let lastL1BB ← L1.getBlocks.dropLast.getLast?
  let l2First ← L2.getBlocks.tail.dropLast.head?
  let F2 ← F1.setTerminatorSuccessor lastL1BB 0 l2First
  let l2Last ← L2.getBlocks.tail.dropLast.getLast?
  let F3 ← F2.setTerminatorSuccessor l2Last 0 latch1
  let l2 ← latch2
  let F4 ← F3.createBranchBeforeTerminator L2.getHeader [.block l2]
  let F5 ← F4.eraseTerminator L2.getHeader
  let l1First ← L1.getBlocks.tail.head?
  let cond ← F5.backOperand0 L1.getHeader
  let F6 ← F5.createBranchBeforeTerminator L1.getHeader [cond, .block exit, .block l1First]
  F6.eraseTerminator L1.getHeader

/-- The guarded branch of `loopFusion` (lines 275-292). -/
def loopFusionGuarded (LQ : LoopQueries) (F1 : Function) (L1 L2 : Loop) (latch1 : BlockId)
    (exit : BlockId) : Option Function := do
  let guard1 ← guardParent LQ F1 L1
  let preheader1 ← LQ.getLoopPreheader F1 L1
  let gcond ← F1.backOperand0 guard1
  let F2 ← F1.createBranchBeforeTerminator guard1 [gcond, .block exit, .block preheader1]
  let F3 ← F2.eraseTerminator guard1
  let lcond ← F3.backOperand0 latch1
  let F4 ← F3.createBranchBeforeTerminator latch1 [lcond, .block exit, .block L1.getHeader]
  let F5 ← F4.eraseTerminator latch1
  let l1Last ← L1.getBlocks.dropLast.getLast?
  let F6 ← F5.setTerminatorSuccessor l1Last 0 L2.getHeader
  let l2Last ← L2.getBlocks.dropLast.getLast?
  let F7 ← F6.setTerminatorSuccessor l2Last 0 latch1
  F7.eraseFront L2.getHeader

/-- `loopFusion`.  The result is `none` when the source dereferences a null pointer,
takes `front()`/`back()`/`drop_back` of an empty range, passes a null block or value
into the IR, replaces a value by itself, or erases an instruction that still has
uses; none of these is guarded in the source. -/
def loopFusion (LQ : LoopQueries) (F : Function) (L1 L2 : Loop) : Option Function :=
  match LQ.getCanonicalInductionVariable F L1, LQ.getCanonicalInductionVariable F L2 with
  | some firstLoopIV, some secondLoopIV =>
    if firstLoopIV = secondLoopIV then none
    else
      let F1 := F.replaceAllUsesWith (.inst secondLoopIV) (.inst firstLoopIV)
      match LQ.getLoopLatch F1 L1, LQ.getUniqueExitBlock F1 L2 with
      | some latch1, some exit =>
        if !LQ.isGuarded F1 L1 then
          loopFusionUnguarded F1 L1 L2 latch1 (LQ.getLoopLatch F1 L2) exit
        else loopFusionGuarded LQ F1 L1 L2 latch1 exit
      | _, _ => none
  | _, _ => none

/-! ## run -/

/-- What the pass reports to the pass manager. -/
inductive PreservedAnalyses where
  | none
  | all
  deriving DecidableEq, Repr

/-- State of the loop of `run` over the adjacent pairs: the function, the state of
scalar evolution, the flag `modified`, and (for the statements below) the list of
pairs `loopFusion` has been called on so far, oldest first. -/
structure RunState (σ : Type) where
  F : Function
  se : σ
  modified : Bool
  fused : List (Loop × Loop)

/-- One iteration of the loop of `run` (lines 311-324). -/
def runStep {σ : Type} (LQ : LoopQueries) (DT PDT : DominatorTree)
    (SE : ScalarEvolution σ) (st : RunState σ) (loop : Loop × Loop) :
    Option (RunState σ) :=
  match checkEquivalence LQ st.F DT PDT loop with
  | none => none
  | some false => some st
  | some true =>
    let tc := TripCount SE st.se st.F loop
    if !tc.1 then some ⟨st.F, tc.2, st.modified, st.fused⟩
    else
      match negDependencies st.F loop with
      | none => none
      | some false => some ⟨st.F, tc.2, st.modified, st.fused⟩
      | some true =>
        match loopFusion LQ st.F loop.1 loop.2 with
        | none => none
        | some F2 => some ⟨F2, tc.2, true, st.fused ++ [loop]⟩

/-- The loop of `run` over a sequence of pairs. -/
def runLoop {σ : Type} (LQ : LoopQueries) (DT PDT : DominatorTree)
    (SE : ScalarEvolution σ) : RunState σ → List (Loop × Loop) → Option (RunState σ)
  | st, [] => some st
  | st, loop :: rest =>
    match runStep LQ DT PDT SE st loop with
    | none => none
    | some st2 => runLoop LQ DT PDT SE st2 rest

/-- Order of `std::set<std::pair<Loop *, Loop *>>`: pairs are compared by the
addresses of the two loop objects, first component first. -/
def pairLE (addr : Loop → Nat) (p q : Loop × Loop) : Prop :=
  addr p.1 < addr q.1 ∨ (addr p.1 = addr q.1 ∧ addr p.2 ≤ addr q.2)

instance pairLE_decidable (addr : Loop → Nat) : DecidableRel (pairLE addr) :=
  fun p q => inferInstanceAs (Decidable (addr p.1 < addr q.1 ∨
    (addr p.1 = addr q.1 ∧ addr p.2 ≤ addr q.2)))

/-- The sequence in which a range-for walks the set of pairs. -/
def setOrder (addr : Loop → Nat) (set : List (Loop × Loop)) : List (Loop × Loop) :=
  set.insertionSort (pairLE addr)

/-- `LoopFusion::run`: the reported `PreservedAnalyses` and the final state.  `addr`
gives the address of each loop object, which fixes the order of the walk. -/
def run {σ : Type} (LQ : LoopQueries) (DT PDT : DominatorTree) (SE : ScalarEvolution σ)
    (addr : Loop → Nat) (s : σ) (F : Function) (LI : List Loop) :
    Option (PreservedAnalyses × RunState σ) :=
  let adjacentLoops := adjLoops LQ F [] LI
  match runLoop LQ DT PDT SE ⟨F, s, false, []⟩ (setOrder addr adjacentLoops) with
  | none => none
  | some st =>
    if st.modified then some (PreservedAnalyses.none, st)
    else some (PreservedAnalyses.all, st)

/-- The setting of the claims on the unguarded splice: the two canonical induction
variables exist, the first loop is unguarded, and the block lists of the loops have
the form `[header, body blocks..., latch]` with at least one body block each
(`first` and `last` name the first and the last body block), no block occurring
twice.  The loop queries are those `loopFusion` makes, on the function as it is after
the induction variable has been replaced. -/
structure UnguardedSetting (LQ : LoopQueries) (F : Function) (L1 L2 : Loop)
    (iv1 iv2 : InstId) (bodies1 bodies2 : List BlockId)
    (latch1 latch2 exit first1 last1 first2 last2 : BlockId) : Prop where
  iv1_eq : LQ.getCanonicalInductionVariable F L1 = some iv1
  iv2_eq : LQ.getCanonicalInductionVariable F L2 = some iv2
  unguarded : LQ.isGuarded (F.replaceAllUsesWith (.inst iv2) (.inst iv1)) L1 = false
  latch1_eq : LQ.getLoopLatch (F.replaceAllUsesWith (.inst iv2) (.inst iv1)) L1 = some latch1
  latch2_eq : LQ.getLoopLatch (F.replaceAllUsesWith (.inst iv2) (.inst iv1)) L2 = some latch2
  exit_eq :
    LQ.getUniqueExitBlock (F.replaceAllUsesWith (.inst iv2) (.inst iv1)) L2 = some exit
  blocks1 : L1.rest = bodies1 ++ [latch1]
  blocks2 : L2.rest = bodies2 ++ [latch2]
  first1_eq : bodies1.head? = some first1
  last1_eq : bodies1.getLast? = some last1
  first2_eq : bodies2.head? = some first2
  last2_eq : bodies2.getLast? = some last2
  distinct : (L1.getBlocks ++ L2.getBlocks).Nodup

/-- The setting of the claims on the guarded splice: the two canonical induction
variables exist, the first loop is guarded, its guard branch sits in block `guard1`,
and the block list of each loop ends in a block other than the header (for the first
loop, its latch), no block occurring twice and the guard block lying outside both
loops.  `last1` and `last2` name the block before the final one in each list.  The
loop queries are those `loopFusion` makes, on the function as it is after the
induction variable has been replaced. -/
structure GuardedSetting (LQ : LoopQueries) (F : Function) (L1 L2 : Loop)
    (iv1 iv2 : InstId) (mid1 mid2 : List BlockId)
    (guard1 preheader1 latch1 final2 exit last1 last2 : BlockId) : Prop where
  iv1_eq : LQ.getCanonicalInductionVariable F L1 = some iv1
  iv2_eq : LQ.getCanonicalInductionVariable F L2 = some iv2
  guarded : LQ.isGuarded (F.replaceAllUsesWith (.inst iv2) (.inst iv1)) L1 = true
  guard_eq : guardParent LQ (F.replaceAllUsesWith (.inst iv2) (.inst iv1)) L1 = some guard1
  preheader_eq :
    LQ.getLoopPreheader (F.replaceAllUsesWith (.inst iv2) (.inst iv1)) L1 = some preheader1
  latch1_eq : LQ.getLoopLatch (F.replaceAllUsesWith (.inst iv2) (.inst iv1)) L1 = some latch1
  exit_eq :
    LQ.getUniqueExitBlock (F.replaceAllUsesWith (.inst iv2) (.inst iv1)) L2 = some exit
  blocks1 : L1.rest = mid1 ++ [latch1]
  blocks2 : L2.rest = mid2 ++ [final2]
  last1_eq : (L1.header :: mid1).getLast? = some last1
  last2_eq : (L2.header :: mid2).getLast? = some last2
  distinct : (guard1 :: (L1.getBlocks ++ L2.getBlocks)).Nodup

/-- Is the operand a block label, that is a successor slot of a terminator? -/
def Value.isBlock : Value → Bool
  | .block _ => true
  | _ => false

/-- An operand slot before (`v`) and after (`w`) the fusion: a label is still a label
(the splice rewires successors), and any other operand is the old one with `old`
replaced by `new`. -/
def operandAfter (old new v w : Value) : Prop :=
  if v.isBlock = true then w.isBlock = true else w = Value.replaceUse old new v

/-- An instruction `J` found in block `b` after the fusion, seen from the function `F`
before it: either `J` is an instruction of block `b` of `F` (same identity, same
opcode) whose operands are slot by slot those of before in the sense of
`operandAfter`, or `J` is a `br` the splice created (its identity is that of no
instruction of `F`), each operand of which is a label or an operand of `F` with `old`
replaced by `new`. -/
def fusedFrom (F : Function) (old new : Value) (b : BlockId) (J : Instruction) : Prop :=
  (∃ B I, F.getBlock b = some B ∧ I ∈ B.insts ∧ J.id = I.id ∧ J.opcode = I.opcode ∧
      List.Forall₂ (operandAfter old new) I.operands J.operands) ∨
    (J.opcode = Opcode.Br ∧
      (∀ b0 B0 I, F.getBlock b0 = some B0 → I ∈ B0.insts → I.id ≠ J.id) ∧
      ∀ w ∈ J.operands, w.isBlock = true ∨
        ∃ b0 B0 I v, F.getBlock b0 = some B0 ∧ I ∈ B0.insts ∧ v ∈ I.operands ∧
          w = Value.replaceUse old new v)

/-- What every step of the splice keeps true of the function `F2` it has reached,
`F` being the function `loopFusion` was given: every instruction is `fusedFrom` one of
`F`, no identity of `F` exceeds all identities present, and each block, its last
instruction apart, is as `replaceAllUsesWith` left it. -/
structure SpliceInv (F : Function) (old new : Value) (F2 : Function) : Prop where
  insts : ∀ b B2 J, F2.getBlock b = some B2 → J ∈ B2.insts → fusedFrom F old new b J
  ids : ∀ b B I, F.getBlock b = some B → I ∈ B.insts →
    ∃ b2 B2 J, F2.getBlock b2 = some B2 ∧ J ∈ B2.insts ∧ I.id ≤ J.id
  frame : ∀ b, (F2.getBlock b).map (fun B => B.insts.dropLast) =
    ((F.replaceAllUsesWith old new).getBlock b).map (fun B => B.insts.dropLast)

/-! ## Local optimisations (ASS_1/LocalOpts.cpp)

The strength reduction and the multi-instruction pass work on integer instructions;
here the field `ty` of an instruction is the bit width of its integer type, and a
constant operand `const c` of an instruction of width `w` is the `ConstantInt` whose
`APInt` is `c` modulo `2^w`. -/

namespace LocalOpts

/-- The `APInt` of the constant `c` at width `w`, as an unsigned number. -/
def apValue (w : Nat) (c : Int) : Nat := (c % (2 : Int) ^ w).toNat

/-- `APInt::logBase2` of a non-zero value below `2^fuel`: the index of the highest set
bit. -/
def logBase2 : Nat → Nat → Nat
  | 0, _ => 0
  | fuel + 1, v => if v < 2 then 0 else logBase2 fuel (v / 2) + 1

/-- `APInt::isPowerOf2` at width `w`: exactly one bit is set. -/
def isPowerOf2 (w v : Nat) : Bool := v != 0 && 2 ^ logBase2 w v == v

/-- `APInt::exactLogBase2` on a power of two. -/
def exactLogBase2 (w v : Nat) : Nat := logBase2 w v

/-- `APInt::nearestLogBase2`, an `unsigned`: `VAL - 1` at width 1, `UINT32_MAX` for
zero, and otherwise `lg + x[lg - 1]` with `lg = logBase2(x)`; for `x = 1` the bit
index `lg - 1` is out of bounds (`none`: the assertion of `operator[]`). -/
def nearestLogBase2 (w v : Nat) : Option Nat :=
  if w = 1 then some ((v + 2 ^ 32 - 1) % 2 ^ 32)
  else if v = 0 then some (2 ^ 32 - 1)
  else if logBase2 w v = 0 then none
  else some (logBase2 w v + v / 2 ^ (logBase2 w v - 1) % 2)

/-- What the body of the loop of `runOnBasicBlockAdv` creates for the instruction `I`,
in the order of insertion after `I`; the last created instruction takes over the uses
of `I`, and the empty list means that `I` is left alone.  `n` is the identity of the
first created instruction.  `none` when an operand is missing or an assertion of
`APInt` fails. -/
def strengthReduction (n : InstId) (I : Instruction) : Option (List Instruction) :=
  match I.opcode with
  | .Mul =>
    match I.getOperand 1, I.getOperand 0 with
    | some op1, some op0 =>
      let immx : Option (Int × Value) :=
        match op1, op0 with
        | .const c, _ => some (c, op0)
        | _, .const c => some (c, op1)
        | _, _ => none
      match immx with
      | none => some []
      | some (c, x) =>
        let val := apValue I.ty c
        if val = 1 then some []
        else if isPowerOf2 I.ty val then
          some [⟨n, .Shl, [x, .const (exactLogBase2 I.ty val)], I.ty, 0⟩]
        else if isPowerOf2 I.ty ((val + 1) % 2 ^ I.ty) then
          match nearestLogBase2 I.ty val with
          | none => none
          | some s =>
            some [⟨n, .Shl, [x, .const s], I.ty, 0⟩, ⟨n + 1, .Sub, [.inst n, x], I.ty, 0⟩]
        else if isPowerOf2 I.ty ((val + 2 ^ I.ty - 1) % 2 ^ I.ty) then
          match nearestLogBase2 I.ty val with
          | none => none
          | some s =>
            some [⟨n, .Shl, [x, .const s], I.ty, 0⟩, ⟨n + 1, .Add, [.inst n, x], I.ty, 0⟩]
        else some []
    | _, _ => none
  | .SDiv =>
    match I.getOperand 1, I.getOperand 0 with
    | some (.const c), some x =>
      if isPowerOf2 I.ty (apValue I.ty c) then
        match nearestLogBase2 I.ty (apValue I.ty c) with
        | none => none
        | some s => some [⟨n, .LShr, [x, .const s], I.ty, 0⟩]
      else some []
    | some _, _ => some []
    | none, _ => none
  | _ => some []

/-- The list with `news` inserted after the instruction of identity `i`. -/
def insertAfter (i : InstId) (news : List Instruction) : List Instruction → List Instruction
  | [] => []
  | I :: rest => if I.id = i then I :: (news ++ rest) else I :: insertAfter i news rest

/-- One iteration of the loop of `runOnBasicBlockAdv`, at the instruction of identity
`i` of block `blk`: the created instructions are inserted after it and every use of
it is replaced by the last of them. -/
def stepAdv (blk : BlockId) (F : Function) (i : InstId) : Option Function :=
  match F.getBlock blk with
  | none => none
  | some B =>
    match B.insts.find? (fun I => I.id == i) with
    | none => none
    | some I =>
      match strengthReduction F.freshId I with
      | none => none
      | some news =>
        match news.getLast? with
        | none => some F
        | some N =>
          some ((F.updateBlock blk (insertAfter i news B.insts)).replaceAllUsesWith
            (.inst i) (.inst N.id))

/-- `runOnBasicBlockAdv` on block `blk`.  The loop of the source also visits the
instructions it has just inserted; they are shifts, additions and subtractions, for
which its body does nothing, so the walk below goes over the instructions the block
had at the start. -/
def runOnBasicBlockAdv (F : Function) (blk : BlockId) : Option Function :=
  match F.getBlock blk with
  | none => none
  | some B => (B.insts.map (fun I => I.id)).foldlM (stepAdv blk) F

/-- The constant operand an instruction is found to have by the two `dyn_cast`s of
`runOnMultiInstruction` (second operand first), with the operand left over. -/
def immediate (I : Instruction) : Option (Option (Int × Value)) :=
  match I.getOperand 1, I.getOperand 0 with
  | some (.const c), some op0 => some (some (c, op0))
  | some op1, some (.const c) => some (some (c, op1))
  | some _, some _ => some none
  | _, _ => none

/-- Is the opcode an addition or a subtraction? -/
def isAddSub (op : Opcode) : Bool := op == .Add || op == .Sub

/-- Body of the loop over the users of `I` in `runOnMultiInstruction`, for the user of
identity `u`; `c1` is the constant of `I` and `b` its other operand. -/
def stepUser (I : Instruction) (c1 : Int) (b : Value) (F : Function) (u : InstId) :
    Option Function :=
  match F.getInst u with
  | none => none
  | some U =>
    if isAddSub U.opcode then
      match immediate U with
      | none => none
      | some none => some F
      | some (some (c2, _)) =>
        if I.ty = U.ty ∧ apValue I.ty c1 = apValue U.ty c2 ∧ I.opcode ≠ U.opcode then
          some (F.replaceAllUsesWith (.inst u) b)
        else some F
    else some F

/-- The users of the instruction of identity `i`, one entry per use. -/
def users (F : Function) (i : InstId) : List InstId :=
  F.instructions.flatMap (fun p =>
    (p.2.operands.filter (fun v => v == .inst i)).map (fun _ => p.2.id))

/-- One iteration of the loop of `runOnMultiInstruction`, at the instruction of
identity `i` of block `blk`. -/
def stepMulti (blk : BlockId) (F : Function) (i : InstId) : Option Function :=
  match F.getBlock blk with
  | none => none
  | some B =>
    match B.insts.find? (fun I => I.id == i) with
    | none => none
    | some I =>
      if isAddSub I.opcode then
        match immediate I with
        | none => none
        | some none => some F
        | some (some (c1, b)) => (users F i).foldlM (stepUser I c1 b) F
      else some F

/-- `runOnMultiInstruction` on block `blk`. -/
def runOnMultiInstruction (F : Function) (blk : BlockId) : Option Function :=
  match F.getBlock blk with
  | none => none
  | some B => (B.insts.map (fun I => I.id)).foldlM (stepMulti blk) F

/-- The signed reading of a `w`-bit value. -/
def toSigned (w a : Nat) : Int := if a < 2 ^ (w - 1) then (a : Int) else (a : Int) - 2 ^ w

/-- The value of an integer binary operator of LLVM at width `w` on `w`-bit operands:
wrapping `add`, `sub`, `mul`; `shl` and `lshr`, poison when the amount is not below the
width; `sdiv`, rounding towards zero, undefined on division by zero and on overflow.
`none` stands for poison and undefined behaviour. -/
def evalBinary (w : Nat) (op : Opcode) (a b : Nat) : Option Nat :=
  match op with
  | .Add => some ((a + b) % 2 ^ w)
  | .Sub => some ((a + (2 ^ w - b % 2 ^ w)) % 2 ^ w)
  | .Mul => some (a * b % 2 ^ w)
  | .Shl => if b < w then some (a * 2 ^ b % 2 ^ w) else none
  | .LShr => if b < w then some (a / 2 ^ b) else none
  | .SDiv =>
    if b = 0 then none
    else if toSigned w a = -(2 : Int) ^ (w - 1) ∧ toSigned w b = -1 then none
    else some (apValue w ((toSigned w a).tdiv (toSigned w b)))
  | _ => none

/-- The value of an operand, given the function arguments and the values computed so
far. -/
def evalValue (w : Nat) (args : Nat → Nat) (env : List (InstId × Option Nat)) :
    Value → Option Nat
  | .const c => some (apValue w c)
  | .arg n => some (args n % 2 ^ w)
  | .inst i => (env.lookup i).join
  | _ => none

/-- Evaluation of a straight-line list of binary operators at width `w`: the value of
each instruction, by identity. -/
def evalInsts (w : Nat) (args : Nat → Nat) :
    List Instruction → List (InstId × Option Nat) → List (InstId × Option Nat)
  | [], env => env
  | I :: rest, env =>
    let v : Option Nat :=
      match I.operands with
      | [x, y] =>
        match evalValue w args env x, evalValue w args env y with
        | some a, some b => evalBinary w I.opcode a b
        | _, _ => none
      | _ => none
    evalInsts w args rest (env ++ [(I.id, v)])

/-- The value a single-block function returns: that of the operand of its `ret`. -/
def returned (w : Nat) (args : Nat → Nat) (F : Function) : Option Nat :=
  match F.blocks with
  | [B] =>
    match B.getTerminator with
    | some T =>
      match T.opcode, T.operands with
      | .Ret, [v] => evalValue w args (evalInsts w args B.insts.dropLast []) v
      | _, _ => none
    | none => none
  | _ => none

end LocalOpts

/-- The analysis manager as `run` uses it (lines 299-301): the result of the loop
analysis, of the dominator-tree analysis and of the post-dominator-tree analysis for
a function. -/
structure FunctionAnalysisManager where
  loopInfo : Function → List Loop
  dominatorTree : Function → DominatorTree
  postDominatorTree : Function → DominatorTree

/-- `LoopFusion::run` from its first line: the three analyses are requested for the
function the pass is given, once, and the body of `run` works with these results. -/
def runWithManager {σ : Type} (AM : FunctionAnalysisManager) (LQ : LoopQueries)
    (SE : ScalarEvolution σ) (addr : Loop → Nat) (s : σ) (F : Function) :
    Option (PreservedAnalyses × RunState σ) :=
  run LQ (AM.dominatorTree F) (AM.postDominatorTree F) SE addr s F (AM.loopInfo F)

/-! ## Loop-invariant code motion (ASS_3/LoopWalk.cpp) -/

namespace LoopWalk

/-- The two file-level collections `ToMove` and `Invariants` (lines 10-11).  They are
created when the program starts and nothing in the file empties them; `Invariants` is
a `std::set`, of which only membership is used. -/
structure Globals where
  ToMove : List InstId
  Invariants : List InstId
  deriving DecidableEq, Repr

/-- `isOperandInvariant`; `none` when the operand names an instruction that is in no
block. -/
def isOperandInvariant (F : Function) (G : Globals) (operand : Value) (loop : Loop) :
    Option Bool :=
  match operand with
  | .const _ => some true
  | .global _ => some true
  | .arg _ => some true
  | .inst i =>
    match F.getParent i with
    | none => none
    | some b => some (!loop.contains b || G.Invariants.contains i)
  | .block _ => some false

/-- The loop of `isInstrInvariant` over the operands: false at the first operand that
is not invariant. -/
def operandsInvariant (F : Function) (G : Globals) (loop : Loop) : List Value → Option Bool
  | [] => some true
  | v :: vs =>
    match isOperandInvariant F G v loop with
    | none => none
    | some false => some false
    | some true => operandsInvariant F G loop vs

/-- `isInstrInvariant`; `safe` is LLVM's `isSafeToSpeculativelyExecute`. -/
def isInstrInvariant (safe : Instruction → Bool) (F : Function) (G : Globals)
    (I : Instruction) (loop : Loop) : Option Bool :=
  if !safe I then some false else operandsInvariant F G loop I.operands

/-- `std::set::insert`. -/
def setInsert (i : InstId) (s : List InstId) : List InstId :=
  if s.contains i then s else s ++ [i]

/-- `findInvariantsInstr` on the instructions of a block, from the first on. -/
def findInvariantsInstr (safe : Instruction → Bool) (F : Function) (loop : Loop) :
    List Instruction → Globals → Option Globals
  | [], G => some G
  | I :: rest, G =>
    match isInstrInvariant safe F G I loop with
    | none => none
    | some true =>
      findInvariantsInstr safe F loop rest ⟨G.ToMove ++ [I.id], setInsert I.id G.Invariants⟩
    | some false => findInvariantsInstr safe F loop rest G

/-- The loop of `runOnLoop` over the blocks of the loop (lines 116-136): a block that
dominates every exit block is scanned by `findInvariantsInstr`. -/
def scanBlocks (safe : Instruction → Bool) (DT : DominatorTree) (F : Function)
    (loop : Loop) (exits : List BlockId) : List BlockId → Globals → Option Globals
  | [], G => some G
  | b :: bs, G =>
    if exits.all (fun e => DT.dominates b e) then
      match F.getBlock b with
      | none => none
      | some B =>
        match findInvariantsInstr safe F loop B.insts G with
        | none => none
        | some G2 => scanBlocks safe DT F loop exits bs G2
    else scanBlocks safe DT F loop exits bs G

/-- `I->moveBefore(blk->getTerminator())`: the instruction of identity `i` leaves its
block and is put in front of the terminator of `blk`.  `none` when there is no such
instruction or `blk` has no terminator. -/
def moveBeforeTerminator (F : Function) (i : InstId) (blk : BlockId) : Option Function :=
  match F.getInst i, F.getBlock blk with
  | some I, some B =>
    match B.getTerminator with
    | none => none
    | some T =>
      if T.id = i then some F
      else
        let F2 : Function :=
          ⟨F.blocks.map (fun X => ⟨X.id, X.insts.filter (fun J => J.id != i)⟩)⟩
        match F2.getBlock blk with
        | none => none
        | some B2 => some (F2.updateBlock blk (B2.insts.dropLast ++ [I, T]))
  | _, _ => none

/-- The code motion of `runOnLoop` (lines 139-143): every entry of `ToMove`, in
order. -/
def codeMotion (preHeader : BlockId) : List InstId → Function → Option Function
  | [], F => some F
  | i :: rest, F =>
    match moveBeforeTerminator F i preHeader with
    | none => none
    | some F2 => codeMotion preHeader rest F2

/-- `runOnLoop`: its result, the two collections as it leaves them, and the function.
`preheader` and `exits` are the answers of `getLoopPreheader` and `getExitBlocks` for
the loop, `DT` is the dominator tree of the loop pass manager. -/
def runOnLoop (safe : Instruction → Bool) (DT : DominatorTree)
    (preheader : Option BlockId) (exits : List BlockId) (F : Function) (loop : Loop)
    (G : Globals) : Option (Bool × Globals × Function) :=
  match preheader with
  | none => some (false, G, F)
  | some preHeader =>
    match scanBlocks safe DT F loop exits loop.getBlocks G with
    | none => none
    | some G2 =>
      match codeMotion preHeader G2.ToMove F with
      | none => none
      | some F2 => some (true, G2, F2)

end LoopWalk

/-! ## Concrete programs

Small functions in the shape clang produces for two counted loops over arrays `a`
(`arg 0`) and `b` (`arg 1`) with bound `N` (`arg 2`), used to evaluate the
definitions above. -/

namespace Example

/-- An instruction with no type or subclass data of interest. -/
def mk (id : InstId) (op : Opcode) (operands : List Value) : Instruction :=
  ⟨id, op, operands, 0, 0⟩

/-- What LLVM's loop analysis reports about one loop. -/
structure LoopFacts where
  guardBranch : Option InstId
  exitBlock : Option BlockId
  uniqueExitBlock : Option BlockId
  preheader : Option BlockId
  latch : Option BlockId
  canonicalIV : Option InstId

/-- Loop queries that answer from a table of facts. -/
def tableQueries (facts : Loop → LoopFacts) : LoopQueries :=
  ⟨fun _ L => (facts L).guardBranch, fun _ L => (facts L).exitBlock,
    fun _ L => (facts L).uniqueExitBlock, fun _ L => (facts L).preheader,
    fun _ L => (facts L).latch, fun _ L => (facts L).canonicalIV⟩

/-- Two unguarded loops `for (i = 0; i < N; i++)` in sequence:
`entry(0) -> h1(1)`, `h1 -> body1(2) | mid(4)`, `body1 -> latch1(3) -> h1`,
`mid -> h2(5)`, `h2 -> body2(6) | end(8)`, `body2 -> latch2(7) -> h2`.
The first loop stores `a[i] = i`.  Parameters: the instructions of `mid` before its
branch, the incoming values of the second induction phi `%11`, and the
instructions of `body2` before its branch. -/
def twoLoops (mid : List Instruction) (phi2 : List Value) (body2 : List Instruction) :
    Function :=
  ⟨[⟨0, [mk 100 .Br [.block 1]]⟩,
    ⟨1, [mk 1 .PHI [.const 0, .inst 4], mk 2 .ICmp [.inst 1, .arg 2],
      mk 101 .Br [.inst 2, .block 4, .block 2]]⟩,
    ⟨2, [mk 3 .GetElementPtr [.arg 0, .inst 1], mk 5 .Store [.inst 1, .inst 3],
      mk 102 .Br [.block 3]]⟩,
    ⟨3, [mk 4 .Add [.inst 1, .const 1], mk 103 .Br [.block 1]]⟩,
    ⟨4, mid ++ [mk 104 .Br [.block 5]]⟩,
    ⟨5, [mk 11 .PHI phi2, mk 12 .ICmp [.inst 11, .arg 2],
      mk 105 .Br [.inst 12, .block 8, .block 6]]⟩,
    ⟨6, body2 ++ [mk 106 .Br [.block 7]]⟩,
    ⟨7, [mk 14 .Add [.inst 11, .const 1], mk 107 .Br [.block 5]]⟩,
    ⟨8, [mk 108 .Ret []]⟩]⟩

/-- First loop of `twoLoops`: header 1, body 2, latch 3. -/
def U1 : Loop := ⟨1, [2, 3]⟩

/-- Second loop of `twoLoops`: header 5, body 6, latch 7. -/
def U2 : Loop := ⟨5, [6, 7]⟩

/-- Loop facts of `twoLoops`: no guards, the exit of the first loop is the preheader
of the second. -/
def unguardedFacts (L : Loop) : LoopFacts :=
  if L.header = 1 then ⟨none, some 4, some 4, some 0, some 3, some 1⟩
  else ⟨none, some 8, some 8, some 4, some 7, some 11⟩

/-- Loop queries of `twoLoops`. -/
def unguardedQueries : LoopQueries := tableQueries unguardedFacts

/-- Body of the second loop reading `a[j]`: `b[j] = a[j]`. -/
def bodyReadSame : List Instruction :=
  [mk 13 .GetElementPtr [.arg 0, .inst 11], mk 15 .Load [.inst 13],
    mk 16 .GetElementPtr [.arg 1, .inst 11], mk 17 .Store [.inst 15, .inst 16]]

/-- Body of the second loop reading `a[j + 1]` with a 64-bit `j`, the sum being the
index operand itself: `b[j] = a[j + 1]`. -/
def bodyReadNext : List Instruction :=
  [mk 18 .Add [.inst 11, .const 1], mk 13 .GetElementPtr [.arg 0, .inst 18],
    mk 15 .Load [.inst 13], mk 16 .GetElementPtr [.arg 1, .inst 11],
    mk 17 .Store [.inst 15, .inst 16]]

/-- Body of the second loop reading `a[j + 1]` with a 32-bit `j`, the sum being
sign-extended to form the index: `b[j] = a[j + 1]`. -/
def bodyReadNextSExt : List Instruction :=
  [mk 18 .Add [.inst 11, .const 1], mk 19 .SExt [.inst 18],
    mk 13 .GetElementPtr [.arg 0, .inst 19], mk 15 .Load [.inst 13],
    mk 16 .GetElementPtr [.arg 1, .inst 11], mk 17 .Store [.inst 15, .inst 16]]

/-- Scenario A: `a[i] = i` then `b[j] = a[j]`. -/
def scenarioA : Function := twoLoops [] [.const 0, .inst 14] bodyReadSame

/-- Scenario A with a store to `b[0]` in the block between the two loops. -/
def scenarioSeam : Function :=
  twoLoops [mk 30 .GetElementPtr [.arg 1, .const 0], mk 31 .Store [.const 7, .inst 30]]
    [.const 0, .inst 14] bodyReadSame

/-- Two guarded (rotated) loops in sequence:
`g1(0) -> ph1(1) | g2(4)`, `ph1 -> h1(2) -> latch1(3)`, `latch1 -> h1 | exit1(9)`,
`exit1 -> g2`, `g2(4) -> ph2(5) | end(10)`, `ph2 -> h2(6) -> latch2(7)`,
`latch2 -> h2 | exit2(11)`, `exit2 -> end`.
Parameters: the instructions of the two guard blocks before their branches, the two
guard conditions, and the instructions of `exit1` before its branch. -/
def twoGuarded (pre1 : List Instruction) (c1 : Value) (seam : List Instruction)
    (pre2 : List Instruction) (c2 : Value) : Function :=
  ⟨[⟨0, pre1 ++ [mk 110 .Br [c1, .block 4, .block 1]]⟩,
    ⟨1, [mk 111 .Br [.block 2]]⟩,
    ⟨2, [mk 1 .PHI [.const 0, .inst 4], mk 3 .GetElementPtr [.arg 0, .inst 1],
      mk 5 .Store [.inst 1, .inst 3], mk 112 .Br [.block 3]]⟩,
    ⟨3, [mk 4 .Add [.inst 1, .const 1], mk 6 .ICmp [.inst 4, .arg 2],
      mk 113 .Br [.inst 6, .block 9, .block 2]]⟩,
    ⟨9, seam ++ [mk 114 .Br [.block 4]]⟩,
    ⟨4, pre2 ++ [mk 115 .Br [c2, .block 10, .block 5]]⟩,
    ⟨5, [mk 116 .Br [.block 6]]⟩,
    ⟨6, [mk 11 .PHI [.const 0, .inst 14], mk 13 .GetElementPtr [.arg 0, .inst 11],
      mk 15 .Load [.inst 13], mk 16 .GetElementPtr [.arg 1, .inst 11],
      mk 17 .Store [.inst 15, .inst 16], mk 117 .Br [.block 7]]⟩,
    ⟨7, [mk 14 .Add [.inst 11, .const 1], mk 22 .ICmp [.inst 14, .arg 2],
      mk 118 .Br [.inst 22, .block 11, .block 6]]⟩,
    ⟨11, [mk 119 .Br [.block 10]]⟩,
    ⟨10, [mk 120 .Ret []]⟩]⟩

/-- First loop of `twoGuarded`: header 2, latch 3. -/
def G1 : Loop := ⟨2, [3]⟩

/-- Second loop of `twoGuarded`: header 6, latch 7. -/
def G2 : Loop := ⟨6, [7]⟩

/-- Loop facts of `twoGuarded`: guard branches `%110` and `%115`. -/
def guardedFacts (L : Loop) : LoopFacts :=
  if L.header = 2 then ⟨some 110, some 9, some 9, some 1, some 3, some 1⟩
  else ⟨some 115, some 11, some 11, some 5, some 7, some 11⟩

/-- Loop queries of `twoGuarded`. -/
def guardedQueries : LoopQueries := tableQueries guardedFacts

/-- Scenario C: both guards test `N > 0`. -/
def scenarioC : Function :=
  twoGuarded [mk 20 .ICmp [.arg 2, .const 0]] (.inst 20) []
    [mk 21 .ICmp [.arg 2, .const 0]] (.inst 21)

/-- Scenario C with a store to `b[0]` in the exit block of the first loop. -/
def scenarioGuardedSeam : Function :=
  twoGuarded [mk 20 .ICmp [.arg 2, .const 0]] (.inst 20)
    [mk 30 .GetElementPtr [.arg 1, .const 0], mk 31 .Store [.const 7, .inst 30]]
    [mk 21 .ICmp [.arg 2, .const 0]] (.inst 21)

/-- Two guarded loops whose guards branch on two different function arguments
(`if (p) do ... while (..); if (q) do ... while (..);`). -/
def scenarioArgGuards : Function := twoGuarded [] (.arg 3) [] [] (.arg 4)

/-- A dominator tree given by the list of blocks each block dominates. -/
def domTable (tbl : List (BlockId × List BlockId)) : DominatorTree :=
  ⟨fun a b => match tbl.lookup a with
    | some l => l.contains b
    | none => false⟩

/-- Dominator tree of `twoLoops`. -/
def unguardedDT : DominatorTree :=
  domTable [(0, [0, 1, 2, 3, 4, 5, 6, 7, 8]), (1, [1, 2, 3, 4, 5, 6, 7, 8]), (2, [2, 3]),
    (3, [3]), (4, [4, 5, 6, 7, 8]), (5, [5, 6, 7, 8]), (6, [6, 7]), (7, [7]), (8, [8])]

/-- Post-dominator tree of `twoLoops`. -/
def unguardedPDT : DominatorTree :=
  domTable [(8, [0, 1, 2, 3, 4, 5, 6, 7, 8]), (5, [0, 1, 2, 3, 4, 5, 6, 7]),
    (4, [0, 1, 2, 3, 4]), (1, [0, 1, 2, 3]), (3, [2, 3]), (2, [2]), (7, [6, 7]), (6, [6]),
    (0, [0])]

/-- Dominator tree of `twoGuarded`. -/
def guardedDT : DominatorTree :=
  domTable [(0, [0, 1, 2, 3, 9, 4, 5, 6, 7, 11, 10]), (1, [1, 2, 3, 9]), (2, [2, 3, 9]),
    (3, [3, 9]), (9, [9]), (4, [4, 5, 6, 7, 11, 10]), (5, [5, 6, 7, 11]), (6, [6, 7, 11]),
    (7, [7, 11]), (11, [11]), (10, [10])]

/-- Post-dominator tree of `twoGuarded`. -/
def guardedPDT : DominatorTree :=
  domTable [(10, [0, 1, 2, 3, 9, 4, 5, 6, 7, 11, 10]), (4, [0, 1, 2, 3, 9, 4]),
    (9, [1, 2, 3, 9]), (3, [1, 2, 3]), (2, [1, 2]), (1, [1]), (11, [5, 6, 7, 11]),
    (7, [5, 6, 7]), (6, [5, 6]), (5, [5]), (0, [0])]

/-- A scalar evolution without cache that answers from a table. -/
def tableSE (counts : Loop → SCEV) : ScalarEvolution Unit :=
  ⟨fun s _ L => (counts L, s)⟩

/-- Both loops run `N` times: every backedge-taken count is `N - 1`. -/
def sameCounts (_ : Loop) : SCEV := .addExpr (.constant (-1)) (.unknown (.arg 2))

/-- The count of the second loop of `twoLoops` is not computable. -/
def unknownSecond (L : Loop) : SCEV :=
  if L.header = 1 then .addExpr (.constant (-1)) (.unknown (.arg 2)) else .couldNotCompute

/-- Scenario D: the guards test `N > 0` and `M > 0` (`M` is `arg 3`). -/
def scenarioD : Function :=
  twoGuarded [mk 20 .ICmp [.arg 2, .const 0]] (.inst 20) []
    [mk 21 .ICmp [.arg 3, .const 0]] (.inst 21)

/-- Scenario B with a 64-bit induction variable: `a[i] = i` then `b[j] = a[j + 1]`,
the sum `%18` being the index operand of the address computation `%13`. -/
def scenarioB : Function := twoLoops [] [.const 0, .inst 14] bodyReadNext

/-- Scenario B with a 32-bit induction variable: the index operand of `%13` is the
sign extension `%19` of the sum `%18`. -/
def scenarioBSExt : Function := twoLoops [] [.const 0, .inst 14] bodyReadNextSExt

/-- Scenario A with the incoming values of the second induction phi listed latch
first: `%11 = phi [%14, latch2], [0, mid]`. -/
def scenarioPhiSwapped : Function := twoLoops [] [.inst 14, .const 0] bodyReadSame

/-- The function `loopFusion` makes of `scenarioA`: uses of `%11` now name `%1`,
`body1 -> body2 -> latch1`, `h2 -> latch2` by the new branch `%109`, and `h1` ends in
the new branch `%110` on `%2` to `body1` or `end`. -/
def scenarioAFused : Function :=
  ⟨[⟨0, [mk 100 .Br [.block 1]]⟩,
    ⟨1, [mk 1 .PHI [.const 0, .inst 4], mk 2 .ICmp [.inst 1, .arg 2],
      mk 110 .Br [.inst 2, .block 8, .block 2]]⟩,
    ⟨2, [mk 3 .GetElementPtr [.arg 0, .inst 1], mk 5 .Store [.inst 1, .inst 3],
      mk 102 .Br [.block 6]]⟩,
    ⟨3, [mk 4 .Add [.inst 1, .const 1], mk 103 .Br [.block 1]]⟩,
    ⟨4, [mk 104 .Br [.block 5]]⟩,
    ⟨5, [mk 11 .PHI [.const 0, .inst 14], mk 12 .ICmp [.inst 1, .arg 2],
      mk 109 .Br [.block 7]]⟩,
    ⟨6, [mk 13 .GetElementPtr [.arg 0, .inst 1], mk 15 .Load [.inst 13],
      mk 16 .GetElementPtr [.arg 1, .inst 1], mk 17 .Store [.inst 15, .inst 16],
      mk 106 .Br [.block 3]]⟩,
    ⟨7, [mk 14 .Add [.inst 1, .const 1], mk 107 .Br [.block 5]]⟩,
    ⟨8, [mk 108 .Ret []]⟩]⟩

/-- Body of the second loop reading `a[j - 1]` with a 64-bit `j`, the difference
being the index operand itself: `b[j] = a[j - 1]`. -/
def bodyReadPrev : List Instruction :=
  [mk 18 .Sub [.inst 11, .const 1], mk 13 .GetElementPtr [.arg 0, .inst 18],
    mk 15 .Load [.inst 13], mk 16 .GetElementPtr [.arg 1, .inst 11],
    mk 17 .Store [.inst 15, .inst 16]]

/-- The second loop reads `a[j - 1]`. -/
def scenarioPrev : Function := twoLoops [] [.const 0, .inst 14] bodyReadPrev

/-- Targets of the edges of the function that leave the loop, one entry per edge. -/
def exitTargets (F : Function) (L : Loop) : List BlockId :=
  (L.getBlocks.flatMap (fun b =>
    match F.getBlock b with
    | some B => B.successors
    | none => [])).filter (fun s => !L.contains s)

/-- The exit block as LLVM computes it from the control-flow graph: the target of the
one edge that leaves the loop, when there is exactly one such edge. -/
def exitBlockOf (F : Function) (L : Loop) : Option BlockId :=
  match exitTargets F L with
  | [e] => some e
  | _ => none

/-- Loop queries of `twoLoops` in which `getExitBlock` is computed from the
control-flow graph of the function it is asked about. -/
def unguardedAnalysis : LoopQueries :=
  ⟨fun _ L => (unguardedFacts L).guardBranch, exitBlockOf,
    fun _ L => (unguardedFacts L).uniqueExitBlock, fun _ L => (unguardedFacts L).preheader,
    fun _ L => (unguardedFacts L).latch, fun _ L => (unguardedFacts L).canonicalIV⟩

/-- Scenario C with a second phi `%40 = phi [0, 0]`, used by nothing, ahead of the
induction phi `%11` in the header of the second loop. -/
def scenarioLeadingPhi : Function :=
  scenarioC.updateBlock 6
    [mk 40 .PHI [.const 0, .const 0], mk 11 .PHI [.const 0, .inst 14],
      mk 13 .GetElementPtr [.arg 0, .inst 11], mk 15 .Load [.inst 13],
      mk 16 .GetElementPtr [.arg 1, .inst 11], mk 17 .Store [.inst 15, .inst 16],
      mk 117 .Br [.block 7]]

/-- Scenario C with a running sum in the second loop, `s += a[j]; b[j] = a[j]`: the
phi `%40 = phi [0, %41]` of the sum precedes the induction phi `%11` in the header of
the second loop, and `%41 = add %40, %15` uses it. -/
def scenarioSum : Function :=
  scenarioC.updateBlock 6
    [mk 40 .PHI [.const 0, .inst 41], mk 11 .PHI [.const 0, .inst 14],
      mk 13 .GetElementPtr [.arg 0, .inst 11], mk 15 .Load [.inst 13],
      mk 41 .Add [.inst 40, .inst 15],
      mk 16 .GetElementPtr [.arg 1, .inst 11], mk 17 .Store [.inst 15, .inst 16],
      mk 117 .Br [.block 7]]

/-- A 32-bit binary operator. -/
def bin (id : InstId) (op : Opcode) (x y : Value) : Instruction := ⟨id, op, [x, y], 32, 0⟩

/-- The function `return x / 8;` on `int`: `%1 = sdiv i32 %x, 8`. -/
def divideBy8 : Function := ⟨[⟨0, [bin 1 .SDiv (.arg 0) (.const 8), mk 2 .Ret [.inst 1]]⟩]⟩

/-- The function `return x * 0;` on `int`: `%1 = mul i32 %x, 0`. -/
def timesZero : Function := ⟨[⟨0, [bin 1 .Mul (.arg 0) (.const 0), mk 2 .Ret [.inst 1]]⟩]⟩

/-- The function `a = b + 1; c = 1 - a; return c;` on `int`. -/
def oneMinus : Function :=
  ⟨[⟨0, [bin 1 .Add (.arg 0) (.const 1), bin 2 .Sub (.const 1) (.inst 1),
    mk 3 .Ret [.inst 2]]⟩]⟩

/-- The function `a = b + 1; c = a - 1; return c;` on `int`, the example of the source
comment. -/
def plusMinus : Function :=
  ⟨[⟨0, [bin 1 .Add (.arg 0) (.const 1), bin 2 .Sub (.inst 1) (.const 1),
    mk 3 .Ret [.inst 2]]⟩]⟩

/-- Successors of block `b` in the function. -/
def succsOf (F : Function) (b : BlockId) : List BlockId :=
  match F.getBlock b with
  | some B => B.successors
  | none => []

/-- The blocks reached from `seen` in at most `n` steps along edges of the function
without entering `avoid`. -/
def reach (F : Function) (avoid : Option BlockId) : Nat → List BlockId → List BlockId
  | 0, seen => seen
  | n + 1, seen =>
    reach F avoid n
      (seen ++ ((seen.flatMap (succsOf F)).filter
        (fun s => some s != avoid && !seen.contains s)).dedup)

/-- The blocks reachable from `b` without entering `avoid`. -/
def reachable (F : Function) (avoid : Option BlockId) (b : BlockId) : List BlockId :=
  if some b = avoid then [] else reach F avoid F.blocks.length [b]

/-- The dominator tree of the function with entry block 0, as LLVM computes it: `a`
dominates `b` when `b` is unreachable, or when no path from the entry reaches `b`
without entering `a`. -/
def dominatorTreeOf (F : Function) : DominatorTree :=
  ⟨fun a b => !(reachable F none 0).contains b || a == b ||
    !(reachable F (some a) 0).contains b⟩

/-- Does the block end in `ret`? -/
def returns (F : Function) (b : BlockId) : Bool :=
  match F.getBlock b with
  | some B =>
    match B.getTerminator with
    | some T => T.opcode == .Ret
    | none => false
  | none => false

/-- The post-dominator tree of the function: `a` post-dominates `b` when no path from
`b` reaches a returning block without entering `a`. -/
def postDominatorTreeOf (F : Function) : DominatorTree :=
  ⟨fun a b => a == b || !(reachable F (some a) b).any (returns F)⟩

/-- The analyses computed from the control-flow graph; the loops are given. -/
def computedAnalyses (LI : List Loop) : FunctionAnalysisManager :=
  ⟨fun _ => LI, dominatorTreeOf, postDominatorTreeOf⟩

/-- The analyses of `F0`, whatever function they are asked about. -/
def analysesOf (LI : List Loop) (F0 : Function) : FunctionAnalysisManager :=
  ⟨fun _ => LI, fun _ => dominatorTreeOf F0, fun _ => postDominatorTreeOf F0⟩

/-- Is the phi `I` a canonical induction variable: incoming values `0` and
`add I, 1`? -/
def isCanonicalPhi (F : Function) (I : Instruction) : Bool :=
  I.opcode == .PHI &&
    match I.operands with
    | [.const 0, .inst k] =>
      match F.getInst k with
      | some A => A.opcode == .Add && A.operands == [.inst I.id, .const 1]
      | none => false
    | [.inst k, .const 0] =>
      match F.getInst k with
      | some A => A.opcode == .Add && A.operands == [.inst I.id, .const 1]
      | none => false
    | _ => false

/-- `getCanonicalInductionVariable` computed from the function: the first phi of the
header that starts at 0 and is incremented by 1. -/
def canonicalIVOf (F : Function) (L : Loop) : Option InstId :=
  match F.getBlock L.getHeader with
  | some H => (H.insts.find? (isCanonicalPhi F)).map (fun I => I.id)
  | none => none

/-- Three unguarded loops `for (i = 0; i < N; i++)` in sequence, `a[i] = i`,
`b[j] = a[j]`, `c[k] = k`: `twoLoops` with its last block `8` turned into the
preheader of a third loop with header 9, body 10, latch 11, and `end(12)`. -/
def threeLoops : Function :=
  ⟨(scenarioA.updateBlock 8 [mk 108 .Br [.block 9]]).blocks ++
    [⟨9, [mk 21 .PHI [.const 0, .inst 24], mk 22 .ICmp [.inst 21, .arg 2],
      mk 121 .Br [.inst 22, .block 12, .block 10]]⟩,
    ⟨10, [mk 23 .GetElementPtr [.arg 3, .inst 21], mk 25 .Store [.inst 21, .inst 23],
      mk 122 .Br [.block 11]]⟩,
    ⟨11, [mk 24 .Add [.inst 21, .const 1], mk 123 .Br [.block 9]]⟩,
    ⟨12, [mk 124 .Ret []]⟩]⟩

/-- Third loop of `threeLoops`: header 9, body 10, latch 11. -/
def U3 : Loop := ⟨9, [10, 11]⟩

/-- Loop facts of `threeLoops`. -/
def threeFacts (L : Loop) : LoopFacts :=
  if L.header = 1 then ⟨none, some 4, some 4, some 0, some 3, some 1⟩
  else if L.header = 5 then ⟨none, some 8, some 8, some 4, some 7, some 11⟩
  else ⟨none, some 12, some 12, some 8, some 11, some 21⟩

/-- Loop queries of `threeLoops`: structure from the table, the canonical induction
variable computed from the function asked about. -/
def threeQueries : LoopQueries :=
  ⟨fun _ L => (threeFacts L).guardBranch, fun _ L => (threeFacts L).exitBlock,
    fun _ L => (threeFacts L).uniqueExitBlock, fun _ L => (threeFacts L).preheader,
    fun _ L => (threeFacts L).latch, canonicalIVOf⟩

/-- Loop queries of `twoLoops` with the canonical induction variable computed from the
function asked about. -/
def unguardedComputedIV : LoopQueries :=
  ⟨fun _ L => (unguardedFacts L).guardBranch, fun _ L => (unguardedFacts L).exitBlock,
    fun _ L => (unguardedFacts L).uniqueExitBlock, fun _ L => (unguardedFacts L).preheader,
    fun _ L => (unguardedFacts L).latch, canonicalIVOf⟩

/-- Scenario A with both counters starting at 1, `for (i = 1; i < N; i++) a[i] = i;`
then `for (j = 1; j < N; j++) b[j] = a[j];`: neither phi starts at 0. -/
def scenarioFromOne : Function :=
  (twoLoops [] [.const 1, .inst 14] bodyReadSame).updateBlock 1
    [mk 1 .PHI [.const 1, .inst 4], mk 2 .ICmp [.inst 1, .arg 2],
      mk 101 .Br [.inst 2, .block 4, .block 2]]

/-- Scenario A with the test of the first header inverted, `%2 = icmp sge %1, N` and
`br %2, mid, body1`: the branch leaves the loop when the condition is true. -/
def scenarioInverted : Function :=
  scenarioA.updateBlock 1
    [mk 1 .PHI [.const 0, .inst 4], ⟨2, .ICmp, [.inst 1, .arg 2], 0, 39⟩,
      mk 101 .Br [.inst 2, .block 2, .block 4]]

/-- Body of the second loop reading through the base pointer itself: `b[j] = *a`. -/
def bodyReadBase : List Instruction :=
  [mk 15 .Load [.arg 0], mk 16 .GetElementPtr [.arg 1, .inst 11],
    mk 17 .Store [.inst 15, .inst 16]]

/-- The second loop reads `*a`. -/
def scenarioReadBase : Function := twoLoops [] [.const 0, .inst 14] bodyReadBase

/-- LLVM's `isSafeToSpeculativelyExecute` on the opcodes of the examples: arithmetic,
comparisons, casts and address computations are safe; phis, memory accesses, calls,
divisions and terminators are not. -/
def speculatable (I : Instruction) : Bool :=
  match I.opcode with
  | .Add | .Sub | .Mul | .Shl | .LShr | .AShr | .And | .Or | .Xor => true
  | .GetElementPtr | .Trunc | .ZExt | .SExt | .ICmp | .Select => true
  | _ => false

/-- Scenario C with a loop-invariant product `%30 = mul N, N` stored by the first loop
and a loop-invariant sum `%31 = add N, 5` stored by the second. -/
def scenarioHoist : Function :=
  (scenarioC.updateBlock 2
    [mk 1 .PHI [.const 0, .inst 4], mk 30 .Mul [.arg 2, .arg 2],
      mk 3 .GetElementPtr [.arg 0, .inst 1], mk 5 .Store [.inst 30, .inst 3],
      mk 112 .Br [.block 3]]).updateBlock 6
    [mk 11 .PHI [.const 0, .inst 14], mk 31 .Add [.arg 2, .const 5],
      mk 16 .GetElementPtr [.arg 1, .inst 11], mk 17 .Store [.inst 31, .inst 16],
      mk 117 .Br [.block 7]]

/-- A loop nest `for (i..) for (j..) a[j] = N * N + i`, both loops in rotated form:
`entry(0) -> ph(1) -> h(2) -> iph(3) -> ih(4) -> il(5)`, `il -> ih | l(6)`,
`l -> h | end(7)`.  The inner header computes `%30 = mul N, N` and
`%31 = add %30, %1`, where `%1` is the phi of the outer loop. -/
def nest : Function :=
  ⟨[⟨0, [mk 100 .Br [.block 1]]⟩,
    ⟨1, [mk 101 .Br [.block 2]]⟩,
    ⟨2, [mk 1 .PHI [.const 0, .inst 4], mk 102 .Br [.block 3]]⟩,
    ⟨3, [mk 103 .Br [.block 4]]⟩,
    ⟨4, [mk 11 .PHI [.const 0, .inst 14], mk 30 .Mul [.arg 2, .arg 2],
      mk 31 .Add [.inst 30, .inst 1], mk 13 .GetElementPtr [.arg 0, .inst 11],
      mk 15 .Store [.inst 31, .inst 13], mk 104 .Br [.block 5]]⟩,
    ⟨5, [mk 14 .Add [.inst 11, .const 1], mk 12 .ICmp [.inst 14, .arg 2],
      mk 105 .Br [.inst 12, .block 6, .block 4]]⟩,
    ⟨6, [mk 4 .Add [.inst 1, .const 1], mk 2 .ICmp [.inst 4, .arg 2],
      mk 106 .Br [.inst 2, .block 7, .block 2]]⟩,
    ⟨7, [mk 107 .Ret []]⟩]⟩

/-- Inner loop of `nest`: header 4, latch 5; preheader 3, exit block 6. -/
def inner : Loop := ⟨4, [5]⟩

/-- Outer loop of `nest`: header 2, latch 6; preheader 1, exit block 7. -/
def outer : Loop := ⟨2, [3, 4, 5, 6]⟩

/-- Sources of the edges into `b`, one entry per edge. -/
def predsOf (F : Function) (b : BlockId) : List BlockId :=
  F.blocks.flatMap (fun B => (B.successors.filter (fun s => s == b)).map (fun _ => B.id))

/-- `getLoopPreheader` as LLVM computes it: the one block outside the loop with an edge
to the header, when the header is its only successor. -/
def preheaderOf (F : Function) (L : Loop) : Option BlockId :=
  match ((predsOf F L.getHeader).filter (fun b => !L.contains b)).dedup with
  | [p] => if succsOf F p = [L.getHeader] then some p else none
  | _ => none

/-- `getLoopLatch` as LLVM computes it: the source of the one edge from inside the loop
to the header. -/
def latchOf (F : Function) (L : Loop) : Option BlockId :=
  match (predsOf F L.getHeader).filter (fun b => L.contains b) with
  | [l] => some l
  | _ => none

/-- `getUniqueExitBlock` as LLVM computes it: the one block outside the loop that edges
of the loop lead to. -/
def uniqueExitBlockOf (F : Function) (L : Loop) : Option BlockId :=
  match (exitTargets F L).dedup with
  | [e] => some e
  | _ => none

/-- `hasDedicatedExits`: every predecessor of an exit block is in the loop. -/
def dedicatedExits (F : Function) (L : Loop) : Bool :=
  (exitTargets F L).all (fun e => (predsOf F e).all (fun b => L.contains b))

/-- `getUniqueSuccessor`. -/
def uniqueSuccessorOf (F : Function) (b : BlockId) : Option BlockId :=
  match (succsOf F b).dedup with
  | [s] => some s
  | _ => none

/-- `getUniquePredecessor`. -/
def uniquePredecessorOf (F : Function) (b : BlockId) : Option BlockId :=
  match (predsOf F b).dedup with
  | [p] => some p
  | _ => none

/-- Does the block hold exactly one instruction? -/
def isEmptyBlock (F : Function) (b : BlockId) : Bool :=
  match F.getBlock b with
  | some B => B.insts.length == 1
  | none => false

/-- The walk of `LoopNest::skipEmptyBlockUntil(From, End, true)` from the block `pred`
it has reached: does it arrive at `target`, the `End` of the call? -/
def skipsTo (F : Function) (target : BlockId) : Nat → BlockId → Bool
  | 0, _ => false
  | n + 1, pred =>
    match uniqueSuccessorOf F pred with
    | none => false
    | some bb =>
      if bb = target then true
      else if isEmptyBlock F bb && uniquePredecessorOf F bb == some pred then
        skipsTo F target n bb
      else false

/-- `getLoopGuardBranch` as LLVM computes it: the loop is in simplified and rotated
form with one exit block, the one predecessor of its preheader ends in a conditional
branch, and the other target of that branch is reached from the exit block through
empty blocks. -/
def guardBranchOf (F : Function) (L : Loop) : Option InstId :=
  match preheaderOf F L, latchOf F L, uniqueExitBlockOf F L with
  | some ph, some latch, some exit =>
    if !dedicatedExits F L || !(succsOf F latch).any (fun s => !L.contains s) then none
    else
      match uniquePredecessorOf F ph with
      | some g =>
        match (F.getBlock g).bind BasicBlock.getTerminator with
        | some T =>
          match T.opcode, T.successors with
          | .Br, [s0, s1] =>
            let other := if s0 = ph then s1 else s0
            if exit = other || skipsTo F other F.blocks.length exit then some T.id
            else none
          | _, _ => none
        | none => none
      | none => none
  | _, _, _ => none

/-- Loop queries computed from the control-flow graph of the function asked about. -/
def cfgQueries : LoopQueries :=
  ⟨guardBranchOf, exitBlockOf, uniqueExitBlockOf, preheaderOf, latchOf, canonicalIVOf⟩

/-- Three guarded loops in sequence, `a[i] = i`, `b[j] = a[j]`, `c[k] = k`, each under
the guard `N > 0`: scenario C with its last block `10` turned into the guard block of
a third loop, `g3(10) -> ph3(12) | end(16)`, `ph3 -> h3(13) -> latch3(14)`,
`latch3 -> h3 | exit3(15)`, `exit3 -> end`. -/
def threeGuarded : Function :=
  ⟨(scenarioC.updateBlock 10
      [mk 23 .ICmp [.arg 2, .const 0], mk 130 .Br [.inst 23, .block 16, .block 12]]).blocks ++
    [⟨12, [mk 131 .Br [.block 13]]⟩,
    ⟨13, [mk 31 .PHI [.const 0, .inst 34], mk 33 .GetElementPtr [.arg 3, .inst 31],
      mk 35 .Store [.inst 31, .inst 33], mk 132 .Br [.block 14]]⟩,
    ⟨14, [mk 34 .Add [.inst 31, .const 1], mk 36 .ICmp [.inst 34, .arg 2],
      mk 133 .Br [.inst 36, .block 15, .block 13]]⟩,
    ⟨15, [mk 134 .Br [.block 16]]⟩,
    ⟨16, [mk 135 .Ret []]⟩]⟩

/-- Third loop of `threeGuarded`: header 13, latch 14. -/
def G3 : Loop := ⟨13, [14]⟩

/-- Addresses of the loop objects of `threeGuarded`, the third loop lowest: the walk of
the set of pairs takes `(G2, G3)` before `(G1, G2)`. -/
def laterFirst (L : Loop) : Nat := 100 - L.header

/-- The third loop of `threeLoops` runs `M` times (`M` is `arg 4`), the first two `N`
times. -/
def thirdDiffers (L : Loop) : SCEV :=
  if L.header = 9 then .addExpr (.constant (-1)) (.unknown (.arg 4))
  else .addExpr (.constant (-1)) (.unknown (.arg 2))

/-- The function `loopFusion` makes of `threeLoops` for the pair `(U1, U2)`: as
`scenarioAFused`, with the new branches `%125` in `h2` and `%126` in `h1`, the third
loop untouched. -/
def threeLoopsFused : Function :=
  ⟨[⟨0, [mk 100 .Br [.block 1]]⟩,
    ⟨1, [mk 1 .PHI [.const 0, .inst 4], mk 2 .ICmp [.inst 1, .arg 2],
      mk 126 .Br [.inst 2, .block 8, .block 2]]⟩,
    ⟨2, [mk 3 .GetElementPtr [.arg 0, .inst 1], mk 5 .Store [.inst 1, .inst 3],
      mk 102 .Br [.block 6]]⟩,
    ⟨3, [mk 4 .Add [.inst 1, .const 1], mk 103 .Br [.block 1]]⟩,
    ⟨4, [mk 104 .Br [.block 5]]⟩,
    ⟨5, [mk 11 .PHI [.const 0, .inst 14], mk 12 .ICmp [.inst 1, .arg 2],
      mk 125 .Br [.block 7]]⟩,
    ⟨6, [mk 13 .GetElementPtr [.arg 0, .inst 1], mk 15 .Load [.inst 13],
      mk 16 .GetElementPtr [.arg 1, .inst 1], mk 17 .Store [.inst 15, .inst 16],
      mk 106 .Br [.block 3]]⟩,
    ⟨7, [mk 14 .Add [.inst 1, .const 1], mk 107 .Br [.block 5]]⟩,
    ⟨8, [mk 108 .Br [.block 9]]⟩,
    ⟨9, [mk 21 .PHI [.const 0, .inst 24], mk 22 .ICmp [.inst 21, .arg 2],
      mk 121 .Br [.inst 22, .block 12, .block 10]]⟩,
    ⟨10, [mk 23 .GetElementPtr [.arg 3, .inst 21], mk 25 .Store [.inst 21, .inst 23],
      mk 122 .Br [.block 11]]⟩,
    ⟨11, [mk 24 .Add [.inst 21, .const 1], mk 123 .Br [.block 9]]⟩,
    ⟨12, [mk 124 .Ret []]⟩]⟩

end Example

/-! ## Theorems -/

theorem mem_pair (q : Loop × Loop) (L1 L2 : Loop) (set : List (Loop × Loop)) :
    q ∈ pair L1 L2 set ↔ q = (L1, L2) ∨ q ∈ set := by
  unfold pair
  by_cases h : (L1, L2) ∈ set
  · simp only [h, if_true]
    constructor
    · intro hq; exact Or.inr hq
    · rintro (rfl | hq)
      · exact h
      · exact hq
  · simp only [h, if_false, List.mem_append, List.mem_singleton]
    tauto

theorem adjLoopsPair_cases (LQ : LoopQueries) (F : Function) (acc : List (Loop × Loop))
    (L1 L2 : Loop) :
    (adjLoopsPair LQ F acc L1 L2 = acc ∧ adjLoopsPair LQ F [] L1 L2 = []) ∨
      (adjLoopsPair LQ F acc L1 L2 = pair L1 L2 acc ∧
        adjLoopsPair LQ F [] L1 L2 = pair L1 L2 []) := by
  unfold adjLoopsPair
  cases h1 : LQ.isGuarded F L1 <;> cases h2 : LQ.isGuarded F L2 <;>
    cases hE : LQ.getExitBlock F L1 with
  | none =>
    cases hG : guardParent LQ F L2 <;> cases hP : LQ.getLoopPreheader F L2 <;>
      exact Or.inl ⟨rfl, rfl⟩
  | some e =>
    cases hG : guardParent LQ F L2 <;> cases hP : LQ.getLoopPreheader F L2 <;>
      cases hB : F.getBlock e <;> dsimp only [] <;> (try simp only [hB]) <;>
      (try split_ifs) <;>
      first
        | exact Or.inl ⟨rfl, rfl⟩
        | exact Or.inr ⟨rfl, rfl⟩

theorem adjLoopsPair_mem (LQ : LoopQueries) (F : Function) (acc : List (Loop × Loop))
    (L1 L2 : Loop) (q : Loop × Loop) :
    q ∈ adjLoopsPair LQ F acc L1 L2 ↔ q ∈ acc ∨ q ∈ adjLoopsPair LQ F [] L1 L2 := by
  rcases adjLoopsPair_cases LQ F acc L1 L2 with ⟨h1, h2⟩ | ⟨h1, h2⟩
  · rw [h1, h2]; simp
  · rw [h1, h2, mem_pair, mem_pair]; simp; tauto

theorem adjLoopsPair_nil_mem (LQ : LoopQueries) (F : Function) (L1 L2 : Loop)
    (q : Loop × Loop) (h : q ∈ adjLoopsPair LQ F [] L1 L2) : q = (L1, L2) := by
  rcases adjLoopsPair_cases LQ F [] L1 L2 with ⟨h1, _⟩ | ⟨h1, _⟩
  · rw [h1] at h; simp at h
  · rw [h1, mem_pair] at h; simpa using h

theorem adjLoops_inner_mem (LQ : LoopQueries) (F : Function) (L1 : Loop) (q : Loop × Loop)
    (LI : List Loop) (acc : List (Loop × Loop)) :
    q ∈ LI.foldl (fun acc2 L2 => adjLoopsPair LQ F acc2 L1 L2) acc ↔
      q ∈ acc ∨ ∃ L2 ∈ LI, q ∈ adjLoopsPair LQ F [] L1 L2 := by
  induction LI generalizing acc with
  | nil => simp
  | cons L LI ih =>
    rw [List.foldl_cons, ih, adjLoopsPair_mem]
    simp only [List.mem_cons, exists_eq_or_imp]
    tauto

theorem adjLoops_outer_mem (LQ : LoopQueries) (F : Function) (LI2 : List Loop)
    (q : Loop × Loop) (LI : List Loop) (acc : List (Loop × Loop)) :
    q ∈ LI.foldl (fun acc L1 => LI2.foldl (fun acc2 L2 => adjLoopsPair LQ F acc2 L1 L2) acc)
        acc ↔
      q ∈ acc ∨ ∃ L1 ∈ LI, ∃ L2 ∈ LI2, q ∈ adjLoopsPair LQ F [] L1 L2 := by
  induction LI generalizing acc with
  | nil => simp
  | cons L LI ih =>
    rw [List.foldl_cons, ih, adjLoops_inner_mem]
    simp only [List.mem_cons, exists_eq_or_imp]
    constructor
    · rintro ((h | h) | h)
      · exact Or.inl h
      · exact Or.inr (Or.inl h)
      · exact Or.inr (Or.inr h)
    · rintro (h | h | h)
      · exact Or.inl (Or.inl h)
      · exact Or.inl (Or.inr h)
      · exact Or.inr h

/-- Membership in the result of `adjLoops`: a pair is in the set afterwards exactly
when it was there before or the loop body records it for two loops of `LI`. -/
theorem adjLoops_mem (LQ : LoopQueries) (F : Function) (acc : List (Loop × Loop))
    (LI : List Loop) (L1 L2 : Loop) :
    (L1, L2) ∈ adjLoops LQ F acc LI ↔
      (L1, L2) ∈ acc ∨ (L1 ∈ LI ∧ L2 ∈ LI ∧ (L1, L2) ∈ adjLoopsPair LQ F [] L1 L2) := by
  unfold adjLoops
  rw [adjLoops_outer_mem]
  constructor
  · rintro (h | ⟨A, hA, B, hB, h⟩)
    · exact Or.inl h
    · have := adjLoopsPair_nil_mem LQ F A B _ h
      obtain ⟨rfl, rfl⟩ := Prod.mk.inj this
      exact Or.inr ⟨hA, hB, h⟩
  · rintro (h | ⟨hA, hB, h⟩)
    · exact Or.inl h
    · exact Or.inr ⟨L1, hA, L2, hB, h⟩

theorem getSingleSuccessor_eq_some (B : BasicBlock) (g : BlockId) :
    B.getSingleSuccessor = some g ↔ B.successors = [g] := by
  unfold BasicBlock.getSingleSuccessor
  split
  · next s h => simp [h]
  · next h =>
    constructor
    · intro h2; cases h2
    · intro h2; exact absurd h2 (h g)

theorem extraInstr_eq_false (B : BasicBlock) :
    extraInstr B = false ↔
      ∀ I ∈ B.insts, B.getTerminator.map (fun T => T.id) = some I.id := by
  unfold extraInstr
  rw [List.any_eq_false]
  constructor
  · intro h I hI
    have := h I hI
    simpa using this
  · intro h I hI
    simp [h I hI]

/-- C4. For two guarded loops of `LI`, `adjLoops` records the pair (not recorded
before) if and only if the first loop has an exit block, the block holding the second
loop's guard branch exists, the exit block has exactly one successor and it is that
guard block, and every instruction of the exit block is its terminator. -/
theorem adjLoops_guarded_iff (LQ : LoopQueries) (F : Function)
    (adjacentLoops : List (Loop × Loop)) (LI : List Loop) (L1 L2 : Loop)
    (h1 : L1 ∈ LI) (h2 : L2 ∈ LI) (hnew : (L1, L2) ∉ adjacentLoops)
    (hg1 : LQ.isGuarded F L1 = true) (hg2 : LQ.isGuarded F L2 = true) :
    (L1, L2) ∈ adjLoops LQ F adjacentLoops LI ↔
      ∃ e E g, LQ.getExitBlock F L1 = some e ∧ F.getBlock e = some E ∧
        guardParent LQ F L2 = some g ∧ E.successors = [g] ∧
        ∀ I ∈ E.insts, E.getTerminator.map (fun T => T.id) = some I.id := by
  rw [adjLoops_mem]
  simp only [hnew, h1, h2, true_and, false_or]
  unfold adjLoopsPair
  simp only [hg1, hg2, Bool.and_self, if_true]
  cases hE : LQ.getExitBlock F L1 with
  | none => simp
  | some e =>
    cases hG : guardParent LQ F L2 with
    | none => simp
    | some g =>
      cases hB : F.getBlock e with
      | none =>
        simp only [hB]
        constructor
        · intro h; cases h
        · rintro ⟨e2, E, g2, h1, h2, _⟩
          cases h1
          rw [hB] at h2
          cases h2
      | some E =>
        simp only [hB]
        constructor
        · intro h
          by_cases hs : E.getSingleSuccessor = some g
          · rw [if_pos hs] at h
            cases hx : extraInstr E with
            | true => rw [hx, if_pos rfl] at h; cases h
            | false =>
              exact ⟨e, E, g, rfl, hB, rfl, (getSingleSuccessor_eq_some E g).1 hs,
                (extraInstr_eq_false E).1 hx⟩
          · rw [if_neg hs] at h; cases h
        · rintro ⟨e2, E2, g2, h1, h2, h3, h4, h5⟩
          cases h1
          cases h3
          rw [hB] at h2
          cases h2
          rw [if_pos ((getSingleSuccessor_eq_some E g).2 h4), (extraInstr_eq_false E).2 h5]
          simp [mem_pair]

theorem adjLoops_guarded_iff_witness :
    (Example.G1 ∈ [Example.G1, Example.G2] ∧ Example.G2 ∈ [Example.G1, Example.G2] ∧
      Example.guardedQueries.isGuarded Example.scenarioC Example.G1 = true ∧
      Example.guardedQueries.isGuarded Example.scenarioC Example.G2 = true) ∧
    ((Example.G1, Example.G2) ∈
        adjLoops Example.guardedQueries Example.scenarioC [] [Example.G1, Example.G2] ↔
      ∃ e E g, Example.guardedQueries.getExitBlock Example.scenarioC Example.G1 = some e ∧
        Example.scenarioC.getBlock e = some E ∧
        guardParent Example.guardedQueries Example.scenarioC Example.G2 = some g ∧
        E.successors = [g] ∧
        ∀ I ∈ E.insts, E.getTerminator.map (fun T => T.id) = some I.id) :=
  ⟨by decide,
    adjLoops_guarded_iff Example.guardedQueries Example.scenarioC []
      [Example.G1, Example.G2] Example.G1 Example.G2 (by decide) (by decide) (by decide)
      (by decide) (by decide)⟩

/-- C5. For two unguarded loops of `LI`, `adjLoops` records the pair (not recorded
before) if and only if the first loop has an exit block, the second has a preheader,
and the two are the same block. -/
theorem adjLoops_unguarded_iff (LQ : LoopQueries) (F : Function)
    (adjacentLoops : List (Loop × Loop)) (LI : List Loop) (L1 L2 : Loop)
    (h1 : L1 ∈ LI) (h2 : L2 ∈ LI) (hnew : (L1, L2) ∉ adjacentLoops)
    (hg1 : LQ.isGuarded F L1 = false) (hg2 : LQ.isGuarded F L2 = false) :
    (L1, L2) ∈ adjLoops LQ F adjacentLoops LI ↔
      ∃ e p, LQ.getExitBlock F L1 = some e ∧ LQ.getLoopPreheader F L2 = some p ∧ e = p := by
  rw [adjLoops_mem]
  simp only [hnew, h1, h2, true_and, false_or]
  unfold adjLoopsPair
  simp only [hg1, hg2, Bool.and_self, Bool.not_false, if_true, Bool.false_eq_true, if_false]
  cases hE : LQ.getExitBlock F L1 with
  | none => simp
  | some e =>
    cases hP : LQ.getLoopPreheader F L2 with
    | none => simp
    | some p =>
      by_cases hep : e = p
      · simp [hep, mem_pair]
      · simp [hep]

theorem adjLoops_unguarded_iff_witness :
    (Example.U1 ∈ [Example.U1, Example.U2] ∧ Example.U2 ∈ [Example.U1, Example.U2] ∧
      Example.unguardedQueries.isGuarded Example.scenarioA Example.U1 = false ∧
      Example.unguardedQueries.isGuarded Example.scenarioA Example.U2 = false) ∧
    ((Example.U1, Example.U2) ∈
        adjLoops Example.unguardedQueries Example.scenarioA [] [Example.U1, Example.U2] ↔
      ∃ e p, Example.unguardedQueries.getExitBlock Example.scenarioA Example.U1 = some e ∧
        Example.unguardedQueries.getLoopPreheader Example.scenarioA Example.U2 = some p ∧
        e = p) :=
  ⟨by decide,
    adjLoops_unguarded_iff Example.unguardedQueries Example.scenarioA []
      [Example.U1, Example.U2] Example.U1 Example.U2 (by decide) (by decide) (by decide)
      (by decide) (by decide)⟩

/-- C3 (failing input). In `scenarioSeam` the block between the two unguarded loops
(block 4, exit of the first and preheader of the second) holds a `getelementptr` and
the store `%31` besides its branch, and `adjLoops` still records the pair.  `run`
fuses it: the store `%31` is still in block 4, which was reachable from the entry
before the run and is not after it. -/
theorem adjLoops_unguarded_seam_recorded :
    Example.unguardedQueries.getExitBlock Example.scenarioSeam Example.U1 = some 4 ∧
    (∃ E I, Example.scenarioSeam.getBlock 4 = some E ∧ I ∈ E.insts ∧
      E.getTerminator.map (fun T => T.id) ≠ some I.id) ∧
    (Example.U1, Example.U2) ∈
      adjLoops Example.unguardedQueries Example.scenarioSeam [] [Example.U1, Example.U2] ∧
    (4 ∈ Example.reachable Example.scenarioSeam none 0 ∧
      Example.scenarioSeam.getParent 31 = some 4) ∧
    (run Example.unguardedQueries Example.unguardedDT Example.unguardedPDT
        (Example.tableSE Example.sameCounts) Loop.header () Example.scenarioSeam
        [Example.U1, Example.U2]).map (fun r =>
          (r.1, r.2.fused, r.2.F.getParent 31,
            decide (4 ∈ Example.reachable r.2.F none 0))) =
      some (PreservedAnalyses.none, [(Example.U1, Example.U2)], some 4, false) :=
  ⟨rfl, ⟨⟨4, _⟩, Example.mk 31 .Store [.const 7, .inst 30], rfl, by decide, by decide⟩,
    by decide, by decide, by decide⟩

/-- The scan of the guarded branch of `adjLoops` (lines 43-52), which the unguarded
branch does not make: for two guarded loops, if the exit block of the first holds an
instruction that is not its terminator, `adjLoops` does not record the pair. -/
theorem adjLoops_guarded_seam_not_recorded (LQ : LoopQueries) (F : Function)
    (adjacentLoops : List (Loop × Loop)) (LI : List Loop) (L1 L2 : Loop)
    (e : BlockId) (E : BasicBlock) (I : Instruction)
    (hnew : (L1, L2) ∉ adjacentLoops)
    (hg1 : LQ.isGuarded F L1 = true) (hg2 : LQ.isGuarded F L2 = true)
    (hE : LQ.getExitBlock F L1 = some e) (hB : F.getBlock e = some E)
    (hI : I ∈ E.insts) (hnt : E.getTerminator.map (fun T => T.id) ≠ some I.id) :
    (L1, L2) ∉ adjLoops LQ F adjacentLoops LI := by
  rw [adjLoops_mem]
  rintro (h | ⟨_, _, h⟩)
  · exact hnew h
  · have hx : extraInstr E = true := by
      cases hx : extraInstr E with
      | true => rfl
      | false => exact absurd ((extraInstr_eq_false E).1 hx I hI) hnt
    unfold adjLoopsPair at h
    simp only [hg1, hg2, Bool.and_self, if_true, hE] at h
    cases hG : guardParent LQ F L2 with
    | none => rw [hG] at h; cases h
    | some g =>
      rw [hG] at h
      simp only [hB, hx, if_true] at h
      split_ifs at h <;> cases h

theorem adjLoops_guarded_seam_not_recorded_witness :
    (Example.guardedQueries.isGuarded Example.scenarioGuardedSeam Example.G1 = true ∧
      Example.guardedQueries.isGuarded Example.scenarioGuardedSeam Example.G2 = true ∧
      Example.guardedQueries.getExitBlock Example.scenarioGuardedSeam Example.G1 = some 9) ∧
    (Example.G1, Example.G2) ∉
      adjLoops Example.guardedQueries Example.scenarioGuardedSeam []
        [Example.G1, Example.G2] :=
  ⟨by decide,
    adjLoops_guarded_seam_not_recorded Example.guardedQueries Example.scenarioGuardedSeam []
      [Example.G1, Example.G2] Example.G1 Example.G2 9
      ⟨9, [Example.mk 30 .GetElementPtr [.arg 1, .const 0],
        Example.mk 31 .Store [.const 7, .inst 30], Example.mk 114 .Br [.block 4]]⟩
      (Example.mk 31 .Store [.const 7, .inst 30])
      (by decide) (by decide) (by decide) rfl rfl (by decide) (by decide)⟩

theorem getSCEVType_couldNotCompute (x : SCEV) :
    x.getSCEVType = SCEV.couldNotCompute.getSCEVType ↔ x = SCEV.couldNotCompute := by
  cases x <;> simp [SCEV.getSCEVType]

/-- C6. `TripCount` returns true if and only if neither backedge-taken count is the
could-not-compute sentinel and the two counts are the same expression; it returns
false whenever one of them is the sentinel. -/
theorem TripCount_true_iff {σ : Type} (SE : ScalarEvolution σ) (s : σ) (F : Function)
    (loop : Loop × Loop) :
    ((TripCount SE s F loop).1 = true ↔
      (SE.getBackedgeTakenCount s F loop.1).1 ≠ SCEV.couldNotCompute ∧
      (SE.getBackedgeTakenCount (SE.getBackedgeTakenCount s F loop.1).2 F loop.2).1 ≠
        SCEV.couldNotCompute ∧
      (SE.getBackedgeTakenCount s F loop.1).1 =
        (SE.getBackedgeTakenCount (SE.getBackedgeTakenCount s F loop.1).2 F loop.2).1) ∧
    ((SE.getBackedgeTakenCount s F loop.1).1 = SCEV.couldNotCompute ∨
      (SE.getBackedgeTakenCount (SE.getBackedgeTakenCount s F loop.1).2 F loop.2).1 =
        SCEV.couldNotCompute →
      (TripCount SE s F loop).1 = false) := by
  unfold TripCount
  simp only [Bool.or_eq_true, decide_eq_true_eq, getSCEVType_couldNotCompute]
  constructor
  · split_ifs with h1 h2
    · simp only [Bool.false_eq_true, false_iff]
      rintro ⟨ha, hb, _⟩
      rcases h1 with h | h
      · exact ha h
      · exact hb h
    · simp only [true_iff]
      exact ⟨fun h => h1 (Or.inl h), fun h => h1 (Or.inr h), h2⟩
    · simp only [Bool.false_eq_true, false_iff]
      rintro ⟨_, _, hc⟩
      exact h2 hc
  · intro h
    rw [if_pos h]

theorem TripCount_true_iff_witness :
    (((Example.tableSE Example.unknownSecond).getBackedgeTakenCount () Example.scenarioA
        Example.U1).1 = SCEV.couldNotCompute ∨
      ((Example.tableSE Example.unknownSecond).getBackedgeTakenCount
        ((Example.tableSE Example.unknownSecond).getBackedgeTakenCount () Example.scenarioA
          Example.U1).2 Example.scenarioA Example.U2).1 = SCEV.couldNotCompute) ∧
    (TripCount (Example.tableSE Example.unknownSecond) () Example.scenarioA
      (Example.U1, Example.U2)).1 = false :=
  ⟨Or.inr rfl,
    (TripCount_true_iff (Example.tableSE Example.unknownSecond) () Example.scenarioA
      (Example.U1, Example.U2)).2 (Or.inr rfl)⟩

theorem isGuarded_of_guardParent (LQ : LoopQueries) (F : Function) (L : Loop)
    (p : BlockId) (h : guardParent LQ F L = some p) : LQ.isGuarded F L = true := by
  unfold guardParent at h
  unfold LoopQueries.isGuarded
  cases hg : LQ.getLoopGuardBranch F L with
  | none => rw [hg] at h; cases h
  | some g => rfl

/-- C7. For every pair other than an unguarded loop followed by a guarded one (a
mixed pair; `adjLoops` records none), `checkEquivalence` returns true only if the
entry block of the first loop dominates the entry block of the second and the entry
block of the second post-dominates that of the first (entry block: the block of the
guard branch for a guarded loop, the header for an unguarded loop); for an unguarded
pair its result is exactly the conjunction of the two dominance answers on the
headers. -/
theorem checkEquivalence_entry_dominance (LQ : LoopQueries) (F : Function)
    (DT PDT : DominatorTree) (loop : Loop × Loop) :
    ((LQ.isGuarded F loop.2 = true → LQ.isGuarded F loop.1 = true) →
      checkEquivalence LQ F DT PDT loop = some true →
      ∃ e1 e2, entryBlock LQ F loop.1 = some e1 ∧ entryBlock LQ F loop.2 = some e2 ∧
        DT.dominates e1 e2 = true ∧ PDT.dominates e2 e1 = true) ∧
    (LQ.isGuarded F loop.1 = false → LQ.isGuarded F loop.2 = false →
      checkEquivalence LQ F DT PDT loop =
        some (DT.dominates loop.1.getHeader loop.2.getHeader &&
          PDT.dominates loop.2.getHeader loop.1.getHeader)) := by
  constructor
  · intro hmix h
    unfold checkEquivalence at h
    cases hd : guardConditionsDiffer LQ F loop with
    | none => rw [hd] at h; cases h
    | some d =>
      rw [hd] at h
      cases d with
      | true => simp at h
      | false =>
        cases hg : LQ.isGuarded F loop.1 with
        | true =>
          cases hp1 : guardParent LQ F loop.1 with
          | none => simp [hg, hp1] at h
          | some p1 =>
            cases hp2 : guardParent LQ F loop.2 with
            | none => simp [hg, hp1, hp2] at h
            | some p2 =>
              have hg2 := isGuarded_of_guardParent LQ F loop.2 p2 hp2
              simp [hg, hp1, hp2] at h
              exact ⟨p1, p2, by simp [entryBlock, hg, hp1], by simp [entryBlock, hg2, hp2],
                h.1, h.2⟩
        | false =>
          have hg2 : LQ.isGuarded F loop.2 = false := by
            cases hx : LQ.isGuarded F loop.2 with
            | false => rfl
            | true => rw [hmix hx] at hg; cases hg
          simp [hg] at h
          exact ⟨loop.1.getHeader, loop.2.getHeader, by simp [entryBlock, hg],
            by simp [entryBlock, hg2], h.1, h.2⟩
  · intro hg _
    unfold checkEquivalence guardConditionsDiffer
    simp [hg]

theorem checkEquivalence_entry_dominance_witness :
    (((Example.guardedQueries.isGuarded Example.scenarioC Example.G2 = true →
        Example.guardedQueries.isGuarded Example.scenarioC Example.G1 = true) ∧
      checkEquivalence Example.guardedQueries Example.scenarioC Example.guardedDT
        Example.guardedPDT (Example.G1, Example.G2) = some true) ∧
      ∃ e1 e2, entryBlock Example.guardedQueries Example.scenarioC Example.G1 = some e1 ∧
        entryBlock Example.guardedQueries Example.scenarioC Example.G2 = some e2 ∧
        Example.guardedDT.dominates e1 e2 = true ∧
        Example.guardedPDT.dominates e2 e1 = true) ∧
    ((Example.unguardedQueries.isGuarded Example.scenarioA Example.U1 = false ∧
      Example.unguardedQueries.isGuarded Example.scenarioA Example.U2 = false) ∧
      checkEquivalence Example.unguardedQueries Example.scenarioA Example.unguardedDT
        Example.unguardedPDT (Example.U1, Example.U2) =
        some (Example.unguardedDT.dominates Example.U1.getHeader Example.U2.getHeader &&
          Example.unguardedPDT.dominates Example.U2.getHeader Example.U1.getHeader)) :=
  ⟨⟨by decide,
      (checkEquivalence_entry_dominance Example.guardedQueries Example.scenarioC
        Example.guardedDT Example.guardedPDT (Example.G1, Example.G2)).1 (by decide)
        (by decide)⟩,
    ⟨by decide,
      (checkEquivalence_entry_dominance Example.unguardedQueries Example.scenarioA
        Example.unguardedDT Example.unguardedPDT (Example.U1, Example.U2)).2 (by decide)
        (by decide)⟩⟩

/-- C2 at a failing input. In `scenarioArgGuards` the two guards branch on the
distinct arguments `%3` and `%4`; neither condition is an instruction, the comparison
of lines 93-96 is skipped, and `checkEquivalence` answers true on the dominance facts
alone.  In `scenarioD`, where the differing conditions are the instructions `N > 0`
and `M > 0`, the same trees give false. -/
theorem checkEquivalence_argument_guards_accepted :
    ((guardBranch Example.guardedQueries Example.scenarioArgGuards Example.G1).bind
        Instruction.getCondition = some (Value.arg 3) ∧
      (guardBranch Example.guardedQueries Example.scenarioArgGuards Example.G2).bind
        Instruction.getCondition = some (Value.arg 4)) ∧
    checkEquivalence Example.guardedQueries Example.scenarioArgGuards Example.guardedDT
      Example.guardedPDT (Example.G1, Example.G2) = some true ∧
    checkEquivalence Example.guardedQueries Example.scenarioD Example.guardedDT
      Example.guardedPDT (Example.G1, Example.G2) = some false := by
  decide

/-- C1 at a failing input. In `scenarioB` the first loop computes the address
`a[i]` (`%3`); in the second loop `%13 = getelementptr a, %18` uses `a` with index
operand `%18 = add %11, 1`, the induction variable plus one.  The scan looks at
operand 0 of `%18`, finds the phi `%11`, records nothing, and `negDependencies`
returns true.  In `scenarioBSExt`, the same loops with a 32-bit counter whose sum is
sign-extended before it is used as index, the scan does record the sum and returns
false. -/
theorem negDependencies_index_plus_one_accepted :
    (Example.scenarioB.getInst 3 = some (Example.mk 3 .GetElementPtr [.arg 0, .inst 1]) ∧
      Example.scenarioB.getParent 3 = some 2 ∧ Example.U1.contains 2 = true) ∧
    (Example.scenarioB.getInst 13 = some (Example.mk 13 .GetElementPtr [.arg 0, .inst 18]) ∧
      Example.scenarioB.getParent 13 = some 6 ∧ Example.U2.contains 6 = true) ∧
    (Example.scenarioB.getInst 18 = some (Example.mk 18 .Add [.inst 11, .const 1]) ∧
      Example.unguardedQueries.getCanonicalInductionVariable Example.scenarioB Example.U2 =
        some 11) ∧
    depInst Example.scenarioB (Example.U1, Example.U2) = some [] ∧
    negDependencies Example.scenarioB (Example.U1, Example.U2) = some true ∧
    negDependencies Example.scenarioBSExt (Example.U1, Example.U2) = some false := by
  decide

/-- C8 at a failing input. In `scenarioPhiSwapped` the only instruction of the second
loop that uses `a` is `%13 = getelementptr a, %11`, whose index is the induction
variable `%11` itself.  The scan looks at operand 0 of the phi, finds the increment
`%14 = add %11, 1`, records it, and `negDependencies` returns false.  In `scenarioA`,
the same program with the incoming values of the phi in the other order, operand 0 of
the phi is the constant 0 and the result is true. -/
theorem negDependencies_induction_index_rejected :
    (∀ I ∈ usersIn Example.scenarioPhiSwapped Example.U2 (.arg 0),
      I.getOperand 1 = some (.inst 11)) ∧
    Example.unguardedQueries.getCanonicalInductionVariable Example.scenarioPhiSwapped
      Example.U2 = some 11 ∧
    Example.scenarioPhiSwapped.getInst 11 =
      some (Example.mk 11 .PHI [.inst 14, .const 0]) ∧
    depInst Example.scenarioPhiSwapped (Example.U1, Example.U2) = some [14] ∧
    negDependencies Example.scenarioPhiSwapped (Example.U1, Example.U2) = some false ∧
    negDependencies Example.scenarioA (Example.U1, Example.U2) = some true := by
  decide

theorem pair_nodup (L1 L2 : Loop) (set : List (Loop × Loop)) (h : set.Nodup) :
    (pair L1 L2 set).Nodup := by
  unfold pair
  split_ifs with hm
  · exact h
  · rw [List.nodup_append]
    refine ⟨h, List.nodup_singleton _, ?_⟩
    intro a ha hb
    rw [List.mem_singleton] at hb
    subst hb
    exact hm ha

theorem adjLoopsPair_nodup (LQ : LoopQueries) (F : Function) (acc : List (Loop × Loop))
    (L1 L2 : Loop) (h : acc.Nodup) : (adjLoopsPair LQ F acc L1 L2).Nodup := by
  rcases adjLoopsPair_cases LQ F acc L1 L2 with ⟨h1, _⟩ | ⟨h1, _⟩
  · rw [h1]; exact h
  · rw [h1]; exact pair_nodup L1 L2 acc h

theorem adjLoops_inner_nodup (LQ : LoopQueries) (F : Function) (L1 : Loop)
    (LI : List Loop) (acc : List (Loop × Loop)) (h : acc.Nodup) :
    (LI.foldl (fun acc2 L2 => adjLoopsPair LQ F acc2 L1 L2) acc).Nodup := by
  induction LI generalizing acc with
  | nil => exact h
  | cons L LI ih =>
    rw [List.foldl_cons]
    exact ih _ (adjLoopsPair_nodup LQ F acc L1 L h)

theorem adjLoops_outer_nodup (LQ : LoopQueries) (F : Function) (LI2 LI : List Loop)
    (acc : List (Loop × Loop)) (h : acc.Nodup) :
    (LI.foldl (fun acc L1 => LI2.foldl (fun acc2 L2 => adjLoopsPair LQ F acc2 L1 L2) acc)
      acc).Nodup := by
  induction LI generalizing acc with
  | nil => exact h
  | cons L LI ih =>
    rw [List.foldl_cons]
    exact ih _ (adjLoops_inner_nodup LQ F L LI2 acc h)

/-- The set `adjLoops` builds has no repeated pair. -/
theorem adjLoops_nodup (LQ : LoopQueries) (F : Function) (LI : List Loop) :
    (adjLoops LQ F [] LI).Nodup :=
  adjLoops_outer_nodup LQ F LI LI [] List.nodup_nil

/-- One iteration of the loop of `run`: either the three checks pass and the pair is
fused, or one of them fails and neither the function, the flag nor the call list
changes. -/
theorem runStep_spec {σ : Type} (LQ : LoopQueries) (DT PDT : DominatorTree)
    (SE : ScalarEvolution σ) (st st2 : RunState σ) (p : Loop × Loop)
    (h : runStep LQ DT PDT SE st p = some st2) :
    (st2.fused = st.fused ++ [p] ∧ st2.modified = true ∧
      (checkEquivalence LQ st.F DT PDT p = some true ∧
        (TripCount SE st.se st.F p).1 = true ∧ negDependencies st.F p = some true)) ∨
    (st2.fused = st.fused ∧ st2.modified = st.modified ∧ st2.F = st.F ∧
      ¬ (checkEquivalence LQ st.F DT PDT p = some true ∧
        (TripCount SE st.se st.F p).1 = true ∧ negDependencies st.F p = some true)) := by
  unfold runStep at h
  cases hce : checkEquivalence LQ st.F DT PDT p with
  | none => simp [hce] at h
  | some b =>
    cases b with
    | false =>
      simp only [hce, Option.some.injEq] at h
      subst h
      exact Or.inr ⟨rfl, rfl, rfl, by simp⟩
    | true =>
      simp only [hce] at h
      cases htc : (TripCount SE st.se st.F p).1 with
      | false =>
        simp only [htc, Bool.not_false, if_true, Option.some.injEq] at h
        subst h
        exact Or.inr ⟨rfl, rfl, rfl, by simp⟩
      | true =>
        simp only [htc, Bool.not_true, Bool.false_eq_true, if_false] at h
        cases hnd : negDependencies st.F p with
        | none => simp [hnd] at h
        | some b2 =>
          cases b2 with
          | false =>
            simp only [hnd, Option.some.injEq] at h
            subst h
            exact Or.inr ⟨rfl, rfl, rfl, by simp⟩
          | true =>
            simp only [hnd] at h
            cases hlf : loopFusion LQ st.F p.1 p.2 with
            | none => simp [hlf] at h
            | some F2 =>
              simp only [hlf, Option.some.injEq] at h
              subst h
              exact Or.inl ⟨rfl, rfl, rfl, rfl, rfl⟩

theorem runLoop_append {σ : Type} (LQ : LoopQueries) (DT PDT : DominatorTree)
    (SE : ScalarEvolution σ) (xs ys : List (Loop × Loop)) (st st3 : RunState σ) :
    runLoop LQ DT PDT SE st (xs ++ ys) = some st3 ↔
      ∃ st2, runLoop LQ DT PDT SE st xs = some st2 ∧
        runLoop LQ DT PDT SE st2 ys = some st3 := by
  induction xs generalizing st with
  | nil => simp [runLoop]
  | cons x xs ih =>
    simp only [List.cons_append, runLoop]
    cases hx : runStep LQ DT PDT SE st x with
    | none => simp
    | some st1 => simpa using ih st1

theorem runLoop_invariant {σ : Type} (LQ : LoopQueries) (DT PDT : DominatorTree)
    (SE : ScalarEvolution σ) (xs : List (Loop × Loop)) (st st2 : RunState σ)
    (h : runLoop LQ DT PDT SE st xs = some st2) :
    (∀ q ∈ st2.fused, q ∈ st.fused ∨ q ∈ xs) ∧ (∀ q ∈ st.fused, q ∈ st2.fused) ∧
      ((st.modified = true ↔ st.fused ≠ []) → (st2.modified = true ↔ st2.fused ≠ [])) := by
  induction xs generalizing st with
  | nil =>
    simp only [runLoop, Option.some.injEq] at h
    subst h
    exact ⟨fun q hq => Or.inl hq, fun q hq => hq, fun hm => hm⟩
  | cons x xs ih =>
    simp only [runLoop] at h
    cases hx : runStep LQ DT PDT SE st x with
    | none => simp [hx] at h
    | some st1 =>
      simp only [hx] at h
      obtain ⟨ih1, ih2, ih3⟩ := ih st1 h
      rcases runStep_spec LQ DT PDT SE st st1 x hx with ⟨hf, hm, _⟩ | ⟨hf, hm, _, _⟩
      · refine ⟨?_, ?_, ?_⟩
        · intro q hq
          rcases ih1 q hq with h1 | h1
          · rw [hf, List.mem_append, List.mem_singleton] at h1
            rcases h1 with h1 | h1
            · exact Or.inl h1
            · exact Or.inr (List.mem_cons.2 (Or.inl h1))
          · exact Or.inr (List.mem_cons_of_mem _ h1)
        · intro q hq
          exact ih2 q (by rw [hf]; exact List.mem_append_left _ hq)
        · intro _
          exact ih3 (by rw [hm, hf]; simp)
      · refine ⟨?_, ?_, ?_⟩
        · intro q hq
          rcases ih1 q hq with h1 | h1
          · exact Or.inl (hf ▸ h1)
          · exact Or.inr (List.mem_cons_of_mem _ h1)
        · intro q hq
          exact ih2 q (by rw [hf]; exact hq)
        · intro hinv
          exact ih3 (by rw [hm, hf]; exact hinv)

theorem setOrder_perm (addr : Loop → Nat) (set : List (Loop × Loop)) :
    (setOrder addr set).Perm set :=
  List.perm_insertionSort (pairLE addr) set

/-- C10. When `run` returns, it reports `PreservedAnalyses::none` if and only if
`loopFusion` was called at least once; every pair it was called on is an adjacent
pair; and for each adjacent pair `p`, with `st1` the state reached after the pairs
walked before it, `loopFusion` is called on `p` if and only if `checkEquivalence`,
`TripCount` and `negDependencies` all return true in `st1`.  The checks are
short-circuited: when `checkEquivalence` returns false the iteration ends with the
state (scalar evolution included) untouched, and when `TripCount` returns false the
iteration ends without `negDependencies` being consulted. -/
theorem run_changed_iff_fused {σ : Type} (LQ : LoopQueries) (DT PDT : DominatorTree)
    (SE : ScalarEvolution σ) (addr : Loop → Nat) (s : σ) (F : Function) (LI : List Loop)
    (res : PreservedAnalyses × RunState σ)
    (hrun : run LQ DT PDT SE addr s F LI = some res) :
    (res.1 = PreservedAnalyses.none ↔ res.2.fused ≠ []) ∧
    (∀ p ∈ res.2.fused, p ∈ adjLoops LQ F [] LI) ∧
    (∀ pre p post, setOrder addr (adjLoops LQ F [] LI) = pre ++ p :: post →
      ∃ st1, runLoop LQ DT PDT SE ⟨F, s, false, []⟩ pre = some st1 ∧
        (p ∈ res.2.fused ↔
          (checkEquivalence LQ st1.F DT PDT p = some true ∧
            (TripCount SE st1.se st1.F p).1 = true ∧
            negDependencies st1.F p = some true)) ∧
        (checkEquivalence LQ st1.F DT PDT p = some false →
          runStep LQ DT PDT SE st1 p = some st1) ∧
        (checkEquivalence LQ st1.F DT PDT p = some true →
          (TripCount SE st1.se st1.F p).1 = false →
          runStep LQ DT PDT SE st1 p =
            some ⟨st1.F, (TripCount SE st1.se st1.F p).2, st1.modified, st1.fused⟩)) := by
  unfold run at hrun
  cases hl : runLoop LQ DT PDT SE ⟨F, s, false, []⟩ (setOrder addr (adjLoops LQ F [] LI)) with
  | none => simp [hl] at hrun
  | some st =>
    simp only [hl] at hrun
    obtain ⟨inv1, _, inv3⟩ := runLoop_invariant LQ DT PDT SE _ _ st hl
    have hmod : st.modified = true ↔ st.fused ≠ [] := inv3 (by simp)
    have hres : res.2 = st ∧ (res.1 = PreservedAnalyses.none ↔ st.modified = true) := by
      cases hm : st.modified with
      | true =>
        simp only [hm, if_true, Option.some.injEq] at hrun
        subst hrun
        exact ⟨rfl, by simp⟩
      | false =>
        simp only [hm, Bool.false_eq_true, if_false, Option.some.injEq] at hrun
        subst hrun
        exact ⟨rfl, by simp⟩
    obtain ⟨hst, hpa⟩ := hres
    rw [hst]
    refine ⟨hpa.trans hmod, ?_, ?_⟩
    · intro p hp
      rcases inv1 p hp with h | h
      · cases h
      · exact (setOrder_perm addr _).mem_iff.1 h
    · intro pre p post hsplit
      have hnd : (setOrder addr (adjLoops LQ F [] LI)).Nodup :=
        (setOrder_perm addr _).nodup_iff.2 (adjLoops_nodup LQ F LI)
      rw [hsplit] at hl hnd
      obtain ⟨st1, hpre, hrest⟩ := (runLoop_append LQ DT PDT SE pre (p :: post) _ st).1 hl
      have hp_pre : p ∉ pre := by
        intro hmem
        have := (List.nodup_append.1 hnd).2.2
        exact this hmem (List.mem_cons_self _ _)
      have hp_post : p ∉ post := by
        have := (List.nodup_append.1 hnd).2.1
        exact (List.nodup_cons.1 this).1
      obtain ⟨a1, _, _⟩ := runLoop_invariant LQ DT PDT SE pre _ st1 hpre
      have hp_st1 : p ∉ st1.fused := by
        intro hmem
        rcases a1 p hmem with h | h
        · cases h
        · exact hp_pre h
      simp only [runLoop] at hrest
      cases hx : runStep LQ DT PDT SE st1 p with
      | none => simp [hx] at hrest
      | some st2 =>
        simp only [hx] at hrest
        obtain ⟨b1, b2, _⟩ := runLoop_invariant LQ DT PDT SE post st2 st hrest
        refine ⟨st1, hpre, ?_, ?_, ?_⟩
        · rcases runStep_spec LQ DT PDT SE st1 st2 p hx with ⟨hf, _, hc⟩ | ⟨hf, _, _, hc⟩
          · constructor
            · intro _; exact hc
            · intro _
              exact b2 p (by rw [hf]; exact List.mem_append_right _ (List.mem_singleton.2 rfl))
          · constructor
            · intro hmem
              rcases b1 p hmem with h | h
              · rw [hf] at h; exact absurd h hp_st1
              · exact absurd h hp_post
            · intro h; exact absurd h hc
        · intro hce
          unfold runStep
          simp [hce]
        · intro hce htc
          unfold runStep
          simp [hce, htc]

theorem run_changed_iff_fused_witness :
    run Example.unguardedQueries Example.unguardedDT Example.unguardedPDT
        (Example.tableSE Example.sameCounts) Loop.header () Example.scenarioA
        [Example.U1, Example.U2] =
      some (PreservedAnalyses.none,
        ⟨Example.scenarioAFused, (), true, [(Example.U1, Example.U2)]⟩) ∧
    ((PreservedAnalyses.none = PreservedAnalyses.none ↔
        [(Example.U1, Example.U2)] ≠ []) ∧
      (∀ p ∈ [(Example.U1, Example.U2)],
        p ∈ adjLoops Example.unguardedQueries Example.scenarioA []
          [Example.U1, Example.U2])) :=
  ⟨rfl,
    (run_changed_iff_fused Example.unguardedQueries Example.unguardedDT
      Example.unguardedPDT (Example.tableSE Example.sameCounts) Loop.header ()
      Example.scenarioA [Example.U1, Example.U2]
      (PreservedAnalyses.none, ⟨Example.scenarioAFused, (), true,
        [(Example.U1, Example.U2)]⟩) rfl).1,
    (run_changed_iff_fused Example.unguardedQueries Example.unguardedDT
      Example.unguardedPDT (Example.tableSE Example.sameCounts) Loop.header ()
      Example.scenarioA [Example.U1, Example.U2]
      (PreservedAnalyses.none, ⟨Example.scenarioAFused, (), true,
        [(Example.U1, Example.U2)]⟩) rfl).2.1⟩

theorem collectM_all_nil {α β : Type} (f : α → Option (List β)) (xs : List α)
    (h : ∀ x ∈ xs, f x = some []) : collectM f xs = some [] := by
  induction xs with
  | nil => rfl
  | cons z zs ih =>
    unfold collectM
    rw [h z (List.mem_cons_self _ _), ih (fun x hx => h x (List.mem_cons_of_mem _ hx))]
    rfl

theorem collectM_defined {α β : Type} (f : α → Option (List β)) (xs : List α)
    (h : ∀ x ∈ xs, ∃ n, f x = some n) :
    ∃ s, collectM f xs = some s ∧ ∀ y ∈ s, ∃ x ∈ xs, ∃ n, f x = some n ∧ y ∈ n := by
  induction xs with
  | nil => exact ⟨[], rfl, fun y hy => by cases hy⟩
  | cons z zs ih =>
    obtain ⟨n, hn⟩ := h z (List.mem_cons_self _ _)
    obtain ⟨r, hr, hsub⟩ := ih (fun x hx => h x (List.mem_cons_of_mem _ hx))
    refine ⟨n ++ r, ?_, ?_⟩
    · unfold collectM
      rw [hn, hr]
    · intro y hy
      rcases List.mem_append.1 hy with hy | hy
      · exact ⟨z, List.mem_cons_self _ _, n, hn, hy⟩
      · obtain ⟨x, hx, m, hm, hym⟩ := hsub y hy
        exact ⟨x, List.mem_cons_of_mem _ hx, m, hm, hym⟩

theorem usersIn_mem (F : Function) (L2 : Loop) (a : Value) (inst : Instruction)
    (h : inst ∈ usersIn F L2 a) :
    ∃ b, (b, inst) ∈ F.instructions ∧ L2.contains b = true ∧ a ∈ inst.operands := by
  unfold usersIn at h
  rw [List.mem_map] at h
  obtain ⟨⟨b, i⟩, hmem, hi⟩ := h
  rw [List.mem_filter] at hmem
  simp only at hi
  subst hi
  simp only [Bool.and_eq_true] at hmem
  exact ⟨b, hmem.1, hmem.2.1, by simpa using hmem.2.2⟩

theorem depOfUser_safe (F : Function) (inst inst2 P : Instruction) (i2 p : InstId)
    (h1 : inst.getOperand 1 = some (.inst i2)) (h2 : F.getInst i2 = some inst2)
    (h3 : inst2.getOperand 0 = some (.inst p)) (h4 : F.getInst p = some P)
    (hop : P.opcode = Opcode.PHI ∨ P.opcode = Opcode.Sub) :
    depOfUser F inst = some [] := by
  unfold depOfUser
  simp only [h1, Value.asInst, h2, h3, h4]
  rcases hop with h | h <;> rw [h]

/-- The index shapes the scan accepts. Suppose every block of the first loop is in the
function, every address computation of the first loop has a base operand, and each
instruction of the second loop that uses such a base has as operand 1 an instruction
whose own operand 0 is a phi or a subtraction (the index is a cast of the induction
variable or of a subtraction, or a subtraction from the induction variable).  Then
the dependency set is empty and `negDependencies` returns true. -/
theorem negDependencies_safe_index (F : Function) (loop : Loop × Loop)
    (hblocks : ∀ b ∈ loop.1.getBlocks, ∃ B, F.getBlock b = some B)
    (hsafe : ∀ b1 B1 I, b1 ∈ loop.1.getBlocks → F.getBlock b1 = some B1 → I ∈ B1.insts →
      I.opcode = Opcode.GetElementPtr →
      ∃ a, I.getOperand 0 = some a ∧
        ∀ b2 inst, (b2, inst) ∈ F.instructions → loop.2.contains b2 = true →
          a ∈ inst.operands →
          ∃ i2 inst2 p P, inst.getOperand 1 = some (.inst i2) ∧
            F.getInst i2 = some inst2 ∧ inst2.getOperand 0 = some (.inst p) ∧
            F.getInst p = some P ∧ (P.opcode = Opcode.PHI ∨ P.opcode = Opcode.Sub)) :
    depInst F loop = some [] ∧ negDependencies F loop = some true := by
  have hdep : depInst F loop = some [] := by
    unfold depInst
    obtain ⟨is, his, hsub⟩ :=
      collectM_defined (fun b => (F.getBlock b).map (fun B => B.insts)) loop.1.getBlocks
        (fun b hb => by
          obtain ⟨B, hB⟩ := hblocks b hb
          exact ⟨B.insts, by simp [hB]⟩)
    have his2 : F.instsOfBlocks loop.1.getBlocks = some is := his
    rw [his2]
    apply collectM_all_nil
    intro I hI
    obtain ⟨b1, hb1, n, hn, hIn⟩ := hsub I hI
    obtain ⟨B1, hB1⟩ := hblocks b1 hb1
    simp only [hB1, Option.map_some', Option.some.injEq] at hn
    subst hn
    unfold depOfInst
    by_cases hgep : I.opcode = Opcode.GetElementPtr
    · obtain ⟨a, ha, hus⟩ := hsafe b1 B1 I hb1 hB1 hIn hgep
      simp only [hgep, if_true, ha]
      apply collectM_all_nil
      intro inst hinst
      obtain ⟨b2, hin, hb2, huse⟩ := usersIn_mem F loop.2 a inst hinst
      obtain ⟨i2, inst2, p, P, h1, h2, h3, h4, hop⟩ := hus b2 inst hin hb2 huse
      exact depOfUser_safe F inst inst2 P i2 p h1 h2 h3 h4 hop
    · simp only [hgep, if_false]
  exact ⟨hdep, by unfold negDependencies; rw [hdep]; rfl⟩

theorem negDependencies_safe_index_witness :
    depInst Example.scenarioPrev (Example.U1, Example.U2) = some [] ∧
      negDependencies Example.scenarioPrev (Example.U1, Example.U2) = some true :=
  negDependencies_safe_index Example.scenarioPrev (Example.U1, Example.U2)
    (by
      have h : ∀ b ∈ Example.U1.getBlocks, (Example.scenarioPrev.getBlock b).isSome = true := by
        decide
      intro b hb
      exact Option.isSome_iff_exists.1 (h b hb))
    (by
      have hbase : ∀ b ∈ Example.U1.getBlocks, ∀ B ∈ Example.scenarioPrev.getBlock b,
          ∀ I ∈ B.insts, I.opcode = Opcode.GetElementPtr →
            I.getOperand 0 = some (Value.arg 0) := by
        decide
      have huser : ∀ q ∈ Example.scenarioPrev.instructions,
          Example.U2.contains q.1 = true → Value.arg 0 ∈ q.2.operands →
            q.2 = Example.mk 13 .GetElementPtr [.arg 0, .inst 18] := by
        decide
      intro b1 B1 I hb1 hB1 hI hgep
      refine ⟨Value.arg 0, hbase b1 hb1 B1 hB1 I hI hgep, ?_⟩
      intro b2 inst hin hb2 huse
      have hq := huser (b2, inst) hin hb2 huse
      simp only at hq
      subst hq
      exact ⟨18, Example.mk 18 .Sub [.inst 11, .const 1], 11,
        Example.mk 11 .PHI [.const 0, .inst 14], rfl, by decide, rfl, by decide,
        Or.inl rfl⟩)

theorem runLoop_no_fusion {σ : Type} (LQ : LoopQueries) (DT PDT : DominatorTree)
    (SE : ScalarEvolution σ) (F : Function) (xs : List (Loop × Loop)) (s : σ)
    (hfail : ∀ p ∈ xs, ∀ s2, checkEquivalence LQ F DT PDT p = some false ∨
      (checkEquivalence LQ F DT PDT p = some true ∧
        ((TripCount SE s2 F p).1 = false ∨ negDependencies F p = some false))) :
    ∃ s2, runLoop LQ DT PDT SE ⟨F, s, false, []⟩ xs = some ⟨F, s2, false, []⟩ := by
  induction xs generalizing s with
  | nil => exact ⟨s, rfl⟩
  | cons p xs ih =>
    have hstep : ∃ s1, runStep LQ DT PDT SE ⟨F, s, false, []⟩ p =
        some ⟨F, s1, false, []⟩ := by
      unfold runStep
      rcases hfail p (List.mem_cons_self _ _) s with hce | ⟨hce, htc | hnd⟩
      · exact ⟨s, by simp [hce]⟩
      · exact ⟨(TripCount SE s F p).2, by simp [hce, htc]⟩
      · refine ⟨(TripCount SE s F p).2, ?_⟩
        cases htc : (TripCount SE s F p).1 <;> simp [hce, htc, hnd]
    obtain ⟨s1, hs1⟩ := hstep
    obtain ⟨s2, hs2⟩ := ih s1 (fun q hq => hfail q (List.mem_cons_of_mem _ hq))
    exact ⟨s2, by simp only [runLoop, hs1, hs2]⟩

/-- C11. If on every adjacent pair (none included) the first of `checkEquivalence`,
`TripCount`, `negDependencies` that fails returns false, then `run` returns, reports
`PreservedAnalyses::all`, never calls `loopFusion`, and the function it leaves is the
function it was given: every block, terminator and operand is unchanged.  Neither
`adjLoops` nor a checker produces a function; only `loopFusion` does. -/
theorem run_no_fusion_frame {σ : Type} (LQ : LoopQueries) (DT PDT : DominatorTree)
    (SE : ScalarEvolution σ) (addr : Loop → Nat) (s : σ) (F : Function) (LI : List Loop)
    (hfail : ∀ p ∈ adjLoops LQ F [] LI, ∀ s2,
      checkEquivalence LQ F DT PDT p = some false ∨
      (checkEquivalence LQ F DT PDT p = some true ∧
        ((TripCount SE s2 F p).1 = false ∨ negDependencies F p = some false))) :
    ∃ s2, run LQ DT PDT SE addr s F LI =
      some (PreservedAnalyses.all, ⟨F, s2, false, []⟩) := by
  obtain ⟨s2, hs2⟩ := runLoop_no_fusion LQ DT PDT SE F
    (setOrder addr (adjLoops LQ F [] LI)) s
    (fun p hp => hfail p ((setOrder_perm addr _).mem_iff.1 hp))
  exact ⟨s2, by unfold run; simp [hs2]⟩

theorem run_no_fusion_frame_witness :
    ∃ s2, run Example.unguardedQueries Example.unguardedDT Example.unguardedPDT
        (Example.tableSE Example.sameCounts) Loop.header () Example.scenarioBSExt
        [Example.U1, Example.U2] =
      some (PreservedAnalyses.all, ⟨Example.scenarioBSExt, s2, false, []⟩) :=
  run_no_fusion_frame Example.unguardedQueries Example.unguardedDT Example.unguardedPDT
    (Example.tableSE Example.sameCounts) Loop.header () Example.scenarioBSExt
    [Example.U1, Example.U2] (by decide)

/-! ### Blocks under the primitives of the splice -/

theorem getBlock_id (F : Function) (b : BlockId) (B : BasicBlock)
    (h : F.getBlock b = some B) : B.id = b := by
  unfold Function.getBlock at h
  have := List.find?_some h
  simpa using this

theorem getBlock_mem (F : Function) (b : BlockId) (B : BasicBlock)
    (h : F.getBlock b = some B) : B ∈ F.blocks := by
  unfold Function.getBlock at h
  exact List.mem_of_find?_eq_some h

theorem mem_instructions (F : Function) (b : BlockId) (I : Instruction) :
    (b, I) ∈ F.instructions ↔ ∃ B ∈ F.blocks, B.id = b ∧ I ∈ B.insts := by
  unfold Function.instructions
  simp only [List.mem_flatMap, List.mem_map, Prod.mk.injEq]
  constructor
  · rintro ⟨B, hB, J, hJ, rfl, rfl⟩
    exact ⟨B, hB, rfl, hJ⟩
  · rintro ⟨B, hB, rfl, hI⟩
    exact ⟨B, hB, I, hI, rfl, rfl⟩

theorem find_updateBlock_same (l : List BasicBlock) (b : BlockId)
    (insts : List Instruction) (B : BasicBlock)
    (h : l.find? (fun B => B.id == b) = some B) :
    (l.map (fun B => if B.id = b then ⟨B.id, insts⟩ else B)).find? (fun B => B.id == b) =
      some ⟨b, insts⟩ := by
  induction l with
  | nil => simp at h
  | cons X Xs ih =>
    by_cases hX : X.id = b
    · simp [List.find?_cons, hX]
    · have hX2 : (X.id == b) = false := by simpa using hX
      simp only [List.find?_cons, hX2] at h
      simp only [List.map_cons, if_neg hX, List.find?_cons, hX2]
      exact ih h

theorem find_updateBlock_other (l : List BasicBlock) (b b2 : BlockId)
    (insts : List Instruction) (h : b2 ≠ b) :
    (l.map (fun B => if B.id = b then ⟨B.id, insts⟩ else B)).find? (fun B => B.id == b2) =
      l.find? (fun B => B.id == b2) := by
  induction l with
  | nil => rfl
  | cons X Xs ih =>
    by_cases hX : X.id = b
    · have h2 : (X.id == b2) = false := by
        simp only [beq_eq_false_iff_ne, ne_eq]
        exact fun hx => h (hx.symm.trans hX)
      simp only [List.map_cons, if_pos hX, List.find?_cons, h2, ih]
    · simp only [List.map_cons, if_neg hX, List.find?_cons, ih]

theorem getBlock_updateBlock_same (F : Function) (b : BlockId) (insts : List Instruction)
    (B : BasicBlock) (h : F.getBlock b = some B) :
    (F.updateBlock b insts).getBlock b = some ⟨b, insts⟩ :=
  find_updateBlock_same F.blocks b insts B h

theorem getBlock_updateBlock_other (F : Function) (b b2 : BlockId)
    (insts : List Instruction) (h : b2 ≠ b) :
    (F.updateBlock b insts).getBlock b2 = F.getBlock b2 :=
  find_updateBlock_other F.blocks b b2 insts h

theorem updateBlock_updateBlock (F : Function) (b : BlockId) (xs ys : List Instruction) :
    (F.updateBlock b xs).updateBlock b ys = F.updateBlock b ys := by
  unfold Function.updateBlock
  simp only [List.map_map, Function.mk.injEq]
  apply List.map_congr_left
  intro B _
  by_cases hB : B.id = b <;> simp [hB]

theorem find_replaceUses (l : List BasicBlock) (o n : Value) (b : BlockId) :
    (l.map (BasicBlock.replaceUses o n)).find? (fun B => B.id == b) =
      (l.find? (fun B => B.id == b)).map (BasicBlock.replaceUses o n) := by
  induction l with
  | nil => rfl
  | cons X Xs ih =>
    have hid : (BasicBlock.replaceUses o n X).id = X.id := rfl
    cases hX : (X.id == b) with
    | true => simp only [List.map_cons, List.find?_cons, hid, hX, Option.map_some']
    | false => simp only [List.map_cons, List.find?_cons, hid, hX, ih]

theorem getBlock_replaceAllUsesWith (F : Function) (o n : Value) (b : BlockId) :
    (F.replaceAllUsesWith o n).getBlock b =
      (F.getBlock b).map (BasicBlock.replaceUses o n) :=
  find_replaceUses F.blocks o n b

theorem getTerminator_some (B : BasicBlock) (T : Instruction)
    (h : B.getTerminator = some T) :
    B.insts = B.insts.dropLast ++ [T] ∧ T.opcode.isTerminator = true ∧
      B.insts.getLast? = some T := by
  unfold BasicBlock.getTerminator at h
  cases hl : B.insts.getLast? with
  | none => simp [hl] at h
  | some I =>
    simp only [hl] at h
    by_cases ht : I.opcode.isTerminator = true
    · simp only [ht, if_true, Option.some.injEq] at h
      subst h
      refine ⟨?_, ht, rfl⟩
      have hne : B.insts ≠ [] := by
        intro he
        rw [he] at hl
        simp at hl
      have := List.dropLast_append_getLast hne
      rw [List.getLast?_eq_getLast _ hne] at hl
      simp only [Option.some.injEq] at hl
      rw [hl] at this
      exact this.symm
    · simp [ht] at h

theorem getTerminator_append_singleton (b : BlockId) (xs : List Instruction)
    (T : Instruction) (hT : T.opcode.isTerminator = true) :
    (BasicBlock.mk b (xs ++ [T])).getTerminator = some T := by
  unfold BasicBlock.getTerminator
  simp [hT]

theorem setTerminatorSuccessor_spec (F G : Function) (blk : BlockId) (idx : Nat)
    (d : BlockId) (h : F.setTerminatorSuccessor blk idx d = some G) :
    ∃ B T T2, F.getBlock blk = some B ∧ B.getTerminator = some T ∧
      T.setSuccessor idx d = some T2 ∧ G = F.updateBlock blk (B.insts.dropLast ++ [T2]) := by
  unfold Function.setTerminatorSuccessor at h
  cases hB : F.getBlock blk with
  | none => simp [hB] at h
  | some B =>
    simp only [hB] at h
    cases hT : B.getTerminator with
    | none => simp [hT] at h
    | some T =>
      simp only [hT] at h
      cases hS : T.setSuccessor idx d with
      | none => simp [hS] at h
      | some T2 =>
        simp only [hS, Option.some.injEq] at h
        exact ⟨B, T, T2, rfl, hT, hS, h.symm⟩

theorem replaceTerminator_spec (F G1 G2 : Function) (blk : BlockId) (ops : List Value)
    (h1 : F.createBranchBeforeTerminator blk ops = some G1)
    (h2 : G1.eraseTerminator blk = some G2) :
    ∃ B T, F.getBlock blk = some B ∧ B.getTerminator = some T ∧
      G2 = F.updateBlock blk (B.insts.dropLast ++ [⟨F.freshId, .Br, ops, 0, 0⟩]) := by
  unfold Function.createBranchBeforeTerminator at h1
  cases hB : F.getBlock blk with
  | none => simp [hB] at h1
  | some B =>
    simp only [hB] at h1
    cases hT : B.getTerminator with
    | none =>
      simp only [hT, Option.some.injEq] at h1
      subst h1
      unfold Function.eraseTerminator at h2
      simp [hB, hT] at h2
    | some T =>
      simp only [hT, Option.some.injEq] at h1
      subst h1
      refine ⟨B, T, rfl, hT, ?_⟩
      have hTt := (getTerminator_some B T hT).2.1
      unfold Function.eraseTerminator at h2
      rw [getBlock_updateBlock_same F blk _ B hB] at h2
      simp only at h2
      have hterm : (BasicBlock.mk blk
          (B.insts.dropLast ++ [⟨F.freshId, .Br, ops, 0, 0⟩, T])).getTerminator = some T := by
        have : B.insts.dropLast ++ [⟨F.freshId, .Br, ops, 0, 0⟩, T] =
            (B.insts.dropLast ++ [⟨F.freshId, .Br, ops, 0, 0⟩]) ++ [T] := by simp
        rw [this]
        exact getTerminator_append_singleton _ _ _ hTt
      rw [hterm] at h2
      simp only at h2
      split_ifs at h2
      simp only [Option.some.injEq] at h2
      rw [← h2, updateBlock_updateBlock]
      congr 1
      have : B.insts.dropLast ++ [⟨F.freshId, .Br, ops, 0, 0⟩, T] =
          (B.insts.dropLast ++ [⟨F.freshId, .Br, ops, 0, 0⟩]) ++ [T] := by simp
      rw [this, List.dropLast_concat]

theorem eraseFront_spec (F G : Function) (blk : BlockId) (h : F.eraseFront blk = some G) :
    ∃ B I, F.getBlock blk = some B ∧ B.insts.head? = some I ∧ F.hasUses I.id = false ∧
      G = F.updateBlock blk B.insts.tail := by
  unfold Function.eraseFront at h
  cases hB : F.getBlock blk with
  | none => simp [hB] at h
  | some B =>
    simp only [hB] at h
    cases hI : B.insts.head? with
    | none => simp [hI] at h
    | some I =>
      simp only [hI] at h
      cases hu : F.hasUses I.id with
      | true => simp [hu] at h
      | false =>
        simp only [hu, Bool.false_eq_true, if_false, Option.some.injEq] at h
        exact ⟨B, I, rfl, hI, hu, h.symm⟩

theorem setSuccessor_spec (T T2 : Instruction) (idx : Nat) (d : BlockId)
    (h : T.setSuccessor idx d = some T2) :
    T2.id = T.id ∧ T2.opcode = T.opcode ∧ T2.opcode.isTerminator = true := by
  unfold Instruction.setSuccessor at h
  split at h
  · next hop =>
    split at h
    · split_ifs at h
      simp only [Option.some.injEq] at h
      subst h
      exact ⟨rfl, rfl, by simp [hop, Opcode.isTerminator]⟩
    · split_ifs at h <;> simp only [Option.some.injEq] at h <;> subst h <;>
        exact ⟨rfl, rfl, by simp [hop, Opcode.isTerminator]⟩
    · cases h
  · next hop =>
    split at h
    · simp only [Option.some.injEq] at h
      subst h
      exact ⟨rfl, rfl, by simp [hop, Opcode.isTerminator]⟩
    · cases h
  · cases h

theorem setSuccessor_zero_head (T T2 : Instruction) (d : BlockId)
    (h : T.setSuccessor 0 d = some T2) : T2.successors.head? = some d := by
  unfold Instruction.setSuccessor at h
  split at h
  · next hop =>
    split at h
    · simp only [if_true, Option.some.injEq] at h
      subst h
      simp [Instruction.successors, hop]
    · simp only [if_true, Option.some.injEq] at h
      subst h
      simp [Instruction.successors, hop]
    · cases h
  · next hop =>
    split at h
    · next b0 hget =>
      simp only [Option.some.injEq] at h
      subst h
      cases hops : T.operands with
      | nil => simp [hops] at hget
      | cons c rest =>
        cases rest with
        | nil => simp [hops] at hget
        | cons x xs =>
          simp [Instruction.successors, hop, hops, List.set, Value.asBlock]
    · cases h
  · cases h

theorem getLast?_cons_of_getLast? {α : Type} (a x : α) (l : List α)
    (h : l.getLast? = some x) : (a :: l).getLast? = some x := by
  cases l with
  | nil => simp at h
  | cons y ys => rw [List.getLast?_cons_cons]; exact h

/-- The unguarded splice, block by block: what `loopFusionUnguarded` leaves in the
header of the first loop, in the last body block of each loop and in the header of
the second loop; every other block is untouched. -/
theorem loopFusionUnguarded_blocks (F1 G : Function) (L1 L2 : Loop)
    (latch1 : BlockId) (latch2 : Option BlockId) (exit : BlockId)
    (bodies1 bodies2 : List BlockId) (x1 x2 first1 last1 first2 last2 : BlockId)
    (hL1 : L1.rest = bodies1 ++ [x1]) (hL2 : L2.rest = bodies2 ++ [x2])
    (hf1 : bodies1.head? = some first1) (hl1 : bodies1.getLast? = some last1)
    (hf2 : bodies2.head? = some first2) (hl2 : bodies2.getLast? = some last2)
    (hnd : (L1.getBlocks ++ L2.getBlocks).Nodup)
    (h : loopFusionUnguarded F1 L1 L2 latch1 latch2 exit = some G) :
    ∃ l2 Bh1 Th1 cond Bl1 Tl1 Sl1 Bl2 Tl2 Sl2 Bh2 n1 n2,
      latch2 = some l2 ∧
      F1.getBlock L1.header = some Bh1 ∧ Bh1.getTerminator = some Th1 ∧
      Th1.getOperand 0 = some cond ∧
      G.getBlock L1.header = some ⟨L1.header, Bh1.insts.dropLast ++
        [⟨n1, .Br, [cond, .block exit, .block first1], 0, 0⟩]⟩ ∧
      F1.getBlock last1 = some Bl1 ∧ Bl1.getTerminator = some Tl1 ∧
      Tl1.setSuccessor 0 first2 = some Sl1 ∧
      G.getBlock last1 = some ⟨last1, Bl1.insts.dropLast ++ [Sl1]⟩ ∧
      F1.getBlock last2 = some Bl2 ∧ Bl2.getTerminator = some Tl2 ∧
      Tl2.setSuccessor 0 latch1 = some Sl2 ∧
      G.getBlock last2 = some ⟨last2, Bl2.insts.dropLast ++ [Sl2]⟩ ∧
      F1.getBlock L2.header = some Bh2 ∧
      G.getBlock L2.header = some ⟨L2.header, Bh2.insts.dropLast ++
        [⟨n2, .Br, [.block l2], 0, 0⟩]⟩ ∧
      ∀ b, b ≠ L1.header → b ≠ last1 → b ≠ last2 → b ≠ L2.header →
        G.getBlock b = F1.getBlock b := by
  have hm1 : last1 ∈ bodies1 := List.mem_of_getLast?_eq_some hl1
  have hm2 : last2 ∈ bodies2 := List.mem_of_getLast?_eq_some hl2
  unfold Loop.getBlocks at hnd
  rw [hL1, hL2] at hnd
  rw [List.nodup_append] at hnd
  obtain ⟨hn1, hn2, hdisj⟩ := hnd
  have d1 : last1 ≠ L1.header := by
    intro he
    have := (List.nodup_cons.1 hn1).1
    exact this (he ▸ List.mem_append_left _ hm1)
  have d2 : last2 ≠ L2.header := by
    intro he
    have := (List.nodup_cons.1 hn2).1
    exact this (he ▸ List.mem_append_left _ hm2)
  have m1 : last1 ∈ L1.header :: (bodies1 ++ [x1]) :=
    List.mem_cons_of_mem _ (List.mem_append_left _ hm1)
  have m2 : last2 ∈ L2.header :: (bodies2 ++ [x2]) :=
    List.mem_cons_of_mem _ (List.mem_append_left _ hm2)
  have d3 : last2 ≠ last1 := fun he => hdisj (he ▸ m1) m2
  have d4 : last2 ≠ L1.header := fun he => hdisj (List.mem_cons_self _ _) (he ▸ m2)
  have d5 : L2.header ≠ L1.header :=
    fun he => hdisj (List.mem_cons_self _ _) (he ▸ List.mem_cons_self _ _)
  have d6 : L2.header ≠ last1 := fun he => hdisj m1 (he ▸ List.mem_cons_self _ _)
  unfold loopFusionUnguarded at h
  simp only [bind, Option.bind_eq_some, Loop.getHeader] at h
  obtain ⟨lastL1BB, e1, l2First, e2, F2, hF2, l2Last, e3, F3, hF3, l2, e4, F4, hF4, F5, hF5,
    l1First, e5, cond, hcond, F6, hF6, hG⟩ := h
  have c1 : lastL1BB = last1 := by
    have : L1.getBlocks.dropLast = L1.header :: bodies1 := by
      unfold Loop.getBlocks
      rw [hL1, ← List.cons_append, List.dropLast_concat]
    rw [this, getLast?_cons_of_getLast? _ _ _ hl1] at e1
    exact (Option.some.inj e1).symm
  have c2 : L2.getBlocks.tail.dropLast = bodies2 := by
    unfold Loop.getBlocks
    rw [hL2, List.tail_cons, List.dropLast_concat]
  have c3 : l2First = first2 := by
    rw [c2, hf2] at e2
    exact (Option.some.inj e2).symm
  have c4 : l2Last = last2 := by
    rw [c2, hl2] at e3
    exact (Option.some.inj e3).symm
  have c5 : l1First = first1 := by
    have : L1.getBlocks.tail.head? = some first1 := by
      unfold Loop.getBlocks
      rw [hL1, List.tail_cons]
      cases bodies1 with
      | nil => simp at hf1
      | cons y ys => simpa using hf1
    rw [this] at e5
    exact (Option.some.inj e5).symm
  subst c1 c3 c4 c5
  obtain ⟨Bl1, Tl1, Sl1, gBl1, tBl1, sBl1, rfl⟩ := setTerminatorSuccessor_spec _ _ _ _ _ hF2
  obtain ⟨Bl2, Tl2, Sl2, rBl2, tBl2, sBl2, rfl⟩ := setTerminatorSuccessor_spec _ _ _ _ _ hF3
  obtain ⟨Bh2, Th2, rBh2, tBh2, rfl⟩ := replaceTerminator_spec _ _ _ _ _ hF4 hF5
  obtain ⟨Bh1, Th1, rBh1, tBh1, rfl⟩ := replaceTerminator_spec _ _ _ _ _ hF6 hG
  have gBl2 := rBl2
  rw [getBlock_updateBlock_other _ _ _ _ d3] at gBl2
  have gBh2 := rBh2
  rw [getBlock_updateBlock_other _ _ _ _ d2.symm,
    getBlock_updateBlock_other _ _ _ _ d6] at gBh2
  have gBh1 := rBh1
  rw [getBlock_updateBlock_other _ _ _ _ d5.symm,
    getBlock_updateBlock_other _ _ _ _ d4.symm,
    getBlock_updateBlock_other _ _ _ _ d1.symm] at gBh1
  have hcond2 : Th1.getOperand 0 = some cond := by
    unfold Function.backOperand0 at hcond
    rw [rBh1] at hcond
    simp only [(getTerminator_some Bh1 Th1 tBh1).2.2] at hcond
    exact hcond
  refine ⟨l2, Bh1, Th1, cond, Bl1, Tl1, Sl1, Bl2, Tl2, Sl2, Bh2, ?n1, ?n2, e4, gBh1, tBh1,
    hcond2, ?g1, gBl1, tBl1, sBl1, ?g2, gBl2, tBl2, sBl2, ?g3, gBh2, ?g4, ?g5⟩
  case g1 => exact getBlock_updateBlock_same _ _ _ _ rBh1
  case g2 =>
    rw [getBlock_updateBlock_other _ _ _ _ d1, getBlock_updateBlock_other _ _ _ _ d6.symm,
      getBlock_updateBlock_other _ _ _ _ d3.symm]
    exact getBlock_updateBlock_same _ _ _ _ gBl1
  case g3 =>
    rw [getBlock_updateBlock_other _ _ _ _ d4, getBlock_updateBlock_other _ _ _ _ d2]
    exact getBlock_updateBlock_same _ _ _ _ rBl2
  case g4 =>
    rw [getBlock_updateBlock_other _ _ _ _ d5]
    exact getBlock_updateBlock_same _ _ _ _ rBh2
  case g5 =>
    intro b b1 b2 b3 b4
    rw [getBlock_updateBlock_other _ _ _ _ b1, getBlock_updateBlock_other _ _ _ _ b4,
      getBlock_updateBlock_other _ _ _ _ b3, getBlock_updateBlock_other _ _ _ _ b2]

theorem getTerminator_replaceUses (B : BasicBlock) (o n : Value) :
    (B.replaceUses o n).getTerminator = B.getTerminator.map (Instruction.replaceUses o n) := by
  unfold BasicBlock.getTerminator BasicBlock.replaceUses
  simp only [List.getLast?_map]
  cases B.insts.getLast? with
  | none => rfl
  | some I =>
    simp only [Option.map_some']
    have : (Instruction.replaceUses o n I).opcode = I.opcode := rfl
    rw [this]
    split_ifs <;> rfl

theorem getCondition_operand (T : Instruction) (c : Value) (h : T.getCondition = some c) :
    ∃ f t, T.opcode = Opcode.Br ∧ T.operands = [c, f, t] := by
  unfold Instruction.getCondition at h
  split at h
  · next c2 f t hop hops =>
    simp only [Option.some.injEq] at h
    subst h
    exact ⟨f, t, hop, hops⟩
  · cases h

theorem loopFusion_unguarded (LQ : LoopQueries) (F G : Function) (L1 L2 : Loop)
    (iv1 iv2 : InstId) (latch1 exit : BlockId)
    (h1 : LQ.getCanonicalInductionVariable F L1 = some iv1)
    (h2 : LQ.getCanonicalInductionVariable F L2 = some iv2)
    (hg : LQ.isGuarded (F.replaceAllUsesWith (.inst iv2) (.inst iv1)) L1 = false)
    (hl : LQ.getLoopLatch (F.replaceAllUsesWith (.inst iv2) (.inst iv1)) L1 = some latch1)
    (he : LQ.getUniqueExitBlock (F.replaceAllUsesWith (.inst iv2) (.inst iv1)) L2 = some exit)
    (h : loopFusion LQ F L1 L2 = some G) :
    iv1 ≠ iv2 ∧
      loopFusionUnguarded (F.replaceAllUsesWith (.inst iv2) (.inst iv1)) L1 L2 latch1
        (LQ.getLoopLatch (F.replaceAllUsesWith (.inst iv2) (.inst iv1)) L2) exit = some G := by
  unfold loopFusion at h
  simp only [h1, h2] at h
  by_cases hne : iv1 = iv2
  · simp [hne] at h
  · simp only [hne, if_false, hl, he, hg, Bool.not_false, if_true] at h
    exact ⟨hne, h⟩

theorem successors_cond_br (i : InstId) (c : Value) (f t : BlockId) (ty sd : Nat) :
    (Instruction.mk i .Br [c, .block f, .block t] ty sd).successors = [t, f] := by
  cases c <;> rfl

/-- C13. In the unguarded setting, with `c` the condition of the conditional branch
that ends the header of the first loop, after `loopFusion` the header of the first
loop ends in a `br` whose condition is `c` (read through the replacement of the
second induction variable by the first, as every operand is), whose first target is
the first body block of the first loop and whose second target is the exit block of
the second loop. -/
theorem loopFusion_header_branch (LQ : LoopQueries) (F G : Function) (L1 L2 : Loop)
    (iv1 iv2 : InstId) (bodies1 bodies2 : List BlockId)
    (latch1 latch2 exit first1 last1 first2 last2 : BlockId)
    (B : BasicBlock) (T : Instruction) (c : Value)
    (hs : UnguardedSetting LQ F L1 L2 iv1 iv2 bodies1 bodies2 latch1 latch2 exit first1
      last1 first2 last2)
    (hB : F.getBlock L1.getHeader = some B) (hT : B.getTerminator = some T)
    (hc : T.getCondition = some c)
    (hres : loopFusion LQ F L1 L2 = some G) :
    ∃ B2 T2, G.getBlock L1.getHeader = some B2 ∧ B2.getTerminator = some T2 ∧
      T2.opcode = Opcode.Br ∧
      T2.operands = [Value.replaceUse (.inst iv2) (.inst iv1) c, .block exit, .block first1] ∧
      T2.getCondition = some (Value.replaceUse (.inst iv2) (.inst iv1) c) ∧
      T2.successors = [first1, exit] := by
  obtain ⟨_, hu⟩ := loopFusion_unguarded LQ F G L1 L2 iv1 iv2 latch1 exit hs.iv1_eq hs.iv2_eq
    hs.unguarded hs.latch1_eq hs.exit_eq hres
  obtain ⟨l2, Bh1, Th1, cond, Bl1, Tl1, Sl1, Bl2, Tl2, Sl2, Bh2, n1, n2, _, gBh1, tBh1, hcond,
    gG, _⟩ := loopFusionUnguarded_blocks _ G L1 L2 latch1 _ exit bodies1 bodies2 latch1 latch2
      first1 last1 first2 last2 hs.blocks1 hs.blocks2 hs.first1_eq hs.last1_eq hs.first2_eq
      hs.last2_eq hs.distinct hu
  unfold Loop.getHeader at hB ⊢
  rw [getBlock_replaceAllUsesWith, hB] at gBh1
  simp only [Option.map_some', Option.some.injEq] at gBh1
  subst gBh1
  rw [getTerminator_replaceUses, hT] at tBh1
  simp only [Option.map_some', Option.some.injEq] at tBh1
  subst tBh1
  obtain ⟨f, t, hop, hops⟩ := getCondition_operand T c hc
  have hcv : cond = Value.replaceUse (.inst iv2) (.inst iv1) c := by
    unfold Instruction.getOperand Instruction.replaceUses at hcond
    simp only [hops, List.map_cons, List.get?_cons_zero, Option.some.injEq] at hcond
    exact hcond.symm
  subst hcv
  exact ⟨_, _, gG, getTerminator_append_singleton _ _ _ rfl, rfl, rfl, rfl,
    successors_cond_br _ _ _ _ _ _⟩

theorem loopFusion_header_branch_witness :
    ∃ B2 T2, Example.scenarioAFused.getBlock Example.U1.getHeader = some B2 ∧
      B2.getTerminator = some T2 ∧ T2.opcode = Opcode.Br ∧
      T2.operands = [Value.replaceUse (.inst 11) (.inst 1) (.inst 2), .block 8, .block 2] ∧
      T2.getCondition = some (Value.replaceUse (.inst 11) (.inst 1) (.inst 2)) ∧
      T2.successors = [2, 8] :=
  loopFusion_header_branch Example.unguardedQueries Example.scenarioA Example.scenarioAFused
    Example.U1 Example.U2 1 11 [2] [6] 3 7 8 2 2 6 6
    ⟨1, [Example.mk 1 .PHI [.const 0, .inst 4], Example.mk 2 .ICmp [.inst 1, .arg 2],
      Example.mk 101 .Br [.inst 2, .block 4, .block 2]]⟩
    (Example.mk 101 .Br [.inst 2, .block 4, .block 2]) (.inst 2)
    ⟨rfl, rfl, rfl, rfl, rfl, rfl, rfl, rfl, rfl, rfl, rfl, rfl, by decide⟩
    rfl rfl rfl (by decide)

theorem singleSuccessor_br (b : BlockId) (xs : List Instruction) (i : InstId) (d : BlockId)
    (ty sd : Nat) :
    (BasicBlock.mk b (xs ++ [⟨i, .Br, [.block d], ty, sd⟩])).getSingleSuccessor = some d := by
  unfold BasicBlock.getSingleSuccessor BasicBlock.successors
  rw [getTerminator_append_singleton b xs ⟨i, .Br, [.block d], ty, sd⟩ rfl]
  rfl

/-- C19. In the unguarded setting, after `loopFusion` the last body block of the first
loop has the first body block of the second loop as successor 0, the last body block
of the second loop has the latch of the first loop as successor 0, and the header of
the second loop has the latch of the second loop as its single successor.  Every
block other than these three and the header of the first loop holds what it held
before, read through the replacement of the second induction variable by the first:
the inner body blocks and the latch of the first loop are untouched, so control runs
from the first body through the second body to the latch of the first loop. -/
theorem loopFusion_unguarded_bodies (LQ : LoopQueries) (F G : Function) (L1 L2 : Loop)
    (iv1 iv2 : InstId) (bodies1 bodies2 : List BlockId)
    (latch1 latch2 exit first1 last1 first2 last2 : BlockId)
    (hs : UnguardedSetting LQ F L1 L2 iv1 iv2 bodies1 bodies2 latch1 latch2 exit first1
      last1 first2 last2)
    (hres : loopFusion LQ F L1 L2 = some G) :
    (∃ A1 T1, G.getBlock last1 = some A1 ∧ A1.getTerminator = some T1 ∧
      T1.successors.head? = some first2) ∧
    (∃ A2 T2, G.getBlock last2 = some A2 ∧ A2.getTerminator = some T2 ∧
      T2.successors.head? = some latch1) ∧
    (∃ H2, G.getBlock L2.getHeader = some H2 ∧ H2.getSingleSuccessor = some latch2) ∧
    ∀ b, b ≠ L1.getHeader → b ≠ last1 → b ≠ last2 → b ≠ L2.getHeader →
      G.getBlock b = (F.getBlock b).map (BasicBlock.replaceUses (.inst iv2) (.inst iv1)) := by
  obtain ⟨_, hu⟩ := loopFusion_unguarded LQ F G L1 L2 iv1 iv2 latch1 exit hs.iv1_eq hs.iv2_eq
    hs.unguarded hs.latch1_eq hs.exit_eq hres
  obtain ⟨l2, Bh1, Th1, cond, Bl1, Tl1, Sl1, Bl2, Tl2, Sl2, Bh2, n1, n2, hl2, _, _, _,
    _, _, _, sBl1, gl1, _, _, sBl2, gl2, _, gh2, hrest⟩ :=
    loopFusionUnguarded_blocks _ G L1 L2 latch1 _ exit bodies1 bodies2 latch1 latch2
      first1 last1 first2 last2 hs.blocks1 hs.blocks2 hs.first1_eq hs.last1_eq hs.first2_eq
      hs.last2_eq hs.distinct hu
  have e2 : l2 = latch2 := by
    rw [hs.latch2_eq] at hl2
    exact (Option.some.inj hl2).symm
  subst e2
  refine ⟨⟨_, Sl1, gl1, getTerminator_append_singleton _ _ _ (setSuccessor_spec _ _ _ _ sBl1).2.2,
      setSuccessor_zero_head _ _ _ sBl1⟩,
    ⟨_, Sl2, gl2, getTerminator_append_singleton _ _ _ (setSuccessor_spec _ _ _ _ sBl2).2.2,
      setSuccessor_zero_head _ _ _ sBl2⟩,
    ⟨_, gh2, singleSuccessor_br _ _ _ _ _ _⟩, ?_⟩
  intro b b1 b2 b3 b4
  rw [hrest b b1 b2 b3 b4, getBlock_replaceAllUsesWith]

theorem loopFusion_unguarded_bodies_witness :
    (∃ A1 T1, Example.scenarioAFused.getBlock 2 = some A1 ∧ A1.getTerminator = some T1 ∧
      T1.successors.head? = some 6) ∧
    (∃ A2 T2, Example.scenarioAFused.getBlock 6 = some A2 ∧ A2.getTerminator = some T2 ∧
      T2.successors.head? = some 3) ∧
    (∃ H2, Example.scenarioAFused.getBlock Example.U2.getHeader = some H2 ∧
      H2.getSingleSuccessor = some 7) ∧
    ∀ b, b ≠ Example.U1.getHeader → b ≠ 2 → b ≠ 6 → b ≠ Example.U2.getHeader →
      Example.scenarioAFused.getBlock b =
        (Example.scenarioA.getBlock b).map (BasicBlock.replaceUses (.inst 11) (.inst 1)) :=
  loopFusion_unguarded_bodies Example.unguardedQueries Example.scenarioA
    Example.scenarioAFused Example.U1 Example.U2 1 11 [2] [6] 3 7 8 2 2 6 6
    ⟨rfl, rfl, rfl, rfl, rfl, rfl, rfl, rfl, rfl, rfl, rfl, rfl, by decide⟩
    (by decide)

theorem le_foldl_max (l : List Nat) (a : Nat) :
    a ≤ l.foldl max a ∧ ∀ x ∈ l, x ≤ l.foldl max a := by
  induction l generalizing a with
  | nil => simp
  | cons y ys ih =>
    simp only [List.foldl_cons, List.mem_cons, forall_eq_or_imp]
    obtain ⟨h1, h2⟩ := ih (max a y)
    exact ⟨le_trans (le_max_left _ _) h1, le_trans (le_max_right _ _) h1, h2⟩

theorem lt_freshId (F : Function) (b : BlockId) (B : BasicBlock) (I : Instruction)
    (hB : F.getBlock b = some B) (hI : I ∈ B.insts) : I.id < F.freshId := by
  have hm : (b, I) ∈ F.instructions :=
    (mem_instructions F b I).2 ⟨B, getBlock_mem F b B hB, getBlock_id F b B hB, hI⟩
  unfold Function.freshId
  have := (le_foldl_max (F.instructions.map (fun p => p.2.id)) 0).2 I.id
    (List.mem_map.2 ⟨(b, I), hm, rfl⟩)
  exact Nat.lt_succ_of_le this

theorem replaceTerminator_fresh (F G1 G2 : Function) (blk : BlockId) (ops : List Value)
    (h1 : F.createBranchBeforeTerminator blk ops = some G1)
    (h2 : G1.eraseTerminator blk = some G2) :
    ∃ B T, F.getBlock blk = some B ∧ B.getTerminator = some T ∧ T.id < F.freshId ∧
      G2 = F.updateBlock blk (B.insts.dropLast ++ [⟨F.freshId, .Br, ops, 0, 0⟩]) := by
  obtain ⟨B, T, hB, hT, hG⟩ := replaceTerminator_spec F G1 G2 blk ops h1 h2
  refine ⟨B, T, hB, hT, lt_freshId F blk B T hB ?_, hG⟩
  have := (getTerminator_some B T hT).1
  rw [this]
  simp

theorem backOperand0_terminator (F : Function) (blk : BlockId) (B : BasicBlock)
    (T : Instruction) (c : Value) (hB : F.getBlock blk = some B)
    (hT : B.getTerminator = some T) (h : F.backOperand0 blk = some c) :
    T.getOperand 0 = some c := by
  unfold Function.backOperand0 at h
  rw [hB] at h
  simp only [(getTerminator_some B T hT).2.2] at h
  exact h

theorem loopFusion_guarded (LQ : LoopQueries) (F G : Function) (L1 L2 : Loop)
    (iv1 iv2 : InstId) (latch1 exit : BlockId)
    (h1 : LQ.getCanonicalInductionVariable F L1 = some iv1)
    (h2 : LQ.getCanonicalInductionVariable F L2 = some iv2)
    (hg : LQ.isGuarded (F.replaceAllUsesWith (.inst iv2) (.inst iv1)) L1 = true)
    (hl : LQ.getLoopLatch (F.replaceAllUsesWith (.inst iv2) (.inst iv1)) L1 = some latch1)
    (he : LQ.getUniqueExitBlock (F.replaceAllUsesWith (.inst iv2) (.inst iv1)) L2 = some exit)
    (h : loopFusion LQ F L1 L2 = some G) :
    iv1 ≠ iv2 ∧
      loopFusionGuarded LQ (F.replaceAllUsesWith (.inst iv2) (.inst iv1)) L1 L2 latch1 exit =
        some G := by
  unfold loopFusion at h
  simp only [h1, h2] at h
  by_cases hne : iv1 = iv2
  · simp [hne] at h
  · simp only [hne, if_false, hl, he, hg, Bool.not_true] at h
    exact ⟨hne, h⟩

/-- The guarded splice, block by block: what `loopFusionGuarded` leaves in the guard
block and the latch of the first loop and in the block before the latch. -/
theorem loopFusionGuarded_blocks (LQ : LoopQueries) (F1 G : Function) (L1 L2 : Loop)
    (latch1 exit : BlockId) (mid1 mid2 : List BlockId)
    (guard1 preheader1 final2 last1 last2 : BlockId)
    (hg : guardParent LQ F1 L1 = some guard1)
    (hp : LQ.getLoopPreheader F1 L1 = some preheader1)
    (hL1 : L1.rest = mid1 ++ [latch1]) (hL2 : L2.rest = mid2 ++ [final2])
    (hl1 : (L1.header :: mid1).getLast? = some last1)
    (hl2 : (L2.header :: mid2).getLast? = some last2)
    (hnd : (guard1 :: (L1.getBlocks ++ L2.getBlocks)).Nodup)
    (h : loopFusionGuarded LQ F1 L1 L2 latch1 exit = some G) :
    ∃ Bg Tg gcond ng Bl Tl lcond nl Ba Ta Sa,
      F1.getBlock guard1 = some Bg ∧ Bg.getTerminator = some Tg ∧
      Tg.getOperand 0 = some gcond ∧ Tg.id < ng ∧
      G.getBlock guard1 = some ⟨guard1, Bg.insts.dropLast ++
        [⟨ng, .Br, [gcond, .block exit, .block preheader1], 0, 0⟩]⟩ ∧
      F1.getBlock latch1 = some Bl ∧ Bl.getTerminator = some Tl ∧
      Tl.getOperand 0 = some lcond ∧ Tl.id < nl ∧
      G.getBlock latch1 = some ⟨latch1, Bl.insts.dropLast ++
        [⟨nl, .Br, [lcond, .block exit, .block L1.header], 0, 0⟩]⟩ ∧
      F1.getBlock last1 = some Ba ∧ Ba.getTerminator = some Ta ∧
      Ta.setSuccessor 0 L2.header = some Sa ∧
      G.getBlock last1 = some ⟨last1, Ba.insts.dropLast ++ [Sa]⟩ := by
  have hm1 : last1 ∈ L1.header :: mid1 := List.mem_of_getLast?_eq_some hl1
  have hm2 : last2 ∈ L2.header :: mid2 := List.mem_of_getLast?_eq_some hl2
  unfold Loop.getBlocks at hnd
  rw [hL1, hL2] at hnd
  obtain ⟨hgout, hnd⟩ := List.nodup_cons.1 hnd
  rw [List.nodup_append] at hnd
  obtain ⟨hn1, hn2, hdisj⟩ := hnd
  have i1 : last1 ∈ L1.header :: (mid1 ++ [latch1]) := by
    rw [← List.cons_append]
    exact List.mem_append_left _ hm1
  have i2 : last2 ∈ L2.header :: (mid2 ++ [final2]) := by
    rw [← List.cons_append]
    exact List.mem_append_left _ hm2
  have i3 : latch1 ∈ L1.header :: (mid1 ++ [latch1]) := by simp
  have i4 : L2.header ∈ L2.header :: (mid2 ++ [final2]) := List.mem_cons_self _ _
  have d1 : latch1 ≠ guard1 := fun he => hgout (List.mem_append_left _ (he ▸ i3))
  have d2 : last1 ≠ guard1 := fun he => hgout (List.mem_append_left _ (he ▸ i1))
  have d3 : last2 ≠ guard1 := fun he => hgout (List.mem_append_right _ (he ▸ i2))
  have d4 : L2.header ≠ guard1 := fun he => hgout (List.mem_append_right _ (he ▸ i4))
  have d5 : last1 ≠ latch1 := by
    intro he
    rw [← List.cons_append, List.nodup_append] at hn1
    exact hn1.2.2 (he ▸ hm1) (List.mem_singleton_self _)
  have d6 : last2 ≠ latch1 := fun he => hdisj i3 (he ▸ i2)
  have d7 : L2.header ≠ latch1 := fun he => hdisj i3 (he ▸ i4)
  have d8 : last2 ≠ last1 := fun he => hdisj i1 (he ▸ i2)
  have d9 : L2.header ≠ last1 := fun he => hdisj i1 (he ▸ i4)
  unfold loopFusionGuarded at h
  simp only [bind, Option.bind_eq_some, Loop.getHeader] at h
  obtain ⟨g1, eg, p1, ep, gcond, hgc, F2, hF2, F3, hF3, lcond, hlc, F4, hF4, F5, hF5,
    l1Last, e1, F6, hF6, l2Last, e2, F7, hF7, hG⟩ := h
  have c0 : g1 = guard1 := by
    rw [hg] at eg
    exact (Option.some.inj eg).symm
  have c00 : p1 = preheader1 := by
    rw [hp] at ep
    exact (Option.some.inj ep).symm
  have c1 : l1Last = last1 := by
    have : L1.getBlocks.dropLast = L1.header :: mid1 := by
      unfold Loop.getBlocks
      rw [hL1, ← List.cons_append, List.dropLast_concat]
    rw [this, hl1] at e1
    exact (Option.some.inj e1).symm
  have c2 : l2Last = last2 := by
    have : L2.getBlocks.dropLast = L2.header :: mid2 := by
      unfold Loop.getBlocks
      rw [hL2, ← List.cons_append, List.dropLast_concat]
    rw [this, hl2] at e2
    exact (Option.some.inj e2).symm
  subst c0 c00 c1 c2
  obtain ⟨Bg, Tg, gBg, tBg, fg, rfl⟩ := replaceTerminator_fresh _ _ _ _ _ hF2 hF3
  have hgc2 := backOperand0_terminator _ _ _ _ _ gBg tBg hgc
  obtain ⟨Bl, Tl, rBl, tBl, fl, rfl⟩ := replaceTerminator_fresh _ _ _ _ _ hF4 hF5
  have hlc2 := backOperand0_terminator _ _ _ _ _ rBl tBl hlc
  obtain ⟨Ba, Ta, Sa, rBa, tBa, sBa, rfl⟩ := setTerminatorSuccessor_spec _ _ _ _ _ hF6
  obtain ⟨Bb, Tb, Sb, rBb, tBb, sBb, rfl⟩ := setTerminatorSuccessor_spec _ _ _ _ _ hF7
  obtain ⟨Bh, Ih, rBh, hIh, hu, rfl⟩ := eraseFront_spec _ _ _ hG
  have gBl := rBl
  rw [getBlock_updateBlock_other _ _ _ _ d1] at gBl
  have gBa := rBa
  rw [getBlock_updateBlock_other _ _ _ _ d5, getBlock_updateBlock_other _ _ _ _ d2] at gBa
  refine ⟨Bg, Tg, gcond, _, Bl, Tl, lcond, _, Ba, Ta, Sa, gBg, tBg, hgc2, fg, ?g1, gBl, tBl,
    hlc2, fl, ?g2, gBa, tBa, sBa, ?g3⟩
  case g1 =>
    rw [getBlock_updateBlock_other _ _ _ _ d4.symm, getBlock_updateBlock_other _ _ _ _ d3.symm,
      getBlock_updateBlock_other _ _ _ _ d2.symm, getBlock_updateBlock_other _ _ _ _ d1.symm]
    exact getBlock_updateBlock_same _ _ _ _ gBg
  case g2 =>
    rw [getBlock_updateBlock_other _ _ _ _ d7.symm, getBlock_updateBlock_other _ _ _ _ d6.symm,
      getBlock_updateBlock_other _ _ _ _ d5.symm]
    exact getBlock_updateBlock_same _ _ _ _ rBl
  case g3 =>
    rw [getBlock_updateBlock_other _ _ _ _ d9.symm, getBlock_updateBlock_other _ _ _ _ d8.symm]
    exact getBlock_updateBlock_same _ _ _ _ rBa

theorem adjLoopsPair_no_exit (LQ : LoopQueries) (F : Function) (acc : List (Loop × Loop))
    (L1 L2 : Loop) (h : LQ.getExitBlock F L1 = none) : adjLoopsPair LQ F acc L1 L2 = acc := by
  unfold adjLoopsPair
  simp only [h]
  split_ifs <;> rfl

theorem successors_of_terminator (b : BlockId) (xs : List Instruction) (T : Instruction)
    (hT : T.opcode.isTerminator = true) :
    (BasicBlock.mk b (xs ++ [T])).successors = T.successors := by
  unfold BasicBlock.successors
  rw [getTerminator_append_singleton b xs T hT]

theorem successors_cond_br_block (b : BlockId) (xs : List Instruction) (i : InstId)
    (c : Value) (f t : BlockId) (ty sd : Nat) :
    (BasicBlock.mk b (xs ++ [⟨i, .Br, [c, .block f, .block t], ty, sd⟩])).successors =
      [t, f] := by
  rw [successors_of_terminator b xs ⟨i, .Br, [c, .block f, .block t], ty, sd⟩ rfl,
    successors_cond_br]

/-- C18. Let `loopFusion` succeed on a pair of loops, reported by `adjLoops` or not, in
the unguarded or in the guarded setting, the exit block of the second loop lying
outside both loops.  Asked about the transformed function, `getExitBlock` answers with
a block only when every edge that leaves the loop goes to that block (its contract in
LLVM); the first loop now has edges to two different blocks outside it, so whatever
list of loops `adjLoops` is run on again, it does not report the pair. -/
theorem adjLoops_after_fusion (LQ : LoopQueries) (F G : Function) (L1 L2 : Loop)
    (LI : List Loop) (iv1 iv2 : InstId) (bodies1 bodies2 mid1 mid2 : List BlockId)
    (latch1 latch2 exit first1 last1 first2 last2 guard1 preheader1 final2 : BlockId)
    (hs : UnguardedSetting LQ F L1 L2 iv1 iv2 bodies1 bodies2 latch1 latch2 exit first1
        last1 first2 last2 ∨
      GuardedSetting LQ F L1 L2 iv1 iv2 mid1 mid2 guard1 preheader1 latch1 final2 exit
        last1 last2)
    (hexit : exit ∉ L1.getBlocks ++ L2.getBlocks)
    (hres : loopFusion LQ F L1 L2 = some G)
    (hquery : ∀ e, LQ.getExitBlock G L1 = some e →
      ∀ b ∈ L1.getBlocks, ∀ B, G.getBlock b = some B →
        ∀ s ∈ B.successors, s ∉ L1.getBlocks → s = e) :
    (L1, L2) ∉ adjLoops LQ G [] LI := by
  have hnone : LQ.getExitBlock G L1 = none := by
    cases he : LQ.getExitBlock G L1 with
    | none => rfl
    | some e =>
      exfalso
      have hq := hquery e he
      have hx1 : exit ∉ L1.getBlocks := fun h => hexit (List.mem_append_left _ h)
      have hx2 : exit ∉ L2.getBlocks := fun h => hexit (List.mem_append_right _ h)
      rcases hs with hs | hs
      · obtain ⟨_, hu⟩ := loopFusion_unguarded LQ F G L1 L2 iv1 iv2 latch1 exit hs.iv1_eq
          hs.iv2_eq hs.unguarded hs.latch1_eq hs.exit_eq hres
        obtain ⟨l2, Bh1, Th1, cond, Bl1, Tl1, Sl1, Bl2, Tl2, Sl2, Bh2, n1, n2, _, _, _, _,
          gG, _, _, sBl1, gl1, _⟩ :=
          loopFusionUnguarded_blocks _ G L1 L2 latch1 _ exit bodies1 bodies2 latch1 latch2
            first1 last1 first2 last2 hs.blocks1 hs.blocks2 hs.first1_eq hs.last1_eq
            hs.first2_eq hs.last2_eq hs.distinct hu
        have hd := hs.distinct
        rw [List.nodup_append] at hd
        have m1 : last1 ∈ L1.getBlocks := by
          unfold Loop.getBlocks
          rw [hs.blocks1]
          exact List.mem_cons_of_mem _
            (List.mem_append_left _ (List.mem_of_getLast?_eq_some hs.last1_eq))
        have m2 : first2 ∈ L2.getBlocks := by
          unfold Loop.getBlocks
          rw [hs.blocks2]
          exact List.mem_cons_of_mem _
            (List.mem_append_left _ (List.mem_of_mem_head? hs.first2_eq))
        have e1 : exit = e := by
          refine hq L1.header (List.mem_cons_self _ _) _ gG exit ?_ hx1
          rw [successors_cond_br_block]
          simp
        have e2 : first2 = e := by
          refine hq last1 m1 _ gl1 first2 ?_ (fun h => hd.2.2 h m2)
          rw [successors_of_terminator _ _ _ (setSuccessor_spec _ _ _ _ sBl1).2.2]
          exact List.mem_of_mem_head? (setSuccessor_zero_head _ _ _ sBl1)
        exact hx2 (e1 ▸ e2 ▸ m2)
      · obtain ⟨_, hu⟩ := loopFusion_guarded LQ F G L1 L2 iv1 iv2 latch1 exit hs.iv1_eq
          hs.iv2_eq hs.guarded hs.latch1_eq hs.exit_eq hres
        obtain ⟨Bg1, Tg1, gcond, ng, Bl1, Tl1, lcond, nl, Ba, Ta, Sa, _, _, _, _, _, _, _,
          _, _, gL, _, _, sBa, gA⟩ := loopFusionGuarded_blocks LQ _ G L1 L2 latch1 exit mid1
            mid2 guard1 preheader1 final2 last1 last2 hs.guard_eq hs.preheader_eq hs.blocks1
            hs.blocks2 hs.last1_eq hs.last2_eq hs.distinct hu
        have hd := (List.nodup_cons.1 hs.distinct).2
        rw [List.nodup_append] at hd
        have m0 : latch1 ∈ L1.getBlocks := by
          unfold Loop.getBlocks
          rw [hs.blocks1]
          simp
        have m1 : last1 ∈ L1.getBlocks := by
          unfold Loop.getBlocks
          rw [hs.blocks1, ← List.cons_append]
          exact List.mem_append_left _ (List.mem_of_getLast?_eq_some hs.last1_eq)
        have m2 : L2.header ∈ L2.getBlocks := List.mem_cons_self _ _
        have e1 : exit = e := by
          refine hq latch1 m0 _ gL exit ?_ hx1
          rw [successors_cond_br_block]
          simp
        have e2 : L2.header = e := by
          refine hq last1 m1 _ gA L2.header ?_ (fun h => hd.2.2 h m2)
          rw [successors_of_terminator _ _ _ (setSuccessor_spec _ _ _ _ sBa).2.2]
          exact List.mem_of_mem_head? (setSuccessor_zero_head _ _ _ sBa)
        exact hx2 (e1 ▸ e2 ▸ m2)
  rw [adjLoops_mem, adjLoopsPair_no_exit LQ G [] L1 L2 hnone]
  simp

theorem adjLoops_after_fusion_witness :
    (Example.U1, Example.U2) ∈
        adjLoops Example.unguardedAnalysis Example.scenarioA [] [Example.U1, Example.U2] ∧
      (Example.U1, Example.U2) ∉
        adjLoops Example.unguardedAnalysis Example.scenarioAFused []
          [Example.U1, Example.U2] :=
  ⟨by decide,
    adjLoops_after_fusion Example.unguardedAnalysis Example.scenarioA Example.scenarioAFused
      Example.U1 Example.U2 [Example.U1, Example.U2] 1 11 [2] [6] [] [] 3 7 8 2 2 6 6 0 0 0
      (Or.inl ⟨rfl, rfl, rfl, rfl, rfl, rfl, rfl, rfl, rfl, rfl, rfl, rfl, by decide⟩)
      (by decide) (by decide)
      (fun e he => by
        have hn : Example.unguardedAnalysis.getExitBlock Example.scenarioAFused Example.U1 =
            none := by decide
        rw [hn] at he
        cases he)⟩

/-- C20 (failing inputs). `loopFusion` erases the first instruction of the header of
the second loop, whatever it is.  With the unused phi `%40` ahead of the induction phi
`%11` (`Example.scenarioLeadingPhi`) the header of the second loop afterwards has lost
`%40` and still holds `%11`.  With the phi `%40` of a running sum ahead of `%11`
(`Example.scenarioSum`) the instruction to erase still has the use `%41`, and
`loopFusion` has no result. -/
theorem loopFusion_erases_leading_phi :
    (loopFusion Example.guardedQueries Example.scenarioLeadingPhi Example.G1 Example.G2).bind
        (fun G => G.getBlock Example.G2.getHeader) =
      some ⟨6, [Example.mk 11 .PHI [.const 0, .inst 14],
        Example.mk 13 .GetElementPtr [.arg 0, .inst 1], Example.mk 15 .Load [.inst 13],
        Example.mk 16 .GetElementPtr [.arg 1, .inst 1],
        Example.mk 17 .Store [.inst 15, .inst 16], Example.mk 117 .Br [.block 3]]⟩ ∧
    Example.guardedQueries.getCanonicalInductionVariable Example.scenarioLeadingPhi
        Example.G2 = some 11 ∧
    Example.scenarioSum.hasUses 40 = true ∧
    loopFusion Example.guardedQueries Example.scenarioSum Example.G1 Example.G2 = none := by
  decide

theorem operandAfter_replaceUse (old new v : Value) (hold : old.isBlock = false) :
    operandAfter old new v (Value.replaceUse old new v) := by
  unfold operandAfter
  by_cases hv : v.isBlock = true
  · have hne : v ≠ old := by
      intro he
      rw [he, hold] at hv
      cases hv
    simp [hv, Value.replaceUse, hne]
  · simp [hv]

theorem forall₂_operandAfter_map (old new : Value) (hold : old.isBlock = false)
    (l : List Value) :
    List.Forall₂ (operandAfter old new) l (l.map (Value.replaceUse old new)) := by
  induction l with
  | nil => exact List.Forall₂.nil
  | cons v vs ih => exact List.Forall₂.cons (operandAfter_replaceUse old new v hold) ih

theorem spliceInv_base (F : Function) (old new : Value) (hold : old.isBlock = false) :
    SpliceInv F old new (F.replaceAllUsesWith old new) := by
  refine ⟨?_, ?_, fun _ => rfl⟩
  · intro b B2 J hB2 hJ
    rw [getBlock_replaceAllUsesWith] at hB2
    cases hB : F.getBlock b with
    | none => simp [hB] at hB2
    | some B =>
      simp only [hB, Option.map_some', Option.some.injEq] at hB2
      subst hB2
      unfold BasicBlock.replaceUses at hJ
      simp only [List.mem_map] at hJ
      obtain ⟨I, hI, rfl⟩ := hJ
      exact Or.inl ⟨B, I, hB, hI, rfl, rfl, forall₂_operandAfter_map old new hold _⟩
  · intro b B I hB hI
    refine ⟨b, B.replaceUses old new, I.replaceUses old new, ?_, ?_, le_refl _⟩
    · rw [getBlock_replaceAllUsesWith, hB]
      rfl
    · unfold BasicBlock.replaceUses
      exact List.mem_map.2 ⟨I, hI, rfl⟩

theorem spliceInv_update (F F2 : Function) (old new : Value) (blk : BlockId)
    (B : BasicBlock) (T X : Instruction) (hinv : SpliceInv F old new F2)
    (hB : F2.getBlock blk = some B) (hT : B.getTerminator = some T)
    (hX : fusedFrom F old new blk X) (hid : T.id ≤ X.id) :
    SpliceInv F old new (F2.updateBlock blk (B.insts.dropLast ++ [X])) := by
  have hsame := getBlock_updateBlock_same F2 blk (B.insts.dropLast ++ [X]) B hB
  refine ⟨?_, ?_, ?_⟩
  · intro b B2 J hB2 hJ
    by_cases hb : b = blk
    · subst hb
      rw [hsame] at hB2
      simp only [Option.some.injEq] at hB2
      subst hB2
      rw [List.mem_append] at hJ
      rcases hJ with hJ | hJ
      · exact hinv.insts b B J hB (List.mem_of_mem_dropLast hJ)
      · rw [List.mem_singleton] at hJ
        subst hJ
        exact hX
    · rw [getBlock_updateBlock_other _ _ _ _ hb] at hB2
      exact hinv.insts b B2 J hB2 hJ
  · intro b B0 I hB0 hI
    obtain ⟨b2, B2, J, hB2, hJ, hle⟩ := hinv.ids b B0 I hB0 hI
    by_cases hb : b2 = blk
    · subst hb
      rw [hB] at hB2
      simp only [Option.some.injEq] at hB2
      subst hB2
      rw [(getTerminator_some B T hT).1, List.mem_append] at hJ
      rcases hJ with hJ | hJ
      · exact ⟨b2, _, J, hsame, List.mem_append_left _ hJ, hle⟩
      · rw [List.mem_singleton] at hJ
        subst hJ
        exact ⟨b2, _, X, hsame, List.mem_append_right _ (List.mem_singleton_self _),
          le_trans hle hid⟩
    · exact ⟨b2, B2, J, by rw [getBlock_updateBlock_other _ _ _ _ hb]; exact hB2, hJ, hle⟩
  · intro b
    by_cases hb : b = blk
    · subst hb
      rw [hsame, ← hinv.frame b, hB]
      simp [List.dropLast_concat]
    · rw [getBlock_updateBlock_other _ _ _ _ hb]
      exact hinv.frame b

theorem forall₂_set_label (l : List Value) (k : Nat) (x : BlockId) (d : BlockId)
    (h : l.get? k = some (.block x)) :
    List.Forall₂ (fun v w => w = v ∨ (v.isBlock = true ∧ w.isBlock = true)) l
      (l.set k (.block d)) := by
  induction l generalizing k with
  | nil => simp at h
  | cons v vs ih =>
    cases k with
    | zero =>
      simp only [List.get?_cons_zero, Option.some.injEq] at h
      subst h
      exact List.Forall₂.cons (Or.inr ⟨rfl, rfl⟩)
        (List.forall₂_same.2 (fun _ _ => Or.inl rfl))
    | succ k =>
      simp only [List.get?_cons_succ] at h
      exact List.Forall₂.cons (Or.inl rfl) (ih k h)

theorem setSuccessor_operands (T T2 : Instruction) (idx : Nat) (d : BlockId)
    (h : T.setSuccessor idx d = some T2) :
    List.Forall₂ (fun v w => w = v ∨ (v.isBlock = true ∧ w.isBlock = true)) T.operands
      T2.operands := by
  unfold Instruction.setSuccessor at h
  split at h
  · split at h
    · next hops =>
      split_ifs at h
      simp only [Option.some.injEq] at h
      subst h
      rw [hops]
      exact List.Forall₂.cons (Or.inr ⟨rfl, rfl⟩) List.Forall₂.nil
    · next hops =>
      rw [hops]
      split_ifs at h <;> simp only [Option.some.injEq] at h <;> subst h
      · exact List.Forall₂.cons (Or.inl rfl) (List.Forall₂.cons (Or.inl rfl)
          (List.Forall₂.cons (Or.inr ⟨rfl, rfl⟩) List.Forall₂.nil))
      · exact List.Forall₂.cons (Or.inl rfl) (List.Forall₂.cons (Or.inr ⟨rfl, rfl⟩)
          (List.Forall₂.cons (Or.inl rfl) List.Forall₂.nil))
    · cases h
  · split at h
    · next x hget =>
      simp only [Option.some.injEq] at h
      subst h
      exact forall₂_set_label _ _ x d hget
    · cases h
  · cases h

theorem forall₂_chain {α : Type} (R S Q : α → α → Prop) (xs ys zs : List α)
    (h1 : List.Forall₂ R xs ys) (h2 : List.Forall₂ S ys zs)
    (h : ∀ a b c, R a b → S b c → Q a c) : List.Forall₂ Q xs zs := by
  induction h1 generalizing zs with
  | nil =>
    cases h2
    exact List.Forall₂.nil
  | cons hab _ ih =>
    cases h2 with
    | cons hbc hrest => exact List.Forall₂.cons (h _ _ _ hab hbc) (ih _ hrest)

theorem replaceUse_not_label (old new v : Value) (hnew : new.isBlock = false)
    (hv : ¬ v.isBlock = true) : ¬ (Value.replaceUse old new v).isBlock = true := by
  unfold Value.replaceUse
  split_ifs
  · simp [hnew]
  · exact hv

theorem operandAfter_step (old new v w w2 : Value) (hnew : new.isBlock = false)
    (h1 : operandAfter old new v w)
    (h2 : w2 = w ∨ (w.isBlock = true ∧ w2.isBlock = true)) : operandAfter old new v w2 := by
  rcases h2 with rfl | ⟨hw, hw2⟩
  · exact h1
  · unfold operandAfter at h1 ⊢
    by_cases hv : v.isBlock = true
    · simp only [hv, if_true]
      exact hw2
    · simp only [hv, if_false] at h1
      subst h1
      exact absurd hw (replaceUse_not_label old new v hnew hv)

theorem fusedFrom_setSuccessor (F : Function) (old new : Value) (blk : BlockId)
    (T T2 : Instruction) (idx : Nat) (d : BlockId) (hnew : new.isBlock = false)
    (hT : fusedFrom F old new blk T) (h : T.setSuccessor idx d = some T2) :
    fusedFrom F old new blk T2 := by
  obtain ⟨hid, hop, _⟩ := setSuccessor_spec T T2 idx d h
  have hops := setSuccessor_operands T T2 idx d h
  rcases hT with ⟨B, I, hB, hI, e1, e2, hf⟩ | ⟨hbr, hfresh, hw⟩
  · exact Or.inl ⟨B, I, hB, hI, hid.trans e1, hop.trans e2,
      forall₂_chain _ _ _ _ _ _ hf hops
        (fun a b c hab hbc => operandAfter_step old new a b c hnew hab hbc)⟩
  · refine Or.inr ⟨hop.trans hbr, ?_, ?_⟩
    · intro b0 B0 I hB0 hI
      rw [hid]
      exact hfresh b0 B0 I hB0 hI
    · intro w hwm
      have : ∀ (xs ys : List Value),
          List.Forall₂ (fun v w => w = v ∨ (v.isBlock = true ∧ w.isBlock = true)) xs ys →
          w ∈ ys → w.isBlock = true ∨ w ∈ xs := by
        intro xs ys hxy
        induction hxy with
        | nil => intro hm; cases hm
        | cons hab _ ih =>
          intro hm
          rw [List.mem_cons] at hm
          rcases hm with rfl | hm
          · rcases hab with rfl | ⟨_, hb⟩
            · exact Or.inr (List.mem_cons_self _ _)
            · exact Or.inl hb
          · rcases ih hm with h1 | h1
            · exact Or.inl h1
            · exact Or.inr (List.mem_cons_of_mem _ h1)
      rcases this _ _ hops hwm with h1 | h1
      · exact Or.inl h1
      · exact hw w h1

theorem spliceInv_setTerminatorSuccessor (F F2 F3 : Function) (old new : Value)
    (blk : BlockId) (idx : Nat) (d : BlockId) (hnew : new.isBlock = false)
    (hinv : SpliceInv F old new F2) (h : F2.setTerminatorSuccessor blk idx d = some F3) :
    SpliceInv F old new F3 := by
  obtain ⟨B, T, T2, hB, hT, hS, rfl⟩ := setTerminatorSuccessor_spec F2 F3 blk idx d h
  have hTm : T ∈ B.insts := by
    rw [(getTerminator_some B T hT).1]
    simp
  exact spliceInv_update F F2 old new blk B T T2 hinv hB hT
    (fusedFrom_setSuccessor F old new blk T T2 idx d hnew (hinv.insts blk B T hB hTm) hS)
    (le_of_eq (setSuccessor_spec T T2 idx d hS).1.symm)

theorem forall₂_mem_right {α : Type} (R : α → α → Prop) (xs ys : List α) (w : α)
    (h : List.Forall₂ R xs ys) (hw : w ∈ ys) : ∃ v ∈ xs, R v w := by
  induction h with
  | nil => cases hw
  | cons hab _ ih =>
    rw [List.mem_cons] at hw
    rcases hw with rfl | hw
    · exact ⟨_, List.mem_cons_self _ _, hab⟩
    · obtain ⟨v, hv, hR⟩ := ih hw
      exact ⟨v, List.mem_cons_of_mem _ hv, hR⟩

theorem forall₂_head {α : Type} (R : α → α → Prop) (xs ys : List α) (c : α)
    (h : List.Forall₂ R xs ys) (hc : ys.get? 0 = some c) : ∃ v ∈ xs, R v c := by
  cases h with
  | nil => simp at hc
  | cons hab _ =>
    simp only [List.get?_cons_zero, Option.some.injEq] at hc
    subst hc
    exact ⟨_, List.mem_cons_self _ _, hab⟩

theorem fusedFrom_operand0 (F : Function) (old new : Value) (blk : BlockId)
    (T : Instruction) (c : Value) (hT : fusedFrom F old new blk T)
    (hc : T.getOperand 0 = some c) :
    c.isBlock = true ∨ ∃ b0 B0 I v, F.getBlock b0 = some B0 ∧ I ∈ B0.insts ∧
      v ∈ I.operands ∧ c = Value.replaceUse old new v := by
  unfold Instruction.getOperand at hc
  rcases hT with ⟨B, I, hB, hI, _, _, hf⟩ | ⟨_, _, hw⟩
  · obtain ⟨v, hv, hR⟩ := forall₂_head _ _ _ c hf hc
    unfold operandAfter at hR
    by_cases hvb : v.isBlock = true
    · simp only [hvb, if_true] at hR
      exact Or.inl hR
    · simp only [hvb, if_false] at hR
      exact Or.inr ⟨blk, B, I, v, hB, hI, hv, hR⟩
  · exact hw c (List.get?_mem hc)

theorem spliceInv_replaceTerminator (F F2 Fa F3 : Function) (old new : Value)
    (blk : BlockId) (ops : List Value) (hinv : SpliceInv F old new F2)
    (hops : ∀ w ∈ ops, w.isBlock = true ∨ F2.backOperand0 blk = some w)
    (h1 : F2.createBranchBeforeTerminator blk ops = some Fa)
    (h2 : Fa.eraseTerminator blk = some F3) : SpliceInv F old new F3 := by
  obtain ⟨B, T, hB, hT, hlt, rfl⟩ := replaceTerminator_fresh F2 Fa F3 blk ops h1 h2
  have hTm : T ∈ B.insts := by
    rw [(getTerminator_some B T hT).1]
    simp
  refine spliceInv_update F F2 old new blk B T _ hinv hB hT (Or.inr ⟨rfl, ?_, ?_⟩)
    (le_of_lt hlt)
  · intro b0 B0 I hB0 hI he
    obtain ⟨b2, B2, J, hB2, hJ, hle⟩ := hinv.ids b0 B0 I hB0 hI
    have hJlt := lt_freshId F2 b2 B2 J hB2 hJ
    have he2 : I.id = F2.freshId := he
    rw [he2] at hle
    exact Nat.lt_irrefl _ (Nat.lt_of_le_of_lt hle hJlt)
  · intro w hw
    rcases hops w hw with h | h
    · exact Or.inl h
    · exact fusedFrom_operand0 F old new blk T w (hinv.insts blk B T hB hTm)
        (backOperand0_terminator F2 blk B T w hB hT h)

theorem fusedFrom_no_use (F : Function) (iv1 iv2 : InstId) (b : BlockId) (J : Instruction)
    (hne : iv1 ≠ iv2) (h : fusedFrom F (.inst iv2) (.inst iv1) b J) :
    Value.inst iv2 ∉ J.operands := by
  have key : ∀ v, Value.replaceUse (.inst iv2) (.inst iv1) v ≠ .inst iv2 := by
    intro v
    unfold Value.replaceUse
    split_ifs with hv
    · intro he
      exact hne (Value.inst.inj he)
    · exact hv
  rcases h with ⟨B, I, _, _, _, _, hf⟩ | ⟨_, _, hw⟩
  · intro hm
    obtain ⟨v, _, hR⟩ := forall₂_mem_right _ _ _ _ hf hm
    unfold operandAfter at hR
    by_cases hvb : v.isBlock = true
    · simp only [hvb, if_true] at hR
      cases hR
    · simp only [hvb, if_false] at hR
      exact key v hR.symm
  · intro hm
    rcases hw _ hm with h1 | ⟨_, _, _, v, _, _, _, h1⟩
    · cases h1
    · exact key v h1.symm

/-- C12. After `loopFusion` on loops with canonical induction variables `iv1` and `iv2`,
no operand of any instruction refers to `iv2`.  Every instruction of the function is
`fusedFrom` the function before: an instruction of before in the same block whose
operands other than labels are those of before with `iv2` replaced by `iv1` (an
operand that referred to `iv2` refers to `iv1`, any other is unchanged; labels are the
successor slots the splice rewires), or a `br` made by the splice out of labels and
such operands.  Every block other than the header of the second loop of a guarded
pair holds, its last instruction apart, the instructions of before with `iv2`
replaced by `iv1`. -/
theorem loopFusion_induction_uses (LQ : LoopQueries) (F G : Function) (L1 L2 : Loop)
    (iv1 iv2 : InstId)
    (h1 : LQ.getCanonicalInductionVariable F L1 = some iv1)
    (h2 : LQ.getCanonicalInductionVariable F L2 = some iv2)
    (hres : loopFusion LQ F L1 L2 = some G) :
    (∀ b B2 J, G.getBlock b = some B2 → J ∈ B2.insts →
      Value.inst iv2 ∉ J.operands ∧ fusedFrom F (.inst iv2) (.inst iv1) b J) ∧
    ∀ b, (LQ.isGuarded (F.replaceAllUsesWith (.inst iv2) (.inst iv1)) L1 = false ∨
        b ≠ L2.getHeader) →
      (G.getBlock b).map (fun B => B.insts.dropLast) =
        (F.getBlock b).map (fun B =>
          B.insts.dropLast.map (Instruction.replaceUses (.inst iv2) (.inst iv1))) := by
  have hbase := spliceInv_base F (.inst iv2) (.inst iv1) rfl
  have hframe : ∀ b,
      ((F.replaceAllUsesWith (.inst iv2) (.inst iv1)).getBlock b).map
          (fun B => B.insts.dropLast) =
        (F.getBlock b).map (fun B =>
          B.insts.dropLast.map (Instruction.replaceUses (.inst iv2) (.inst iv1))) := by
    intro b
    rw [getBlock_replaceAllUsesWith]
    cases F.getBlock b with
    | none => rfl
    | some B => simp [BasicBlock.replaceUses, List.map_dropLast]
  unfold loopFusion at hres
  simp only [h1, h2] at hres
  by_cases hne : iv1 = iv2
  · simp [hne] at hres
  simp only [hne, if_false] at hres
  cases hl : LQ.getLoopLatch (F.replaceAllUsesWith (.inst iv2) (.inst iv1)) L1 with
  | none => simp [hl] at hres
  | some latch1 =>
    cases he : LQ.getUniqueExitBlock (F.replaceAllUsesWith (.inst iv2) (.inst iv1)) L2 with
    | none => simp [hl, he] at hres
    | some exit =>
      simp only [hl, he] at hres
      cases hg : LQ.isGuarded (F.replaceAllUsesWith (.inst iv2) (.inst iv1)) L1 with
      | false =>
        simp only [hg, Bool.not_false, if_true] at hres
        unfold loopFusionUnguarded at hres
        simp only [bind, Option.bind_eq_some] at hres
        obtain ⟨lastL1BB, _, l2First, _, F2, hF2, l2Last, _, F3, hF3, l2, _, F4, hF4, F5, hF5,
          l1First, _, cond, hcond, F6, hF6, hG⟩ := hres
        have i2 := spliceInv_setTerminatorSuccessor F _ F2 (.inst iv2) (.inst iv1) _ _ _ rfl hbase hF2
        have i3 := spliceInv_setTerminatorSuccessor F _ F3 (.inst iv2) (.inst iv1) _ _ _ rfl i2 hF3
        have i5 := spliceInv_replaceTerminator F F3 F4 F5 (.inst iv2) (.inst iv1) _ [.block l2] i3
          (by intro w hw; rw [List.mem_singleton] at hw; subst hw; exact Or.inl rfl) hF4 hF5
        have i7 := spliceInv_replaceTerminator F F5 F6 G (.inst iv2) (.inst iv1) _
          [cond, .block exit, .block l1First] i5
          (by
            intro w hw
            simp only [List.mem_cons, List.mem_singleton, List.not_mem_nil, or_false] at hw
            rcases hw with rfl | rfl | rfl
            · exact Or.inr hcond
            · exact Or.inl rfl
            · exact Or.inl rfl) hF6 hG
        refine ⟨fun b B2 J hB2 hJ => ⟨fusedFrom_no_use F iv1 iv2 b J hne (i7.insts b B2 J hB2 hJ),
          i7.insts b B2 J hB2 hJ⟩, fun b _ => ?_⟩
        rw [i7.frame b, hframe b]
      | true =>
        simp only [hg, Bool.not_true, Bool.false_eq_true, if_false] at hres
        unfold loopFusionGuarded at hres
        simp only [bind, Option.bind_eq_some] at hres
        obtain ⟨g1, _, p1, _, gcond, hgc, F2, hF2, F3, hF3, lcond, hlc, F4, hF4, F5, hF5,
          l1Last, _, F6, hF6, l2Last, _, F7, hF7, hG⟩ := hres
        have i3 := spliceInv_replaceTerminator F _ F2 F3 (.inst iv2) (.inst iv1) _
          [gcond, .block exit, .block p1] hbase
          (by
            intro w hw
            simp only [List.mem_cons, List.mem_singleton, List.not_mem_nil, or_false] at hw
            rcases hw with rfl | rfl | rfl
            · exact Or.inr hgc
            · exact Or.inl rfl
            · exact Or.inl rfl) hF2 hF3
        have i5 := spliceInv_replaceTerminator F F3 F4 F5 (.inst iv2) (.inst iv1) _
          [lcond, .block exit, .block L1.getHeader] i3
          (by
            intro w hw
            simp only [List.mem_cons, List.mem_singleton, List.not_mem_nil, or_false] at hw
            rcases hw with rfl | rfl | rfl
            · exact Or.inr hlc
            · exact Or.inl rfl
            · exact Or.inl rfl) hF4 hF5
        have i6 := spliceInv_setTerminatorSuccessor F _ F6 (.inst iv2) (.inst iv1) _ _ _ rfl i5 hF6
        have i7 := spliceInv_setTerminatorSuccessor F _ F7 (.inst iv2) (.inst iv1) _ _ _ rfl i6 hF7
        obtain ⟨Bh, Ih, hBh, _, _, rfl⟩ := eraseFront_spec _ _ _ hG
        refine ⟨?_, ?_⟩
        · intro b B2 J hB2 hJ
          have hJ2 : fusedFrom F (.inst iv2) (.inst iv1) b J := by
            by_cases hb : b = L2.getHeader
            · subst hb
              rw [getBlock_updateBlock_same _ _ _ _ hBh] at hB2
              simp only [Option.some.injEq] at hB2
              subst hB2
              exact i7.insts _ Bh J hBh (List.mem_of_mem_tail hJ)
            · rw [getBlock_updateBlock_other _ _ _ _ hb] at hB2
              exact i7.insts b B2 J hB2 hJ
          exact ⟨fusedFrom_no_use F iv1 iv2 b J hne hJ2, hJ2⟩
        · intro b hb
          rcases hb with hb | hb
          · cases hb
          · rw [getBlock_updateBlock_other _ _ _ _ hb, i7.frame b, hframe b]

theorem loopFusion_induction_uses_witness :
    (∀ b B2 J, Example.scenarioAFused.getBlock b = some B2 → J ∈ B2.insts →
      Value.inst 11 ∉ J.operands ∧ fusedFrom Example.scenarioA (.inst 11) (.inst 1) b J) ∧
    ∀ b, (Example.unguardedQueries.isGuarded
          (Example.scenarioA.replaceAllUsesWith (.inst 11) (.inst 1)) Example.U1 = false ∨
        b ≠ Example.U2.getHeader) →
      (Example.scenarioAFused.getBlock b).map (fun B => B.insts.dropLast) =
        (Example.scenarioA.getBlock b).map (fun B =>
          B.insts.dropLast.map (Instruction.replaceUses (.inst 11) (.inst 1))) :=
  loopFusion_induction_uses Example.unguardedQueries Example.scenarioA Example.scenarioAFused
    Example.U1 Example.U2 1 11 rfl rfl (by decide)

/-- C15 (failing input). On `return x / 8;` the pass puts `%3 = lshr i32 %x, 3` after
the division and returns `%3`; for `x = -8` the function returned `-1` before and
returns `536870911` after. -/
theorem runOnBasicBlockAdv_sdiv_negative :
    LocalOpts.runOnBasicBlockAdv Example.divideBy8 0 =
      some ⟨[⟨0, [Example.bin 1 .SDiv (.arg 0) (.const 8),
        Example.bin 3 .LShr (.arg 0) (.const 3), Example.mk 2 .Ret [.inst 3]]⟩]⟩ ∧
    LocalOpts.returned 32 (fun _ => 4294967288) Example.divideBy8 = some 4294967295 ∧
    (LocalOpts.runOnBasicBlockAdv Example.divideBy8 0).bind
      (LocalOpts.returned 32 (fun _ => 4294967288)) = some 536870911 := by
  decide

/-- C16 (failing input). On `return x * 0;` the constant is not 1 and is not a power of
two, but the constant plus one is: the pass puts `%3 = shl i32 %x, 4294967295` and
`%4 = sub i32 %3, %x` after the multiplication and returns `%4`; for `x = 1` the
function returned `0` before, and the shift by more than the width has no value
after. -/
theorem runOnBasicBlockAdv_mul_zero :
    LocalOpts.runOnBasicBlockAdv Example.timesZero 0 =
      some ⟨[⟨0, [Example.bin 1 .Mul (.arg 0) (.const 0),
        Example.bin 3 .Shl (.arg 0) (.const 4294967295),
        Example.bin 4 .Sub (.inst 3) (.arg 0), Example.mk 2 .Ret [.inst 4]]⟩]⟩ ∧
    LocalOpts.returned 32 (fun _ => 1) Example.timesZero = some 0 ∧
    (LocalOpts.runOnBasicBlockAdv Example.timesZero 0).bind
      (LocalOpts.returned 32 (fun _ => 1)) = none := by
  decide

/-- C17 (failing input). On `a = b + 1; c = 1 - a; return c;` the two instructions are
an addition and a subtraction with the same constant, so the pass replaces the uses of
`c` by `b`; for `b = 1` the function returned `-1` before and returns `1` after.  On
the example of the source comment, `c = a - 1`, the value is kept. -/
theorem runOnMultiInstruction_constant_first :
    LocalOpts.runOnMultiInstruction Example.oneMinus 0 =
      some ⟨[⟨0, [Example.bin 1 .Add (.arg 0) (.const 1),
        Example.bin 2 .Sub (.const 1) (.inst 1), Example.mk 3 .Ret [.arg 0]]⟩]⟩ ∧
    LocalOpts.returned 32 (fun _ => 1) Example.oneMinus = some 4294967295 ∧
    (LocalOpts.runOnMultiInstruction Example.oneMinus 0).bind
      (LocalOpts.returned 32 (fun _ => 1)) = some 1 ∧
    LocalOpts.returned 32 (fun _ => 1) Example.plusMinus = some 1 ∧
    (LocalOpts.runOnMultiInstruction Example.plusMinus 0).bind
      (LocalOpts.returned 32 (fun _ => 1)) = some 1 := by
  decide

set_option maxRecDepth 20000 in
/-- C21 (counterexample). On three loops in sequence, with the trees of the analysis
manager computed from the control-flow graph, the walk of `run` is `(U1, U2)`,
`(U2, U3)` and the first pair is fused, after which the header of `U1` branches to
block 2 or to block 8.  For the second
pair the trees obtained at entry answer true, the trees of the function as it then is
answer false (the header of `U2` has become unreachable), and `run` goes on past the
check with the trees of entry: it reaches `loopFusion`, which finds no canonical
induction variable in the detached loop and has no result. -/
theorem run_checks_with_entry_trees :
    setOrder Loop.header (adjLoops Example.threeQueries Example.threeLoops []
        [Example.U1, Example.U2, Example.U3]) =
      [(Example.U1, Example.U2), (Example.U2, Example.U3)] ∧
    (runLoop Example.threeQueries (Example.dominatorTreeOf Example.threeLoops)
        (Example.postDominatorTreeOf Example.threeLoops)
        (Example.tableSE Example.sameCounts) ⟨Example.threeLoops, (), false, []⟩
        [(Example.U1, Example.U2)]).map (fun st => (st.fused, Example.succsOf st.F 1)) =
      some ([(Example.U1, Example.U2)], [2, 8]) ∧
    (runLoop Example.threeQueries (Example.dominatorTreeOf Example.threeLoops)
        (Example.postDominatorTreeOf Example.threeLoops)
        (Example.tableSE Example.sameCounts) ⟨Example.threeLoops, (), false, []⟩
        [(Example.U1, Example.U2)]).bind (fun st =>
          checkEquivalence Example.threeQueries st.F
            (Example.dominatorTreeOf Example.threeLoops)
            (Example.postDominatorTreeOf Example.threeLoops) (Example.U2, Example.U3)) =
      some true ∧
    (runLoop Example.threeQueries (Example.dominatorTreeOf Example.threeLoops)
        (Example.postDominatorTreeOf Example.threeLoops)
        (Example.tableSE Example.sameCounts) ⟨Example.threeLoops, (), false, []⟩
        [(Example.U1, Example.U2)]).bind (fun st =>
          checkEquivalence Example.threeQueries st.F (Example.dominatorTreeOf st.F)
            (Example.postDominatorTreeOf st.F) (Example.U2, Example.U3)) =
      some false ∧
    (runWithManager (Example.computedAnalyses [Example.U1, Example.U2, Example.U3])
      Example.threeQueries (Example.tableSE Example.sameCounts) Loop.header ()
      Example.threeLoops).isNone = true :=
  ⟨by decide, by decide, by decide, by decide, by decide⟩

theorem runLoop_fused_of_split {σ : Type} (LQ : LoopQueries) (DT PDT : DominatorTree)
    (SE : ScalarEvolution σ) (pre rest : List (Loop × Loop)) (st0 st1 st : RunState σ)
    (hnd : (pre ++ rest).Nodup) (h0 : st0.fused = [])
    (hpre : runLoop LQ DT PDT SE st0 pre = some st1)
    (hrest : runLoop LQ DT PDT SE st1 rest = some st) (q : Loop × Loop) :
    q ∈ st1.fused ↔ q ∈ pre ∧ q ∈ st.fused := by
  obtain ⟨a1, _, _⟩ := runLoop_invariant LQ DT PDT SE pre st0 st1 hpre
  obtain ⟨b1, b2, _⟩ := runLoop_invariant LQ DT PDT SE rest st1 st hrest
  constructor
  · intro hq
    refine ⟨?_, b2 q hq⟩
    rcases a1 q hq with h | h
    · rw [h0] at h; cases h
    · exact h
  · rintro ⟨hq1, hq2⟩
    rcases b1 q hq2 with h | h
    · exact h
    · exact absurd h (fun hm => (List.nodup_append.1 hnd).2.2 hq1 hm)

/-- C21 (amended). The trees `run` works with are those the analysis manager gives for
the function at entry: two analysis managers that agree on that function give the same
run, whatever they would answer for the functions that arise after a fusion.  When
`run` returns, every adjacent pair `p` is treated as follows, `st1` being the state
reached after the pairs walked before it, whose fused pairs are those of them `run`
fused: `checkEquivalence` is evaluated on the function of `st1` with the trees of
entry and returns; when it returns false the state is left as it is; when it returns
true `TripCount` is evaluated on the function of `st1` with the scalar-evolution state
of `st1`, which it leaves as the state after the pair; and `loopFusion` is applied to
`p` exactly when these two and `negDependencies` on the function of `st1` return
true. -/
theorem runWithManager_entry_trees {σ : Type} (AM AM2 : FunctionAnalysisManager)
    (LQ : LoopQueries) (SE : ScalarEvolution σ) (addr : Loop → Nat) (s : σ) (F : Function)
    (res : PreservedAnalyses × RunState σ)
    (hL : AM.loopInfo F = AM2.loopInfo F) (hD : AM.dominatorTree F = AM2.dominatorTree F)
    (hP : AM.postDominatorTree F = AM2.postDominatorTree F)
    (hrun : runWithManager AM LQ SE addr s F = some res) :
    runWithManager AM2 LQ SE addr s F = some res ∧
    ∀ pre p post, setOrder addr (adjLoops LQ F [] (AM.loopInfo F)) = pre ++ p :: post →
      ∃ st1 st2,
        runLoop LQ (AM.dominatorTree F) (AM.postDominatorTree F) SE
          ⟨F, s, false, []⟩ pre = some st1 ∧
        runLoop LQ (AM.dominatorTree F) (AM.postDominatorTree F) SE
          ⟨F, s, false, []⟩ (pre ++ [p]) = some st2 ∧
        (∀ q, q ∈ st1.fused ↔ q ∈ pre ∧ q ∈ res.2.fused) ∧
        (∃ b, checkEquivalence LQ st1.F (AM.dominatorTree F) (AM.postDominatorTree F) p =
          some b) ∧
        (checkEquivalence LQ st1.F (AM.dominatorTree F) (AM.postDominatorTree F) p =
          some false → st2 = st1) ∧
        (checkEquivalence LQ st1.F (AM.dominatorTree F) (AM.postDominatorTree F) p =
          some true → st2.se = (TripCount SE st1.se st1.F p).2) ∧
        (p ∈ res.2.fused ↔
          checkEquivalence LQ st1.F (AM.dominatorTree F) (AM.postDominatorTree F) p =
            some true ∧
          (TripCount SE st1.se st1.F p).1 = true ∧ negDependencies st1.F p = some true) := by
  refine ⟨?_, ?_⟩
  · unfold runWithManager at hrun ⊢
    rw [← hL, ← hD, ← hP]
    exact hrun
  · intro pre p post hsplit
    unfold runWithManager run at hrun
    cases hl : runLoop LQ (AM.dominatorTree F) (AM.postDominatorTree F) SE ⟨F, s, false, []⟩
        (setOrder addr (adjLoops LQ F [] (AM.loopInfo F))) with
    | none => simp [hl] at hrun
    | some st =>
      simp only [hl] at hrun
      have hst : res.2 = st := by
        split_ifs at hrun <;> simp only [Option.some.injEq] at hrun <;> rw [← hrun]
      have hnd : (setOrder addr (adjLoops LQ F [] (AM.loopInfo F))).Nodup :=
        (setOrder_perm addr _).nodup_iff.2 (adjLoops_nodup LQ F (AM.loopInfo F))
      rw [hsplit] at hl hnd
      obtain ⟨st1, hpre, hrest⟩ := (runLoop_append LQ _ _ SE pre (p :: post) _ st).1 hl
      have hp_pre : p ∉ pre := fun hmem =>
        (List.nodup_append.1 hnd).2.2 hmem (List.mem_cons_self _ _)
      have hp_post : p ∉ post := (List.nodup_cons.1 (List.nodup_append.1 hnd).2.1).1
      have hfused := runLoop_fused_of_split LQ _ _ SE pre (p :: post) _ st1 st hnd rfl hpre hrest
      have hp_st1 : p ∉ st1.fused := fun hmem => hp_pre ((hfused p).1 hmem).1
      have hrest2 := hrest
      simp only [runLoop] at hrest
      cases hx : runStep LQ (AM.dominatorTree F) (AM.postDominatorTree F) SE st1 p with
      | none => simp [hx] at hrest
      | some st2 =>
        simp only [hx] at hrest
        obtain ⟨b1, b2, _⟩ := runLoop_invariant LQ _ _ SE post st2 st hrest
        have hstep : runLoop LQ (AM.dominatorTree F) (AM.postDominatorTree F) SE
            ⟨F, s, false, []⟩ (pre ++ [p]) = some st2 :=
          (runLoop_append LQ _ _ SE pre [p] _ st2).2 ⟨st1, hpre, by simp [runLoop, hx]⟩
        rw [hst]
        refine ⟨st1, st2, hpre, hstep, hfused, ?_, ?_, ?_, ?_⟩
        · cases hce : checkEquivalence LQ st1.F (AM.dominatorTree F)
              (AM.postDominatorTree F) p with
          | none => simp [runStep, hce] at hx
          | some b => exact ⟨b, rfl⟩
        · intro hce
          simp only [runStep, hce, Option.some.injEq] at hx
          exact hx.symm
        · intro hce
          simp only [runStep, hce] at hx
          split at hx
          · simp only [Option.some.injEq] at hx
            rw [← hx]
          · split at hx
            · cases hx
            · simp only [Option.some.injEq] at hx
              rw [← hx]
            · split at hx
              · cases hx
              · simp only [Option.some.injEq] at hx
                rw [← hx]
        · rcases runStep_spec LQ _ _ SE st1 st2 p hx with ⟨hf, _, hc⟩ | ⟨hf, _, _, hc⟩
          · exact ⟨fun _ => hc,
              fun _ => b2 p (by rw [hf]; exact List.mem_append_right _ (List.mem_singleton.2 rfl))⟩
          · constructor
            · intro hmem
              rcases b1 p hmem with h | h
              · rw [hf] at h
                exact absurd h hp_st1
              · exact absurd h hp_post
            · intro h
              exact absurd h hc

set_option maxRecDepth 20000 in
theorem runWithManager_entry_trees_witness :
    runWithManager (Example.computedAnalyses [Example.U1, Example.U2, Example.U3])
        Example.threeQueries (Example.tableSE Example.thirdDiffers) Loop.header ()
        Example.threeLoops =
      some (PreservedAnalyses.none,
        ⟨Example.threeLoopsFused, (), true, [(Example.U1, Example.U2)]⟩) ∧
    (runLoop Example.threeQueries (Example.dominatorTreeOf Example.threeLoops)
        (Example.postDominatorTreeOf Example.threeLoops)
        (Example.tableSE Example.thirdDiffers) ⟨Example.threeLoops, (), false, []⟩
        [(Example.U1, Example.U2)]).map (fun st =>
          (st.fused,
            checkEquivalence Example.threeQueries st.F
              (Example.dominatorTreeOf Example.threeLoops)
              (Example.postDominatorTreeOf Example.threeLoops) (Example.U2, Example.U3),
            checkEquivalence Example.threeQueries st.F (Example.dominatorTreeOf st.F)
              (Example.postDominatorTreeOf st.F) (Example.U2, Example.U3))) =
      some ([(Example.U1, Example.U2)], some true, some false) ∧
    ∃ st1 st2,
      runLoop Example.threeQueries
          ((Example.computedAnalyses [Example.U1, Example.U2, Example.U3]).dominatorTree
            Example.threeLoops)
          ((Example.computedAnalyses [Example.U1, Example.U2, Example.U3]).postDominatorTree
            Example.threeLoops)
          (Example.tableSE Example.thirdDiffers) ⟨Example.threeLoops, (), false, []⟩
          [(Example.U1, Example.U2)] = some st1 ∧
      runLoop Example.threeQueries
          ((Example.computedAnalyses [Example.U1, Example.U2, Example.U3]).dominatorTree
            Example.threeLoops)
          ((Example.computedAnalyses [Example.U1, Example.U2, Example.U3]).postDominatorTree
            Example.threeLoops)
          (Example.tableSE Example.thirdDiffers) ⟨Example.threeLoops, (), false, []⟩
          ([(Example.U1, Example.U2)] ++ [(Example.U2, Example.U3)]) = some st2 ∧
      (∀ q, q ∈ st1.fused ↔
        q ∈ [(Example.U1, Example.U2)] ∧ q ∈ [(Example.U1, Example.U2)]) ∧
      (∃ b, checkEquivalence Example.threeQueries st1.F
          ((Example.computedAnalyses [Example.U1, Example.U2, Example.U3]).dominatorTree
            Example.threeLoops)
          ((Example.computedAnalyses [Example.U1, Example.U2, Example.U3]).postDominatorTree
            Example.threeLoops) (Example.U2, Example.U3) = some b) ∧
      (checkEquivalence Example.threeQueries st1.F
          ((Example.computedAnalyses [Example.U1, Example.U2, Example.U3]).dominatorTree
            Example.threeLoops)
          ((Example.computedAnalyses [Example.U1, Example.U2, Example.U3]).postDominatorTree
            Example.threeLoops) (Example.U2, Example.U3) = some false → st2 = st1) ∧
      (checkEquivalence Example.threeQueries st1.F
          ((Example.computedAnalyses [Example.U1, Example.U2, Example.U3]).dominatorTree
            Example.threeLoops)
          ((Example.computedAnalyses [Example.U1, Example.U2, Example.U3]).postDominatorTree
            Example.threeLoops) (Example.U2, Example.U3) = some true →
        st2.se = (TripCount (Example.tableSE Example.thirdDiffers) st1.se st1.F
          (Example.U2, Example.U3)).2) ∧
      ((Example.U2, Example.U3) ∈ [(Example.U1, Example.U2)] ↔
        checkEquivalence Example.threeQueries st1.F
          ((Example.computedAnalyses [Example.U1, Example.U2, Example.U3]).dominatorTree
            Example.threeLoops)
          ((Example.computedAnalyses [Example.U1, Example.U2, Example.U3]).postDominatorTree
            Example.threeLoops) (Example.U2, Example.U3) = some true ∧
        (TripCount (Example.tableSE Example.thirdDiffers) st1.se st1.F
          (Example.U2, Example.U3)).1 = true ∧
        negDependencies st1.F (Example.U2, Example.U3) = some true) :=
  ⟨rfl, by decide,
    (runWithManager_entry_trees
      (Example.computedAnalyses [Example.U1, Example.U2, Example.U3])
      (Example.analysesOf [Example.U1, Example.U2, Example.U3] Example.threeLoops)
      Example.threeQueries (Example.tableSE Example.thirdDiffers) Loop.header ()
      Example.threeLoops
      (PreservedAnalyses.none, ⟨Example.threeLoopsFused, (), true, [(Example.U1, Example.U2)]⟩)
      rfl rfl rfl rfl).2 [(Example.U1, Example.U2)] (Example.U2, Example.U3) []
      (by decide)⟩

/-- C22 (failing input). Two adjacent loops counting from 1: `adjLoops` records the
pair, `checkEquivalence`, `TripCount` and `negDependencies` return true, neither loop
has a canonical induction variable, and `loopFusion`, hence `run`, has no result. -/
theorem loopFusion_without_induction_variable :
    (Example.U1, Example.U2) ∈
      adjLoops Example.unguardedComputedIV Example.scenarioFromOne []
        [Example.U1, Example.U2] ∧
    checkEquivalence Example.unguardedComputedIV Example.scenarioFromOne Example.unguardedDT
      Example.unguardedPDT (Example.U1, Example.U2) = some true ∧
    (TripCount (Example.tableSE Example.sameCounts) () Example.scenarioFromOne
      (Example.U1, Example.U2)).1 = true ∧
    negDependencies Example.scenarioFromOne (Example.U1, Example.U2) = some true ∧
    Example.unguardedComputedIV.getCanonicalInductionVariable Example.scenarioFromOne
      Example.U1 = none ∧
    Example.unguardedComputedIV.getCanonicalInductionVariable Example.scenarioFromOne
      Example.U2 = none ∧
    loopFusion Example.unguardedComputedIV Example.scenarioFromOne Example.U1 Example.U2 =
      none ∧
    (run Example.unguardedComputedIV Example.unguardedDT Example.unguardedPDT
      (Example.tableSE Example.sameCounts) Loop.header () Example.scenarioFromOne
      [Example.U1, Example.U2]).isNone = true := by
  decide

/-- C26 (failing input). The header of the first loop ends in `br %2, mid, body1`:
successor 0, taken when `%2` is true, is the exit of the loop, and the loop target
`body1` is successor 1.  After `loopFusion` the header ends in a `br` on the same
`%2` whose successor 0, taken when `%2` is true, is `body1`: control enters the fused
loop for the values of the condition for which it left the first loop. -/
theorem loopFusion_inverted_header_branch :
    ((Example.scenarioInverted.getBlock 1).bind (fun B => B.getTerminator)).map
        (fun T => (T.getCondition, T.successors)) =
      some (some (.inst 2), [4, 2]) ∧
    (((loopFusion Example.unguardedQueries Example.scenarioInverted Example.U1
        Example.U2).bind (fun G => G.getBlock 1)).bind (fun B => B.getTerminator)).map
        (fun T => (T.getCondition, T.successors)) =
      some (some (.inst 2), [2, 8]) := by
  decide

/-- C27 (failing input). The second loop reads `*a`: the user `%15 = load %a` of the
base of the address computation of the first loop has one operand, the access to
its operand 1 is out of range, and `negDependencies`, hence `run`, has no result. -/
theorem negDependencies_load_operand_out_of_range :
    usersIn Example.scenarioReadBase Example.U2 (.arg 0) =
      [Example.mk 15 .Load [.arg 0]] ∧
    (Example.mk 15 .Load [.arg 0]).getOperand 1 = none ∧
    negDependencies Example.scenarioReadBase (Example.U1, Example.U2) = none ∧
    (run Example.unguardedQueries Example.unguardedDT Example.unguardedPDT
      (Example.tableSE Example.sameCounts) Loop.header () Example.scenarioReadBase
      [Example.U1, Example.U2]).isNone = true := by
  decide

theorem guardBranch_of_guardParent (LQ : LoopQueries) (F : Function) (L : Loop)
    (g : BlockId) (h : guardParent LQ F L = some g) :
    ∃ i I, LQ.getLoopGuardBranch F L = some i ∧ guardBranch LQ F L = some I := by
  unfold guardParent at h
  unfold guardBranch
  cases hq : LQ.getLoopGuardBranch F L with
  | none => simp [hq] at h
  | some i =>
    simp only [hq, Option.some_bind] at h ⊢
    unfold Function.getParent at h
    unfold Function.getInst
    cases hf : F.instructions.find? (fun p => p.2.id == i) with
    | none => simp [hf] at h
    | some p => exact ⟨i, p.2, rfl, rfl⟩

theorem adjLoopsPair_recorded (LQ : LoopQueries) (F : Function) (L1 L2 : Loop)
    (h : (L1, L2) ∈ adjLoopsPair LQ F [] L1 L2) :
    (LQ.isGuarded F L1 = true ∧ LQ.isGuarded F L2 = true ∧
      ∃ e E g, LQ.getExitBlock F L1 = some e ∧ guardParent LQ F L2 = some g ∧
        F.getBlock e = some E ∧ E.getSingleSuccessor = some g) ∨
    (LQ.isGuarded F L1 = false ∧ LQ.isGuarded F L2 = false ∧
      ∃ e, LQ.getExitBlock F L1 = some e ∧ LQ.getLoopPreheader F L2 = some e) := by
  unfold adjLoopsPair at h
  cases h1 : LQ.isGuarded F L1 <;> cases h2 : LQ.isGuarded F L2 <;>
    simp only [h1, h2, Bool.and_true, Bool.and_false, Bool.not_true, Bool.not_false,
      Bool.false_eq_true, if_true, if_false] at h
  · refine Or.inr ⟨rfl, rfl, ?_⟩
    cases he : LQ.getExitBlock F L1 with
    | none => simp [he] at h
    | some e =>
      cases hp : LQ.getLoopPreheader F L2 with
      | none => simp [he, hp] at h
      | some p =>
        simp only [he, hp] at h
        by_cases hep : e = p
        · subst hep
          exact ⟨e, rfl, rfl⟩
        · simp [hep] at h
  · simp at h
  · simp at h
  · refine Or.inl ⟨rfl, rfl, ?_⟩
    cases he : LQ.getExitBlock F L1 with
    | none => simp [he] at h
    | some e =>
      cases hg : guardParent LQ F L2 with
      | none => simp [he, hg] at h
      | some g =>
        simp only [he, hg] at h
        cases hE : F.getBlock e with
        | none => simp [hE] at h
        | some E =>
          simp only [hE] at h
          by_cases hs : E.getSingleSuccessor = some g
          · exact ⟨e, E, g, rfl, rfl, hE, hs⟩
          · simp [hs] at h

/-- On the function `adjLoops` is run on, every pair it records is a pair of two
guarded loops or of two unguarded loops: the two loops answer `isGuarded` alike, and
when the first loop of a recorded pair is guarded the guard branch of the second
exists.  Nothing is said of the function as it is after a fusion. -/
theorem adjLoops_same_guardedness (LQ : LoopQueries) (F : Function) (LI : List Loop)
    (L1 L2 : Loop) (h : (L1, L2) ∈ adjLoops LQ F [] LI) :
    LQ.isGuarded F L1 = LQ.isGuarded F L2 ∧
    (LQ.isGuarded F L1 = true →
      ∃ i I, LQ.getLoopGuardBranch F L2 = some i ∧ guardBranch LQ F L2 = some I) := by
  rw [adjLoops_mem] at h
  rcases h with h | ⟨_, _, h⟩
  · cases h
  · rcases adjLoopsPair_recorded LQ F L1 L2 h with ⟨h1, h2, e, E, g, _, hg, _, _⟩ | ⟨h1, h2, _⟩
    · exact ⟨h1.trans h2.symm, fun _ => guardBranch_of_guardParent LQ F L2 g hg⟩
    · refine ⟨h1.trans h2.symm, fun ht => ?_⟩
      rw [h1] at ht
      cases ht

theorem adjLoops_same_guardedness_witness :
    Example.guardedQueries.isGuarded Example.scenarioC Example.G1 =
        Example.guardedQueries.isGuarded Example.scenarioC Example.G2 ∧
    (Example.guardedQueries.isGuarded Example.scenarioC Example.G1 = true →
      ∃ i I, Example.guardedQueries.getLoopGuardBranch Example.scenarioC Example.G2 =
          some i ∧
        guardBranch Example.guardedQueries Example.scenarioC Example.G2 = some I) :=
  adjLoops_same_guardedness Example.guardedQueries Example.scenarioC
    [Example.G1, Example.G2] Example.G1 Example.G2 (by decide)

/-- The loop queries computed from the control-flow graph give, on scenario C and on
scenario A, the answers of the tables `guardedFacts` and `unguardedFacts`. -/
theorem cfgQueries_tables :
    [Example.G1, Example.G2].map (fun L =>
        (Example.guardBranchOf Example.scenarioC L, Example.exitBlockOf Example.scenarioC L,
          Example.uniqueExitBlockOf Example.scenarioC L, Example.preheaderOf Example.scenarioC L,
          Example.latchOf Example.scenarioC L, Example.canonicalIVOf Example.scenarioC L)) =
      [Example.G1, Example.G2].map (fun L =>
        ((Example.guardedFacts L).guardBranch, (Example.guardedFacts L).exitBlock,
          (Example.guardedFacts L).uniqueExitBlock, (Example.guardedFacts L).preheader,
          (Example.guardedFacts L).latch, (Example.guardedFacts L).canonicalIV)) ∧
    [Example.U1, Example.U2].map (fun L =>
        (Example.guardBranchOf Example.scenarioA L, Example.exitBlockOf Example.scenarioA L,
          Example.uniqueExitBlockOf Example.scenarioA L, Example.preheaderOf Example.scenarioA L,
          Example.latchOf Example.scenarioA L, Example.canonicalIVOf Example.scenarioA L)) =
      [Example.U1, Example.U2].map (fun L =>
        ((Example.unguardedFacts L).guardBranch, (Example.unguardedFacts L).exitBlock,
          (Example.unguardedFacts L).uniqueExitBlock, (Example.unguardedFacts L).preheader,
          (Example.unguardedFacts L).latch, (Example.unguardedFacts L).canonicalIV)) :=
  ⟨rfl, rfl⟩

set_option maxRecDepth 20000 in
/-- C23 (failing input). Three guarded loops in sequence, the loop queries computed from
the control-flow graph: `adjLoops` records `(G1, G2)` and `(G2, G3)`, all three loops
being guarded, and the walk takes `(G2, G3)` first.  That pair is fused, after which
`G1` still has its guard branch and `G2`, whose blocks now have edges to the two
blocks 13 and 15 outside it, has none.  For the pair `(G1, G2)`, recorded by
`adjLoops`, `checkEquivalence` finds the first loop guarded and reads the guard
branch of the second, which does not exist: it has no result, and neither has
`run`. -/
theorem run_reads_missing_guard_branch :
    adjLoops Example.cfgQueries Example.threeGuarded []
        [Example.G1, Example.G2, Example.G3] =
      [(Example.G1, Example.G2), (Example.G2, Example.G3)] ∧
    [Example.G1, Example.G2, Example.G3].map
        (Example.cfgQueries.isGuarded Example.threeGuarded) = [true, true, true] ∧
    setOrder Example.laterFirst (adjLoops Example.cfgQueries Example.threeGuarded []
        [Example.G1, Example.G2, Example.G3]) =
      [(Example.G2, Example.G3), (Example.G1, Example.G2)] ∧
    (runLoop Example.cfgQueries (Example.dominatorTreeOf Example.threeGuarded)
        (Example.postDominatorTreeOf Example.threeGuarded)
        (Example.tableSE Example.sameCounts) ⟨Example.threeGuarded, (), false, []⟩
        [(Example.G2, Example.G3)]).map (fun st =>
          (st.fused, Example.cfgQueries.isGuarded st.F Example.G1,
            Example.cfgQueries.getLoopGuardBranch st.F Example.G2,
            Example.exitTargets st.F Example.G2,
            checkEquivalence Example.cfgQueries st.F
              (Example.dominatorTreeOf Example.threeGuarded)
              (Example.postDominatorTreeOf Example.threeGuarded)
              (Example.G1, Example.G2))) =
      some ([(Example.G2, Example.G3)], true, none, [13, 15], none) ∧
    (run Example.cfgQueries (Example.dominatorTreeOf Example.threeGuarded)
      (Example.postDominatorTreeOf Example.threeGuarded)
      (Example.tableSE Example.sameCounts) Example.laterFirst () Example.threeGuarded
      [Example.G1, Example.G2, Example.G3]).isNone = true :=
  ⟨by decide, by decide, by decide, rfl, by decide⟩

theorem mem_successors_of_single (E : BasicBlock) (g : BlockId)
    (h : E.getSingleSuccessor = some g) : g ∈ E.successors := by
  unfold BasicBlock.getSingleSuccessor at h
  split at h
  · next s hs =>
    simp only [Option.some.injEq] at h
    subst h
    rw [hs]
    exact List.mem_singleton_self _
  · cases h

/-- C24. `adjLoops` walks all ordered pairs of the loop list, the pairs `(L, L)`
included, and applies the same test to each.  It does not record `(L, L)` when the
answers of the loop queries obey LLVM's contracts (the preheader branches to the
header; the block of the guard branch branches to the preheader) and the header of the
loop cannot be reached from its exit block: `S` is a set of blocks closed under
successors that holds the exit block and not the header.  A top-level loop, which is
what the loop list holds, lies on no cycle through a block outside it. -/
theorem adjLoops_irreflexive (LQ : LoopQueries) (F : Function) (LI : List Loop) (L : Loop)
    (S : List BlockId)
    (hpre : ∀ p, LQ.getLoopPreheader F L = some p →
      ∃ P, F.getBlock p = some P ∧ L.getHeader ∈ P.successors)
    (hguard : ∀ g, guardParent LQ F L = some g →
      ∃ G p, F.getBlock g = some G ∧ LQ.getLoopPreheader F L = some p ∧ p ∈ G.successors)
    (hexit : ∀ e, LQ.getExitBlock F L = some e → e ∈ S)
    (hheader : L.getHeader ∉ S)
    (hclosed : ∀ b ∈ S, ∀ B ∈ F.getBlock b, ∀ s ∈ B.successors, s ∈ S) :
    (L, L) ∉ adjLoops LQ F [] LI := by
  intro h
  rw [adjLoops_mem] at h
  rcases h with h | ⟨_, _, h⟩
  · cases h
  · rcases adjLoopsPair_recorded LQ F L L h with
      ⟨_, _, e, E, g, he, hg, hE, hs⟩ | ⟨_, _, e, he, hp⟩
    · obtain ⟨G, p, hG, hp, hpG⟩ := hguard g hg
      obtain ⟨P, hP, hh⟩ := hpre p hp
      have m1 : g ∈ S := hclosed e (hexit e he) E hE g (mem_successors_of_single E g hs)
      have m2 : p ∈ S := hclosed g m1 G hG p hpG
      exact hheader (hclosed p m2 P hP _ hh)
    · obtain ⟨P, hP, hh⟩ := hpre e hp
      exact hheader (hclosed e (hexit e he) P hP _ hh)

theorem adjLoops_irreflexive_witness :
    (Example.U1, Example.U1) ∉
      adjLoops Example.unguardedQueries Example.scenarioA [] [Example.U1, Example.U2] :=
  adjLoops_irreflexive Example.unguardedQueries Example.scenarioA [Example.U1, Example.U2]
    Example.U1 [4, 5, 6, 7, 8]
    (fun p hp => by
      have h0 : Example.unguardedQueries.getLoopPreheader Example.scenarioA Example.U1 =
          some 0 := rfl
      rw [h0] at hp
      cases hp
      exact ⟨_, rfl, by decide⟩)
    (fun g hg => by
      have h0 : guardParent Example.unguardedQueries Example.scenarioA Example.U1 = none :=
        rfl
      rw [h0] at hg
      cases hg)
    (fun e he => by
      have h0 : Example.unguardedQueries.getExitBlock Example.scenarioA Example.U1 =
          some 4 := rfl
      rw [h0] at he
      cases he
      decide)
    (by decide) (by decide)

/-- C25 (failing input). Two sibling loops, each with one loop-invariant instruction
(`%30` in the first, `%31` in the second).  The first invocation of `runOnLoop`, on
the first loop, moves `%30` into its preheader `ph1` and leaves `ToMove = [%30]`.  The
next invocation, on the second loop, finds `%31` invariant and moves `%30` and `%31`
into `ph2`: `%30` leaves `ph1`, though the first loop uses it.  Started from empty
collections the same invocation moves `%31` alone.  In the opposite order of
invocation the second one moves `%31` out of `ph2` into `ph1`. -/
theorem runOnLoop_moves_earlier_invariants :
    (LoopWalk.runOnLoop Example.speculatable Example.guardedDT (some 1) [9]
        Example.scenarioHoist Example.G1 ⟨[], []⟩).map
        (fun r => (r.1, r.2.1.ToMove, r.2.1.Invariants,
          (r.2.2.getBlock 1).map (fun B => B.insts.map (fun I => I.id)))) =
      some (true, [30], [30], some [30, 111]) ∧
    ((LoopWalk.runOnLoop Example.speculatable Example.guardedDT (some 1) [9]
        Example.scenarioHoist Example.G1 ⟨[], []⟩).bind (fun r =>
          LoopWalk.runOnLoop Example.speculatable Example.guardedDT (some 5) [11] r.2.2
            Example.G2 r.2.1)).map
        (fun r => (r.2.1.ToMove,
          (r.2.2.getBlock 1).map (fun B => B.insts.map (fun I => I.id)),
          (r.2.2.getBlock 5).map (fun B => B.insts.map (fun I => I.id)))) =
      some ([30, 31], some [111], some [30, 31, 116]) ∧
    ((LoopWalk.runOnLoop Example.speculatable Example.guardedDT (some 1) [9]
        Example.scenarioHoist Example.G1 ⟨[], []⟩).bind (fun r =>
          LoopWalk.runOnLoop Example.speculatable Example.guardedDT (some 5) [11] r.2.2
            Example.G2 ⟨[], []⟩)).map
        (fun r => (r.2.1.ToMove,
          (r.2.2.getBlock 1).map (fun B => B.insts.map (fun I => I.id)),
          (r.2.2.getBlock 5).map (fun B => B.insts.map (fun I => I.id)))) =
      some ([31], some [30, 111], some [31, 116]) ∧
    ((LoopWalk.runOnLoop Example.speculatable Example.guardedDT (some 5) [11]
        Example.scenarioHoist Example.G2 ⟨[], []⟩).bind (fun r =>
          LoopWalk.runOnLoop Example.speculatable Example.guardedDT (some 1) [9] r.2.2
            Example.G1 r.2.1)).map
        (fun r => (r.2.1.ToMove,
          (r.2.2.getBlock 1).map (fun B => B.insts.map (fun I => I.id)),
          (r.2.2.getBlock 5).map (fun B => B.insts.map (fun I => I.id)))) =
      some ([31, 30], some [31, 30, 111], some [116]) :=
  ⟨by decide, by decide, by decide, by decide⟩

/-- C28 (failing input). A loop nest whose inner header computes `%30 = mul N, N` and
`%31 = add %30, %1`, `%1` being the phi of the outer loop.  The invocation of
`runOnLoop` on the inner loop moves `%30`, `%31` into the inner preheader and leaves
`ToMove = [%30, %31]`.  The invocation on the outer loop scans the inner preheader,
appends `%30` again (its operands are arguments) and not `%31` (it uses `%1`), and
moves the list `[%30, %31, %30]` in order: the outer preheader ends up holding `%31`
before `%30`, which `%31` uses. -/
theorem runOnLoop_hoisted_use_before_definition :
    (LoopWalk.runOnLoop Example.speculatable (Example.dominatorTreeOf Example.nest) (some 3)
        [6] Example.nest Example.inner ⟨[], []⟩).map
        (fun r => (r.2.1.ToMove, r.2.1.Invariants,
          (r.2.2.getBlock 3).map (fun B => B.insts.map (fun I => I.id)))) =
      some ([30, 31], [30, 31], some [30, 31, 103]) ∧
    ((LoopWalk.runOnLoop Example.speculatable (Example.dominatorTreeOf Example.nest)
        (some 3) [6] Example.nest Example.inner ⟨[], []⟩).bind (fun r =>
          LoopWalk.runOnLoop Example.speculatable (Example.dominatorTreeOf r.2.2) (some 1)
            [7] r.2.2 Example.outer r.2.1)).map
        (fun r => (r.2.1.ToMove,
          (r.2.2.getBlock 1).map (fun B => B.insts.map (fun I => I.id)),
          (r.2.2.getInst 31).map (fun I => I.operands))) =
      some ([30, 31, 30], some [31, 30, 101], some [.inst 30, .inst 1]) :=
  ⟨by decide, by decide⟩

end LoopFusion
